import Mathlib

/-!
# Tool_Final: stroke geometry, polygon merge and differential growth

A shallow embedding of the parts of `src/sketch.js` and `src/export.js`
that the specification talks about.

Modelling conventions.

* A JavaScript number is an element of a linearly ordered field `K`
  (exact arithmetic).  The definitions are generic in `K`, so they can be
  evaluated over `ℚ` and reasoned about over `ℝ`.
* `Math.sqrt`, `cos`, `sin`, `random` and `noise` belong to the host
  (JavaScript / p5.js) and are passed as parameters.
* A JavaScript exception is an `Except String` error.
-/

namespace ToolFinal

/-! ## Vectors -/

/-- A point or vector with three coordinates (`createVector(x, y, z)`). -/
structure Vec3 (K : Type) where
  x : K
  y : K
  z : K
deriving DecidableEq

/-- A point with two coordinates (an object `{ x, y }`). -/
structure Vec2 (K : Type) where
  x : K
  y : K
deriving DecidableEq

/-! ## Camera: `project3DToScreen` and `screenTo3D` (sketch.js 5005-5076) -/

/-- The globals read by the two projection functions. -/
structure View (K : Type) where
  voxelRotX : K
  voxelRotY : K
  voxelZoom : K
  panOffsetX : K
  panOffsetY : K
  width : K
  height : K

section Camera
variable {K : Type} [LinearOrderedField K]

/-- The vector `vec` of `project3DToScreen` after "Rotate Y" and "Rotate X"
(sketch.js 5008-5026), before zoom and pan. -/
def rotateToView (cos sin : K → K) (v : View K) (x y z : K) : Vec3 K :=
  let cosX := cos (-v.voxelRotX)
  let sinX := sin (-v.voxelRotX)
  let cosY := cos (-v.voxelRotY)
  let sinY := sin (-v.voxelRotY)
  -- Rotate Y
  let xTemp := x * cosY + z * sinY
  let zTemp := -x * sinY + z * cosY
  let vx := xTemp
  let vz := zTemp
  -- Rotate X
  let yTemp := y * cosX - vz * sinX
  let zTemp2 := y * sinX + vz * cosX
  ⟨vx, yTemp, zTemp2⟩

/-- The function `project3DToScreen(x, y, z)` (sketch.js 5006-5037). -/
def project3DToScreen (cos sin : K → K) (v : View K) (x y z : K) : Vec2 K :=
  let vec := rotateToView cos sin v x y z
  -- Apply zoom
  let vx := vec.x * v.voxelZoom
  let vy := vec.y * v.voxelZoom
  -- Apply pan offset
  let vx := vx + v.panOffsetX
  let vy := vy + v.panOffsetY
  ⟨vx + v.width / 2, vy + v.height / 2⟩

/-- The function `screenTo3D(screenX, screenY, z = 0)` (sketch.js 5040-5076). -/
def screenTo3D (cos sin : K → K) (v : View K) (screenX screenY : K) (z : K := 0) : Vec3 K :=
  let x := screenX - v.width / 2
  let y := screenY - v.height / 2
  let x := x - v.panOffsetX
  let y := y - v.panOffsetY
  let x := x / v.voxelZoom
  let y := y / v.voxelZoom
  let z := z / v.voxelZoom
  let cosX := cos (-v.voxelRotX)
  let sinX := sin (-v.voxelRotX)
  let cosY := cos (-v.voxelRotY)
  let sinY := sin (-v.voxelRotY)
  -- Inverse rotate Y first
  let xTemp := x * cosY - z * sinY
  let zTemp := x * sinY + z * cosY
  let vx := xTemp
  let vz := zTemp
  -- Then inverse rotate X
  let yTemp := y * cosX + vz * sinX
  let zTemp2 := -y * sinX + vz * cosX
  ⟨vx, yTemp, zTemp2⟩

/-- The round trip of the claim: `screenTo3D` (default `z = 0`) applied to the
screen coordinates that `project3DToScreen` returns for `p`. -/
def roundTrip (cos sin : K → K) (v : View K) (p : Vec3 K) : Vec3 K :=
  let s := project3DToScreen cos sin v p.x p.y p.z
  screenTo3D cos sin v s.x s.y

end Camera

/-! ## Stroke polygon for the SVG export: `createStrokePolygonForSVG` (export.js 825-862) -/

section Geometry
variable {K : Type} [LinearOrderedField K]

instance : Inhabited (Vec2 K) := ⟨⟨0, 0⟩⟩
instance : Inhabited (Vec3 K) := ⟨⟨0, 0, 0⟩⟩

/-- The pair `(dx, dy)` that the loop body of `createStrokePolygonForSVG`
accumulates for index `i` (export.js 836-847): the difference to the next
point when there is one, plus the difference from the previous point when
there is one. -/
def tangentSum (points : List (Vec2 K)) (i : Nat) : K × K :=
  let p := points.getD i default
  let d0 : K × K := (0, 0)
  let d1 : K × K :=
    if i < points.length - 1 then
      let next := points.getD (i + 1) default
      (d0.1 + (next.x - p.x), d0.2 + (next.y - p.y))
    else d0
  if i > 0 then
    let prev := points.getD (i - 1) default
    (d1.1 + (p.x - prev.x), d1.2 + (p.y - prev.y))
  else d1

/-- The value `len` of the loop body: `Math.sqrt(dx * dx + dy * dy)`. -/
def tangentLen (sqrt : K → K) (points : List (Vec2 K)) (i : Nat) : K :=
  let d := tangentSum points i
  sqrt (d.1 * d.1 + d.2 * d.2)

/-- One iteration of the loop of `createStrokePolygonForSVG` (export.js 832-858)
on the pair of arrays `(leftSide, rightSide)`. -/
def strokeStep (sqrt : K → K) (points : List (Vec2 K)) (halfWidth : K)
    (sides : List (Vec2 K) × List (Vec2 K)) (i : Nat) : List (Vec2 K) × List (Vec2 K) :=
  let p := points.getD i default
  let d := tangentSum points i
  let len := sqrt (d.1 * d.1 + d.2 * d.2)
  if len > 1 / 100 then
    let perpX := -d.2 / len * halfWidth
    let perpY := d.1 / len * halfWidth
    (sides.1 ++ [⟨p.x - perpX, p.y - perpY⟩], sides.2 ++ [⟨p.x + perpX, p.y + perpY⟩])
  else sides

/-- The function `createStrokePolygonForSVG(points, width)`; `none` is `null`. -/
def createStrokePolygonForSVG (sqrt : K → K) (points : List (Vec2 K)) (width : K) :
    Option (List (Vec2 K)) :=
  if points.length < 2 then none
  else
    let halfWidth := width / 2
    let sides := (List.range points.length).foldl (strokeStep sqrt points halfWidth) ([], [])
    some (sides.1 ++ sides.2.reverse)

/-- A square root that is exact on non-negative numbers. -/
def ExactSqrt (sqrt : K → K) : Prop :=
  ∀ v : K, 0 ≤ v → 0 ≤ sqrt v ∧ sqrt v * sqrt v = v

/-- The left point pushed for index `i`. -/
def leftPoint (sqrt : K → K) (points : List (Vec2 K)) (halfWidth : K) (i : Nat) : Vec2 K :=
  let p := points.getD i default
  let d := tangentSum points i
  let len := sqrt (d.1 * d.1 + d.2 * d.2)
  ⟨p.x - -d.2 / len * halfWidth, p.y - d.1 / len * halfWidth⟩

/-- The right point pushed for index `i`. -/
def rightPoint (sqrt : K → K) (points : List (Vec2 K)) (halfWidth : K) (i : Nat) : Vec2 K :=
  let p := points.getD i default
  let d := tangentSum points i
  let len := sqrt (d.1 * d.1 + d.2 * d.2)
  ⟨p.x + -d.2 / len * halfWidth, p.y + d.1 / len * halfWidth⟩

/-- Euclidean distance of two points of the plane, with the host square root. -/
def dist2 (sqrt : K → K) (a b : Vec2 K) : K :=
  sqrt ((a.x - b.x) * (a.x - b.x) + (a.y - b.y) * (a.y - b.y))

/-! ## Outline smoothing: `smoothOutlinePoints` (sketch.js 3981-4006) -/

/-- One iteration of the loop of `smoothOutlinePoints` (sketch.js 3986-4003):
the point pushed for index `i`. -/
def smoothedAt (points : List (Vec3 K)) (i : Nat) : Vec3 K :=
  if i = 0 ∨ i = points.length - 1 then
    points.getD i default
  else
    let prev := points.getD (i - 1) default
    let curr := points.getD i default
    let next := points.getD (i + 1) default
    ⟨(prev.x + curr.x + next.x) / 3, (prev.y + curr.y + next.y) / 3,
      (prev.z + curr.z + next.z) / 3⟩

/-- The function `smoothOutlinePoints(points)`. -/
def smoothOutlinePoints (points : List (Vec3 K)) : List (Vec3 K) :=
  if points.length < 3 then points
  else
    (List.range points.length).foldl (fun smoothed i => smoothed ++ [smoothedAt points i]) []

/-- The smoothing loop of `drawSimpleTube` (sketch.js 2660-2663):
`for (pass = 0; pass < smoothingPasses; pass++) outline = smoothOutlinePoints(outline)`. -/
def smoothPasses : Nat → List (Vec3 K) → List (Vec3 K)
  | 0, outline => outline
  | passes + 1, outline => smoothPasses passes (smoothOutlinePoints outline)

/-- Second difference `p[i-1] - 2 p[i] + p[i+1]` of a polyline at index `i`. -/
def secondDiff (points : List (Vec3 K)) (i : Nat) : Vec3 K :=
  let a := points.getD (i - 1) default
  let b := points.getD i default
  let c := points.getD (i + 1) default
  ⟨a.x - 2 * b.x + c.x, a.y - 2 * b.y + c.y, a.z - 2 * b.z + c.z⟩

/-- Squared Euclidean norm of a vector. -/
def normSq (v : Vec3 K) : K := v.x * v.x + v.y * v.y + v.z * v.z

/-- Sum over the interior points `1 .. n-2` of the squared second difference. -/
def bendEnergy (points : List (Vec3 K)) : K :=
  ((List.range (points.length - 2)).map fun j => normSq (secondDiff points (j + 1))).sum

end Geometry

/-! ## Boolean polygon merge: the two declarations of `unionPolygons`

`sketch.js` declares `function unionPolygons(poly1, poly2)` twice at the top
level of the same script, at line 4145 and at line 5142.  A later function
declaration replaces an earlier one of the same name when the script is
loaded, so every call of `unionPolygons` (sketch.js 4996, 5426, 5572) runs the
declaration of line 5142.  Below `unionPolygons` is that declaration, and
`VectorInk.unionPolygons` is the replaced one of line 4145. -/

/-- The argument `polyType` of `AddPath`. -/
inductive PolyType where
  | ptSubject
  | ptClip
deriving DecidableEq

/-- The clipping engine `ClipperLib`, an external library: `AddPath` may throw,
`Execute` (given the subject and the clip path that were added) may throw or
returns its success flag together with the solution paths, and `Area` is the
signed area `ClipperLib.Clipper.Area`. -/
structure Clipper (P A : Type) where
  AddPath : List P → PolyType → Except String Unit
  Execute : List P → List P → Except String (Bool × List (List P))
  Area : List P → A

/-- A point in the clipper's format `{ X, Y }`. -/
structure IntPoint (K : Type) where
  X : K
  Y : K
deriving DecidableEq

section Merge
variable {K : Type} [LinearOrderedField K]

/-- The body of the `try` block of the declaration at sketch.js 4149-4176. -/
def VectorInk.unionTry {P : Type} (lib : Option (Clipper P K)) (poly1 poly2 : List P) :
    Except String (List P) :=
  match lib with
  | none => Except.error "ReferenceError: ClipperLib is not defined"
  | some cpr => do
    cpr.AddPath poly1 PolyType.ptSubject
    cpr.AddPath poly2 PolyType.ptClip
    let (_, solution) ← cpr.Execute poly1 poly2
    match solution with
    | largest :: rest =>
      let maxArea := cpr.Area largest
      let best := rest.foldl
        (fun (st : List P × K) poly =>
          let area := cpr.Area poly
          if area > st.2 then (poly, area) else st)
        (largest, maxArea)
      pure best.1
    | [] => pure poly1

/-- The declaration `unionPolygons(poly1, poly2)` at sketch.js 4145-4181;
`none` is `null`.  It is replaced by the declaration of line 5142. -/
def VectorInk.unionPolygons {P : Type} (lib : Option (Clipper P K))
    (poly1 poly2 : Option (List P)) : Option (List P) :=
  match poly1, poly2 with
  | none, _ => poly2
  | some _, none => poly1
  | some p1, some p2 =>
    match VectorInk.unionTry lib p1 p2 with
    | Except.ok r => some r
    | Except.error _ => poly1

/-- The conversion `p => ({ X: Math.round(p.x * scale), Y: Math.round(p.y * scale) })`
with `scale = 1000` (sketch.js 5152). -/
def toClipper (round : K → K) (p : Vec2 K) : IntPoint K :=
  ⟨round (p.x * 1000), round (p.y * 1000)⟩

/-- The conversion `p => ({ x: p.X / scale, y: p.Y / scale })` (sketch.js 5172). -/
def fromClipper (p : IntPoint K) : Vec2 K :=
  ⟨p.X / 1000, p.Y / 1000⟩

/-- The loop "Get outer boundary (largest polygon)" (sketch.js 5164-5169). -/
def largestOf {P : Type} (area : List P → K) (first : List P) (solution : List (List P)) :
    List P :=
  solution.foldl (fun largest poly => if area poly > area largest then poly else largest) first

/-- The declaration `unionPolygons(poly1, poly2)` at sketch.js 5142-5173, the one
in effect at run time.  `lib` is `window.ClipperLib`, `none` is `null`, and an
`Except.error` is an exception that reaches the caller. -/
def unionPolygons (round : K → K) (lib : Option (Clipper (IntPoint K) K))
    (poly1 poly2 : Option (List (Vec2 K))) : Except String (Option (List (Vec2 K))) :=
  match lib with
  | none => pure poly1
  | some cpr => do
    let subj ← match poly1 with
      | some p1 => pure (p1.map (toClipper round))
      | none => Except.error "TypeError: Cannot read properties of null (reading 'map')"
    let clip ← match poly2 with
      | some p2 => pure (p2.map (toClipper round))
      | none => Except.error "TypeError: Cannot read properties of null (reading 'map')"
    cpr.AddPath subj PolyType.ptSubject
    cpr.AddPath clip PolyType.ptClip
    let (_, solution) ← cpr.Execute subj clip
    match solution with
    | [] => pure poly1
    | first :: _ =>
      let largest := largestOf cpr.Area first solution
      pure (some (largest.map fromClipper))

deriving instance DecidableEq for Except

/-- `Math.round` on the rationals: the nearest integer, halves rounded up. -/
def jsRound (q : ℚ) : ℚ := (⌊q + 1 / 2⌋ : ℤ)

/-- A clipping engine whose `AddPath` always throws. -/
def throwingClipper : Clipper (IntPoint ℚ) ℚ where
  AddPath := fun _ _ => Except.error "Error: AddPath failed"
  Execute := fun _ _ => Except.error "Error: Execute failed"
  Area := fun _ => 0

/-- The signed area of a path by the shoelace formula, as
`ClipperLib.Clipper.Area` computes it up to orientation convention. -/
def shoelace (path : List (IntPoint ℚ)) : ℚ :=
  ((List.range path.length).map fun i =>
    let a := path.getD i ⟨0, 0⟩
    let b := path.getD ((i + 1) % path.length) ⟨0, 0⟩
    a.X * b.Y - b.X * a.Y).sum / 2

/-- A clipping engine that accepts every path and reports the fixed solution
list `solution`. -/
def constClipper (solution : List (List (IntPoint ℚ))) : Clipper (IntPoint ℚ) ℚ where
  AddPath := fun _ _ => Except.ok ()
  Execute := fun _ _ => Except.ok (true, solution)
  Area := shoelace

/-- The triangle `(0,0), (1,0), (0,1)`. -/
def triangle : List (Vec2 ℚ) := [⟨0, 0⟩, ⟨1, 0⟩, ⟨0, 1⟩]

/-- A counter-clockwise unit square in clipper coordinates: signed area 1000000. -/
def smallOuter : List (IntPoint ℚ) := [⟨0, 0⟩, ⟨1000, 0⟩, ⟨1000, 1000⟩, ⟨0, 1000⟩]

/-- A clockwise 3 by 3 square in clipper coordinates: signed area -9000000. -/
def bigHole : List (IntPoint ℚ) := [⟨5000, 0⟩, ⟨5000, 3000⟩, ⟨8000, 3000⟩, ⟨8000, 0⟩]

/-- A counter-clockwise 3 by 3 square in clipper coordinates: signed area
9000000. -/
def bigOuter : List (IntPoint ℚ) := [⟨5000, 0⟩, ⟨8000, 0⟩, ⟨8000, 3000⟩, ⟨5000, 3000⟩]

/-- A clockwise unit square inside `bigOuter`: signed area -1000000. -/
def smallHole : List (IntPoint ℚ) := [⟨6000, 1000⟩, ⟨6000, 2000⟩, ⟨7000, 2000⟩, ⟨7000, 1000⟩]

end Merge

/-! ## Differential growth (sketch.js 1749-1988)

The p5.js vector functions are modelled as p5.js documents them.  The loop of
`DifferentialLine3D.growth` re-reads `this.nodes.length` after every insertion
and need not finish, so it takes a fuel argument. -/

/-- The sources of randomness and the square root of the host: `sqrt` is
`Math.sqrt`, `random n lo hi` is the value of `random(lo, hi)` and `noise n` the
value of `noise(millis() / 1000)` when it is the `n`-th draw of the run. -/
structure Host (K : Type) where
  sqrt : K → K
  random : Nat → K → K → K
  noise : Nat → K

/-- What stops a computation: a JavaScript `TypeError`, or a loop that has not
finished within its fuel. -/
inductive Err where
  | typeError (msg : String)
  | outOfFuel
deriving DecidableEq

/-- The class `Node3D` (sketch.js 1752-1764). -/
structure Node3D (K : Type) where
  position : Vec3 K
  velocity : Vec3 K
  acceleration : Vec3 K
  maxForce : K
  maxSpeed : K
  desiredSeparation : K
  separationCohesionRation : K
  dontGrow : Bool
deriving DecidableEq

/-- The class `DifferentialLine3D` (sketch.js 1853-1861). -/
structure DifferentialLine3D (K : Type) where
  nodes : List (Node3D K)
  maxSpeed : K
  maxForce : K
  desiredSeparation : K
  separationCohesionRation : K
  maxEdgeLen : K
deriving DecidableEq

/-- An entry of `growthProgress` (sketch.js 1949-1953). -/
structure GrowthState (K : Type) where
  iteration : Nat
  diffLine : DifferentialLine3D K
  framesSinceLastGrowth : Nat
deriving DecidableEq

/-- What one call of `drawGrowthBranches` leaves behind: the map
`growthProgress`, the number of draws taken from the host so far, and the
points handed to `drawGrowthWithBrushStyle` (`none` when nothing is drawn). -/
structure Tick (K : Type) where
  progress : Nat → Option (GrowthState K)
  draws : Nat
  drawn : Option (List (Vec3 K))

section Growth
variable {K : Type} [LinearOrderedField K]

/-- The p5.js function `map(n, start1, stop1, start2, stop2)`. -/
def p5map (n start1 stop1 start2 stop2 : K) : K :=
  (n - start1) / (stop1 - start1) * (stop2 - start2) + start2

namespace Vec3

/-- The p5.Vector method `add`. -/
def add (a b : Vec3 K) : Vec3 K := ⟨a.x + b.x, a.y + b.y, a.z + b.z⟩

/-- The p5.Vector method `sub`. -/
def sub (a b : Vec3 K) : Vec3 K := ⟨a.x - b.x, a.y - b.y, a.z - b.z⟩

/-- The p5.Vector method `mult` with a number. -/
def mult (a : Vec3 K) (n : K) : Vec3 K := ⟨a.x * n, a.y * n, a.z * n⟩

/-- The p5.Vector method `div` with a number: dividing by 0 leaves the vector
as it is. -/
def div (a : Vec3 K) (n : K) : Vec3 K :=
  if n = 0 then a else ⟨a.x / n, a.y / n, a.z / n⟩

/-- The p5.Vector method `magSq`. -/
def magSq (a : Vec3 K) : K := a.x * a.x + a.y * a.y + a.z * a.z

/-- The p5.Vector method `mag`. -/
def mag (sqrt : K → K) (a : Vec3 K) : K := sqrt (magSq a)

/-- The p5.Vector method `normalize`. -/
def normalize (sqrt : K → K) (a : Vec3 K) : Vec3 K :=
  let len := mag sqrt a
  if len ≠ 0 then mult a (1 / len) else a

/-- The p5.Vector method `setMag`. -/
def setMag (sqrt : K → K) (a : Vec3 K) (n : K) : Vec3 K := mult (normalize sqrt a) n

/-- The p5.Vector method `limit`. -/
def limit (sqrt : K → K) (a : Vec3 K) (max : K) : Vec3 K :=
  let mSq := magSq a
  if mSq > max * max then mult (div a (sqrt mSq)) max else a

/-- The p5.Vector method `dist`. -/
def dist (sqrt : K → K) (a b : Vec3 K) : K := mag sqrt (sub b a)

/-- The static p5.Vector function `lerp(v1, v2, amt)`. -/
def lerp (v1 v2 : Vec3 K) (amt : K) : Vec3 K :=
  ⟨v1.x + (v2.x - v1.x) * amt, v1.y + (v2.y - v1.y) * amt, v1.z + (v2.z - v1.z) * amt⟩

end Vec3

/-- The element `nodes[i]`; reading `.position` of a missing element is a
`TypeError`. -/
def nodeAt (nodes : List (Node3D K)) (i : Nat) : Except Err (Node3D K) :=
  match nodes[i]? with
  | some n => pure n
  | none => Except.error (Err.typeError "Cannot read properties of undefined (reading 'position')")

namespace Node3D

/-- The constructor `new Node3D(x, y, z, mF, mS, dS, sCR, gS)`. -/
def new (x y z mF mS dS sCR : K) (gS : Bool) : Node3D K :=
  ⟨⟨x, y, z⟩, ⟨0, 0, 0⟩, ⟨0, 0, 0⟩, mF, mS, dS, sCR, gS⟩

/-- The method `seek(target)` (sketch.js 1793-1799). -/
def seek (h : Host K) (self : Node3D K) (target : Vec3 K) : Vec3 K :=
  let desired := Vec3.sub target self.position
  let desired := Vec3.setMag h.sqrt desired self.maxSpeed
  let steer := Vec3.sub desired self.velocity
  Vec3.limit h.sqrt steer self.maxForce

/-- One iteration of the loop of `separate` (sketch.js 1805-1818) on
`(steer, count, draws)`. -/
def separateStep (h : Host K) (self : Node3D K) (st : Vec3 K × Nat × Nat) (other : Node3D K) :
    Vec3 K × Nat × Nat :=
  let d := Vec3.dist h.sqrt self.position other.position
  if d > 0 ∧ d < self.desiredSeparation then
    let diff := Vec3.sub ⟨self.position.x, self.position.y, self.position.z⟩ other.position
    let diff := Vec3.normalize h.sqrt diff
    let diff := Vec3.div diff d
    let diff : Vec3 K := ⟨diff.x, diff.y, diff.z + h.random st.2.2 (-3 / 10) (3 / 10)⟩
    (Vec3.add st.1 diff, st.2.1 + 1, st.2.2 + 1)
  else st

/-- The method `separate(nodes)` (sketch.js 1801-1828), with the number of
draws taken from the host. -/
def separate (h : Host K) (self : Node3D K) (nodes : List (Node3D K)) (draws : Nat) :
    Vec3 K × Nat :=
  let st := nodes.foldl (separateStep h self) (⟨0, 0, 0⟩, 0, draws)
  let steer := st.1
  let count := st.2.1
  let steer := if count > 0 then Vec3.div steer (count : K) else steer
  let steer :=
    if Vec3.mag h.sqrt steer > 0 then
      let steer := Vec3.setMag h.sqrt steer self.maxSpeed
      let steer := Vec3.sub steer self.velocity
      Vec3.limit h.sqrt steer self.maxForce
    else steer
  (steer, st.2.2)

/-- The method `edgeCohesion(nodes)` (sketch.js 1830-1849); `thisIndex` is
`nodes.indexOf(this)`. -/
def edgeCohesion (h : Host K) (self : Node3D K) (nodes : List (Node3D K)) (thisIndex : Nat) :
    Except Err (Vec3 K) := do
  let sum : Vec3 K := ⟨0, 0, 0⟩
  let sum ←
    if thisIndex ≠ 0 ∧ thisIndex ≠ nodes.length - 1 then do
      let a ← nodeAt nodes (thisIndex - 1)
      let sum := Vec3.add sum a.position
      let b ← nodeAt nodes (thisIndex + 1)
      pure (Vec3.add sum b.position)
    else if thisIndex = 0 then do
      let last ← nodeAt nodes (nodes.length - 1)
      let me ← nodeAt nodes thisIndex
      let sum := Vec3.add sum (Vec3.lerp last.position me.position (7 / 10))
      let b ← nodeAt nodes (thisIndex + 1)
      pure (Vec3.add sum b.position)
    else if thisIndex = nodes.length - 1 then do
      let a ← nodeAt nodes (thisIndex - 1)
      let sum := Vec3.add sum a.position
      let first ← nodeAt nodes 0
      let me ← nodeAt nodes thisIndex
      pure (Vec3.add sum (Vec3.lerp first.position me.position (7 / 10)))
    else pure sum
  let sum := Vec3.div sum 2
  pure (seek h self sum)

/-- The method `differentiate(nodes)` (sketch.js 1777-1784). -/
def differentiate (h : Host K) (self : Node3D K) (nodes : List (Node3D K)) (thisIndex : Nat)
    (draws : Nat) : Except Err (Node3D K × Nat) := do
  let (separation, draws) := separate h self nodes draws
  let cohesion ← edgeCohesion h self nodes thisIndex
  let separation := Vec3.mult separation self.separationCohesionRation
  let self := { self with acceleration := Vec3.add self.acceleration separation }
  let self := { self with acceleration := Vec3.add self.acceleration cohesion }
  pure (self, draws)

/-- The method `update()` (sketch.js 1786-1791). -/
def update (h : Host K) (self : Node3D K) : Node3D K :=
  let velocity := Vec3.add self.velocity self.acceleration
  let velocity := Vec3.limit h.sqrt velocity self.maxSpeed
  let position := Vec3.add self.position velocity
  { self with velocity := velocity, position := position,
              acceleration := Vec3.mult self.acceleration 0 }

/-- The method `run(nodes)` (sketch.js 1766-1771) of the node at index
`thisIndex`; the node is updated in place, so the result is the new array. -/
def run (h : Host K) (nodes : List (Node3D K)) (thisIndex : Nat) (draws : Nat) :
    Except Err (List (Node3D K) × Nat) := do
  let self ← nodeAt nodes thisIndex
  if self.dontGrow then
    let (self, draws) ← differentiate h self nodes thisIndex draws
    pure (nodes.set thisIndex (update h self), draws)
  else pure (nodes, draws)

end Node3D

end Growth

section GrowthLine
variable {K : Type} [LinearOrderedField K]

namespace DifferentialLine3D

/-- The constructor `new DifferentialLine3D(mF, mS, dS, sCr, eL)`
(sketch.js 1854-1861): it stores `mF` as `maxSpeed` and `mS` as `maxForce`. -/
def new (mF mS dS sCr eL : K) : DifferentialLine3D K :=
  { nodes := [], maxSpeed := mF, maxForce := mS, desiredSeparation := dS,
    separationCohesionRation := sCr, maxEdgeLen := eL }

/-- The method `addNode(n)`: `this.nodes.push(n)`. -/
def addNode (line : DifferentialLine3D K) (n : Node3D K) : DifferentialLine3D K :=
  { line with nodes := line.nodes ++ [n] }

/-- The method `addNodeAt(n, i)`: `this.nodes.splice(i, 0, n)`. -/
def addNodeAt (line : DifferentialLine3D K) (n : Node3D K) (i : Nat) : DifferentialLine3D K :=
  { line with nodes := line.nodes.take i ++ n :: line.nodes.drop i }

/-- The loop of `growth()` (sketch.js 1880-1911) from index `i` on.
`growthIntensity` is the global of that name. -/
def growthLoop (h : Host K) (growthIntensity : K) :
    Nat → Nat → DifferentialLine3D K → Nat → Except Err (DifferentialLine3D K × Nat)
  | 0, i, line, draws =>
    if i < line.nodes.length then Except.error Err.outOfFuel else pure (line, draws)
  | fuel + 1, i, line, draws =>
    if i < line.nodes.length then do
      let n1 ← nodeAt line.nodes i
      let n2 ← nodeAt line.nodes ((i + 1) % line.nodes.length)
      let d := Vec3.dist h.sqrt n1.position n2.position
      if d > line.maxEdgeLen + p5map (h.noise draws) 0 1 (-2) 5 then
        let middleNode := Vec3.div (Vec3.add n1.position n2.position) 2
        let zVariation := h.random (draws + 1) (-5) 5 * (growthIntensity / 20)
        let mz := middleNode.z + zVariation
        let mx := middleNode.x + h.random (draws + 2) (-2) 2 * (growthIntensity / 30)
        let my := middleNode.y + h.random (draws + 3) (-2) 2 * (growthIntensity / 30)
        let insertIndex := (i + 1) % line.nodes.length
        let node := Node3D.new mx my mz
          (line.maxForce + h.random (draws + 4) (-1 / 10) (1 / 10))
          (line.maxSpeed + h.random (draws + 5) (-1 / 10) (1 / 10))
          (line.desiredSeparation + h.noise (draws + 6) * 5)
          line.separationCohesionRation true
        growthLoop h growthIntensity fuel (i + 1) (addNodeAt line node insertIndex) (draws + 7)
      else growthLoop h growthIntensity fuel (i + 1) line (draws + 1)
    else pure (line, draws)

/-- The method `growth()` (sketch.js 1878-1912). -/
def growth (h : Host K) (growthIntensity : K) (fuel : Nat) (line : DifferentialLine3D K)
    (draws : Nat) : Except Err (DifferentialLine3D K × Nat) :=
  growthLoop h growthIntensity fuel 0 line draws

/-- The loop `for (let n of this.nodes) n.run(this.nodes)` (sketch.js 1864-1866). -/
def runNodes (h : Host K) (nodes : List (Node3D K)) (draws : Nat) :
    Except Err (List (Node3D K) × Nat) :=
  (List.range nodes.length).foldlM (fun st i => Node3D.run h st.1 i st.2) (nodes, draws)

/-- The method `run()` (sketch.js 1863-1868). -/
def run (h : Host K) (growthIntensity : K) (fuel : Nat) (line : DifferentialLine3D K)
    (draws : Nat) : Except Err (DifferentialLine3D K × Nat) := do
  let (nodes, draws) ← runNodes h line.nodes draws
  growth h growthIntensity fuel { line with nodes := nodes } draws

/-- The method `getPoints()` (sketch.js 1914-1916). -/
def getPoints (line : DifferentialLine3D K) : List (Vec3 K) :=
  line.nodes.map fun n => ⟨n.position.x, n.position.y, n.position.z⟩

end DifferentialLine3D

/-- The seeding loop of `drawGrowthBranches` (sketch.js 1935-1947): one node for
each index `0, nodeSpacing, 2 * nodeSpacing, ...` below `tube.length`. -/
def seedNodes (h : Host K) (tube : List (Vec3 K)) (nodeSpacing : Nat)
    (maxForce maxSpeed desiredSeparation separationCohesionRatio : K)
    (line : DifferentialLine3D K) (draws : Nat) : DifferentialLine3D K × Nat :=
  ((List.range tube.length).filter fun i => i % nodeSpacing = 0).foldl
    (fun st i =>
      let p := tube.getD i default
      let node := Node3D.new p.x p.y p.z
        (maxForce + h.random st.2 (-3 / 10) (3 / 10))
        (maxSpeed + h.random (st.2 + 1) (-1 / 5) (1 / 5))
        (desiredSeparation + h.random (st.2 + 2) (-2) 2)
        separationCohesionRatio true
      (DifferentialLine3D.addNode st.1 node, st.2 + 3))
    (line, draws)

/-- The first part of `drawGrowthBranches` (sketch.js 1923-1954): the entry of
`growthProgress` for `tubeId`, created when there is none. -/
def getOrCreateState (h : Host K) (growthIntensity : K)
    (growthProgress : Nat → Option (GrowthState K)) (draws : Nat)
    (tube : List (Vec3 K)) (tubeId : Nat) : GrowthState K × Nat :=
  match growthProgress tubeId with
  | some state => (state, draws)
  | none =>
    let maxForce := p5map growthIntensity 1 50 (4 / 5) (5 / 2)
    let maxSpeed := p5map growthIntensity 1 50 (4 / 5) (5 / 2)
    let desiredSeparation := p5map growthIntensity 1 50 12 30
    let separationCohesionRatio : K := 6 / 5
    let maxEdgeLen : K := 8
    let diffLine := DifferentialLine3D.new maxForce maxSpeed desiredSeparation
      separationCohesionRatio maxEdgeLen
    let nodeSpacing := max 3 (tube.length / 40)
    let (diffLine, draws) := seedNodes h tube nodeSpacing maxForce maxSpeed desiredSeparation
      separationCohesionRatio diffLine draws
    ({ iteration := 0, diffLine := diffLine, framesSinceLastGrowth := 0 }, draws)

/-- The constant `MAX_POINTS` of `drawGrowthBranches`. -/
def MAX_POINTS : Nat := 800

/-- The constant `MAX_ITERATIONS` of `drawGrowthBranches`. -/
def MAX_ITERATIONS : Nat := 500

/-- The function `drawGrowthBranches(tube, tubeId, brushType)`
(sketch.js 1919-1988).  The brush type is only handed on to
`drawGrowthWithBrushStyle`, whose argument `points` is recorded in `drawn`. -/
def drawGrowthBranches (h : Host K) (growthIntensity : K) (fuel : Nat)
    (growthProgress : Nat → Option (GrowthState K)) (draws : Nat)
    (tube : List (Vec3 K)) (tubeId : Nat) : Except Err (Tick K) :=
  if tube.length < 3 then pure ⟨growthProgress, draws, none⟩
  else
    let (state, draws) := getOrCreateState h growthIntensity growthProgress draws tube tubeId
    let growthProgress := Function.update growthProgress tubeId (some state)
    let points := state.diffLine.getPoints
    if points.length > MAX_POINTS ∨ state.iteration > MAX_ITERATIONS then
      pure ⟨growthProgress, draws, some points⟩
    else
      let state := { state with framesSinceLastGrowth := state.framesSinceLastGrowth + 1 }
      if state.framesSinceLastGrowth < 2 then
        pure ⟨Function.update growthProgress tubeId (some state), draws, some points⟩
      else do
        let state := { state with framesSinceLastGrowth := 0 }
        let (diffLine, draws) ← state.diffLine.run h growthIntensity fuel draws
        let state := { state with diffLine := diffLine, iteration := state.iteration + 1 }
        let points := state.diffLine.getPoints
        pure ⟨Function.update growthProgress tubeId (some state), draws, some points⟩

/-- The result of `n` consecutive render ticks, each calling `drawGrowthBranches`
for the same tube, started from `growthProgress` with `draws` host draws
taken. -/
def ticks (h : Host K) (growthIntensity : K) (fuel : Nat) (tube : List (Vec3 K)) (tubeId : Nat)
    (growthProgress : Nat → Option (GrowthState K)) (draws : Nat) : Nat → Except Err (Tick K)
  | 0 => pure ⟨growthProgress, draws, none⟩
  | n + 1 => do
    let t ← ticks h growthIntensity fuel tube tubeId growthProgress draws n
    drawGrowthBranches h growthIntensity fuel t.progress t.draws tube tubeId

/-- The number of nodes of the growth state of `tubeId` (0 when there is none). -/
def nodeCount (growthProgress : Nat → Option (GrowthState K)) (tubeId : Nat) : Nat :=
  match growthProgress tubeId with
  | some state => state.diffLine.nodes.length
  | none => 0

/-- The iteration counter of the growth state of `tubeId` (0 when there is none). -/
def iterationOf (growthProgress : Nat → Option (GrowthState K)) (tubeId : Nat) : Nat :=
  match growthProgress tubeId with
  | some state => state.iteration
  | none => 0

/-- The tick gate of `drawGrowthBranches` (sketch.js 1966):
`points.length > MAX_POINTS || state.iteration > MAX_ITERATIONS`. -/
def frozen (state : GrowthState K) : Prop :=
  state.diffLine.getPoints.length > MAX_POINTS ∨ state.iteration > MAX_ITERATIONS

end GrowthLine

/-- The fields of a node that `run()` never assigns: they tell which node of
the list an entry is, whatever its position, velocity and acceleration. -/
def Node3D.fixedFields {K : Type} (n : Node3D K) : K × K × K × K × Bool :=
  (n.maxForce, n.maxSpeed, n.desiredSeparation, n.separationCohesionRation, n.dontGrow)

/-! ## A concrete host over the rationals

Used to evaluate the growth engine on concrete inputs.  `ratSqrt` is the
rational square root of Mathlib (`Rat.sqrt`) with a fuel-driven Newton
iteration; it is exact on squares of rationals. -/

/-- Newton iteration for the integer square root of `n` from `guess`. -/
def sqrtIter (n : Nat) : Nat → Nat → Nat
  | 0, guess => guess
  | fuel + 1, guess =>
    let next := (guess + n / guess) / 2
    if next < guess then sqrtIter n fuel next else guess

/-- The integer square root. -/
def natSqrt (n : Nat) : Nat := if n ≤ 1 then n else sqrtIter n (n / 2) (n / 2)

/-- The rational square root: exact on squares of rationals. -/
def ratSqrt (q : ℚ) : ℚ := mkRat (natSqrt q.num.toNat : ℤ) (natSqrt q.den)

/-- The host in which `random(lo, hi)` always returns the midpoint of its range
and `noise` always returns `2 / 7`. -/
def midHost : Host ℚ where
  sqrt := ratSqrt
  random := fun _ lo hi => (lo + hi) / 2
  noise := fun _ => 2 / 7

/-- A tube of four points on the x axis; it is seeded with two nodes, at
`x = 0` and `x = 3`. -/
def tube4 : List (Vec3 ℚ) := [⟨0, 0, 0⟩, ⟨1, 0, 0⟩, ⟨2, 0, 0⟩, ⟨3, 0, 0⟩]

/-- The map `growthProgress` with the single entry `tubeId ↦ state`. -/
def singleProgress {K : Type} (tubeId : Nat) (state : GrowthState K) :
    Nat → Option (GrowthState K) :=
  fun i => if i = tubeId then some state else none

/-- The growth state of `tube4` (growth intensity 1) with the iteration counter
at 500 and one frame counted since the last growth step: what the 1002nd render
tick of `tube4` finds when the node list still is the seeded one. -/
def stateAt500 : GrowthState ℚ :=
  { iteration := 500,
    diffLine := (getOrCreateState midHost 1 (fun _ => none) 0 tube4 0).1.diffLine,
    framesSinceLastGrowth := 1 }

/-- What a tick leaves for a tube: the iteration counter, the frame counter
and the node positions of its growth state, and the points drawn. -/
structure Summary (K : Type) where
  iteration : Nat
  framesSinceLastGrowth : Nat
  positions : List (Vec3 K)
  drawn : Option (List (Vec3 K))
deriving DecidableEq

/-- The summary of the result of a tick for tube `tubeId`; `none` when the tick
failed or left no growth state. -/
def tickSummary {K : Type} (r : Except Err (Tick K)) (tubeId : Nat) : Option (Summary K) :=
  match r with
  | Except.ok t =>
    match t.progress tubeId with
    | some state =>
      some ⟨state.iteration, state.framesSinceLastGrowth,
        state.diffLine.nodes.map (fun n => n.position), t.drawn⟩
    | none => none
  | Except.error _ => none

/-- A tube whose two seed nodes are 40 apart, so that `growth()` inserts nodes
between them. -/
def tubeFar : List (Vec3 ℚ) := [⟨0, 0, 0⟩, ⟨1, 0, 0⟩, ⟨2, 0, 0⟩, ⟨40, 0, 0⟩]

/-! ## Scene state: finishing a stroke (sketch.js 317-349, 3618-3649, 3758-3777) -/

/-- A finished tube: an array of points that may carry the property `tubeId`
(`none` when the property is undefined). -/
structure Tube (K : Type) where
  points : List (Vec3 K)
  tubeId : Option Nat
deriving DecidableEq

/-- The globals of the sketch that the stroke handlers read and write. -/
structure Scene (K : Type) where
  tubes : List (Tube K)
  currentTube : List (Vec3 K)
  tubeIdCounter : Nat
  isDrawing : Bool
  drawingMethod : String
deriving DecidableEq

section SceneDefs
variable {K : Type}

/-- The stroke part of `mouseReleased()` (sketch.js 3618-3649); `leftOfPanel` is
`mouseX < panelRect.left`. -/
def mouseReleased (s : Scene K) (leftOfPanel : Bool) : Scene K :=
  if s.isDrawing ∧ s.drawingMethod = "freehand" ∧ s.currentTube.length > 1 ∧ leftOfPanel then
    let finishedTube : Tube K := ⟨s.currentTube, some s.tubeIdCounter⟩
    { s with tubes := s.tubes ++ [finishedTube], tubeIdCounter := s.tubeIdCounter + 1,
             currentTube := [] }
  else if s.isDrawing ∧ s.drawingMethod = "freehand" then
    { s with currentTube := [] }
  else s

/-- The handler of `select("#drawingMethod").changed` (sketch.js 317-349);
`value` is the selected method and `arrowStart` the start position computed
for the arrow (the origin, snapped to the grid when the grid is shown). -/
def drawingMethodChanged (s : Scene K) (value : String) (arrowStart : Vec3 K) : Scene K :=
  let s :=
    if s.currentTube.length > 1 then
      let finishedTube : Tube K := ⟨s.currentTube, some s.tubeIdCounter⟩
      { s with tubes := s.tubes ++ [finishedTube], tubeIdCounter := s.tubeIdCounter + 1 }
    else s
  let s := { s with drawingMethod := value }
  let s := { s with currentTube := [] }
  if s.drawingMethod = "arrow" ∧ s.isDrawing then
    { s with currentTube := [arrowStart] }
  else s

/-- The stroke part of `keyPressed()` for the space key when the animation is
not paused (sketch.js 3726-3777); `arrowStart` as in `drawingMethodChanged`, and
`tendrils` are the tubes that `addTendrilsToTubes()` pushes (none unless the
brush effect is "tendrils"; they carry no `tubeId`). -/
def spacePressed (s : Scene K) (arrowStart : Vec3 K) (tendrils : List (List (Vec3 K))) :
    Scene K :=
  let s := { s with isDrawing := !s.isDrawing }
  if s.isDrawing then
    if s.drawingMethod = "arrow" then { s with currentTube := [arrowStart] }
    else { s with currentTube := [] }
  else
    if s.currentTube.length > 1 then
      { s with tubes := s.tubes ++ [⟨s.currentTube, none⟩] ++ tendrils.map (fun t => ⟨t, none⟩),
               currentTube := [] }
    else s

/-- Every `tubeId` in `tubes` was taken from `tubeIdCounter`, so it is smaller
than the counter. -/
def idsBelowCounter (s : Scene K) : Prop :=
  ∀ t ∈ s.tubes, ∀ id, t.tubeId = some id → id < s.tubeIdCounter

/-- The keys under which `draw()` files the growth states of the tubes
(sketch.js 736-742): `tube.tubeId`, or the index `i` when it is undefined. -/
def growthKeys (tubes : List (Tube K)) : List Nat :=
  (List.range tubes.length).map fun i =>
    match tubes[i]? with
    | some tube =>
      match tube.tubeId with
      | some id => id
      | none => i
    | none => i

end SceneDefs

/-! ## Undo / redo history (sketch.js 3919-3966) -/

/-- An entry of `tubesHistory`. -/
structure HistoryState (K G : Type) where
  tubes : List (Tube K)
  gridCells : G
deriving DecidableEq

/-- The globals of the undo / redo history. -/
structure History (K G : Type) where
  tubes : List (Tube K)
  filledCells : G
  tubesHistory : List (HistoryState K G)
  historyIndex : Int
  maxHistorySize : Nat
deriving DecidableEq

section HistoryDefs
variable {K G : Type}

/-- The copy `tube.map(v => createVector(v.x, v.y, v.z))`: a new array of new
vectors; `Array.prototype.map` does not copy the property `tubeId`. -/
def copyTube (tube : Tube K) : Tube K :=
  ⟨tube.points.map (fun v => ⟨v.x, v.y, v.z⟩), none⟩

/-- The function `saveToHistory()` (sketch.js 3921-3942). -/
def saveToHistory (a : History K G) : History K G :=
  let tubesHistory := a.tubesHistory.take (a.historyIndex + 1).toNat
  let tubeCopy := a.tubes.map copyTube
  let cellsCopy := a.filledCells
  let tubesHistory := tubesHistory ++ [⟨tubeCopy, cellsCopy⟩]
  if tubesHistory.length > a.maxHistorySize then
    { a with tubesHistory := tubesHistory.drop 1 }
  else
    { a with tubesHistory := tubesHistory, historyIndex := a.historyIndex + 1 }

/-- The assignment of `undo()` and `redo()` that restores the entry at
`historyIndex`; reading a missing entry is a `TypeError`. -/
def restore (a : History K G) : Except String (History K G) :=
  match a.tubesHistory[a.historyIndex.toNat]? with
  | some historyState =>
    pure { a with tubes := historyState.tubes.map copyTube,
                  filledCells := historyState.gridCells }
  | none => Except.error "TypeError: Cannot read properties of undefined (reading 'tubes')"

/-- The function `undo()` (sketch.js 3944-3954). -/
def undo (a : History K G) : Except String (History K G) :=
  if a.historyIndex > 0 then
    restore { a with historyIndex := a.historyIndex - 1 }
  else pure a

/-- The function `redo()` (sketch.js 3956-3966). -/
def redo (a : History K G) : Except String (History K G) :=
  if a.historyIndex < (a.tubesHistory.length : Int) - 1 then
    restore { a with historyIndex := a.historyIndex + 1 }
  else pure a

end HistoryDefs

/-- A history with one snapshot (of an empty scene) and a scene that now holds
one tube with `tubeId = 7`. -/
def historyWithTube : History ℚ Unit :=
  { tubes := [⟨[⟨0, 0, 0⟩, ⟨1, 2, 3⟩], some 7⟩], filledCells := (),
    tubesHistory := [⟨[], ()⟩], historyIndex := 0, maxHistorySize := 50 }

/-! ## Brush renderer: `drawSimpleTube` (sketch.js 2228-3037)

A drawing primitive is a box, a text cube or a shape (`beginShape()` ...
`endShape()`); setting stroke, fill or material draws nothing and is left
out.  The pixel, simple and default brushes are modelled in full.  For the
surface, smooth, smooth-outline and outline brushes the guard at the top of
the branch is modelled and the commands after it are a parameter.  The second
`else if (type === "outline")` and the second `else if (type === "pixel")`
(sketch.js 2940, 3017) can never be reached and are left out. -/

/-- A drawing primitive. -/
inductive Prim (K : Type) where
  | box (pos : Vec3 K) (size : K)
  | miniTextCube (pos : Vec3 K) (size : K)
  | shape (curved : Bool) (vertices : List (Vec3 K))
deriving DecidableEq

/-- The globals that the brushes read. -/
structure RenderParams (K : Type) where
  basePixelSize : K
  waveAmpAndBlurRadius : K
  waveAnimationEnabled : Bool
  frameCount : K
  outlineLevels : Nat
  outlineSpacing : K
  outlineSmoothness : K
  weingartActive : Bool

/-- The commands of the surface, smooth, smooth-outline and outline brushes
that follow the guard of their branch. -/
structure BrushBodies (K : Type) where
  surface : List (Vec3 K) → List (Prim K)
  smooth : List (Vec3 K) → List (Prim K)
  smoothOutline : List (Vec3 K) → List (Prim K)
  outline : List (Vec3 K) → List (Prim K)

section Brushes
variable {K : Type} [LinearOrderedField K] [FloorRing K]

/-- The indices `0, step, 2 * step, ...` below `len` that the loop
`for (let i = 0; i < len; i += step)` visits. -/
def strideIndices (len step : Nat) : List Nat :=
  (List.range len).filter fun i => i % step = 0

/-- The size `wave` of the box drawn for index `i` (sketch.js 2603-2605). -/
def pixelWave (sin : K → K) (env : RenderParams K) (i : Nat) : K :=
  if env.waveAnimationEnabled then
    p5map (sin ((i : K) * (3 / 10) - env.frameCount * (1 / 10))) (-1) 1
      (env.basePixelSize * (1 / 2)) (env.basePixelSize + env.waveAmpAndBlurRadius)
  else env.basePixelSize + env.waveAmpAndBlurRadius * (1 / 2)

/-- The boxes (text cubes when the Weingart effect is active) of the pixel brush
(sketch.js 2571-2611). -/
def pixelBoxes (sin : K → K) (env : RenderParams K) (effectTube : List (Vec3 K)) :
    List (Prim K) :=
  let step := max 1 (effectTube.length / 500)
  (strideIndices effectTube.length step).map fun i =>
    let pos := effectTube.getD i default
    let wave := pixelWave sin env i
    if env.weingartActive then Prim.miniTextCube ⟨pos.x, pos.y, pos.z⟩ wave
    else Prim.box ⟨pos.x, pos.y, pos.z⟩ wave

/-- The pair `(dx, dy)` of the outline loop (sketch.js 2629-2640). -/
def tangentSum3 (tube : List (Vec3 K)) (i : Nat) : K × K :=
  let p := tube.getD i default
  let d0 : K × K := (0, 0)
  let d1 : K × K :=
    if i < tube.length - 1 then
      let next := tube.getD (i + 1) default
      (d0.1 + (next.x - p.x), d0.2 + (next.y - p.y))
    else d0
  if i > 0 then
    let prev := tube.getD (i - 1) default
    (d1.1 + (p.x - prev.x), d1.2 + (p.y - prev.y))
  else d1

/-- The points pushed to `leftOutline` and `rightOutline` for index `i`
(sketch.js 2624-2654). -/
def outlinePointsAt (sin sqrt : K → K) (env : RenderParams K) (effectTube : List (Vec3 K))
    (outlineOffset : K) (i : Nat) : Vec3 K × Vec3 K :=
  let p := effectTube.getD i default
  let d := tangentSum3 effectTube i
  let len := sqrt (d.1 * d.1 + d.2 * d.2)
  let offset : K × K :=
    if len > 1 / 100 then (-d.2 / len * outlineOffset, d.1 / len * outlineOffset)
    else (outlineOffset, 0)
  let wave : K :=
    if env.waveAnimationEnabled then
      p5map (sin ((i : K) * (3 / 10) - env.frameCount * (1 / 10))) (-1) 1 (7 / 10) (13 / 10)
    else 1
  let waveOffsetX := offset.1 * wave
  let waveOffsetY := offset.2 * wave
  (⟨p.x - waveOffsetX, p.y - waveOffsetY, p.z⟩, ⟨p.x + waveOffsetX, p.y + waveOffsetY, p.z⟩)

/-- The arrays `leftOutline` and `rightOutline` of one outline level after the
optional smoothing (sketch.js 2619-2664); `level` runs from 1. -/
def pixelOutline (sin sqrt : K → K) (env : RenderParams K) (effectTube : List (Vec3 K))
    (level : Nat) : List (Vec3 K) × List (Vec3 K) :=
  let outlineOffset := env.basePixelSize * (3 / 2) + (level : K) * env.outlineSpacing
  let pts := (List.range effectTube.length).map
    (outlinePointsAt sin sqrt env effectTube outlineOffset)
  let leftOutline := pts.map Prod.fst
  let rightOutline := pts.map Prod.snd
  if env.outlineSmoothness > 0 then
    let smoothingPasses := ⌊p5map env.outlineSmoothness 0 100 0 4⌋₊
    (smoothPasses smoothingPasses leftOutline, smoothPasses smoothingPasses rightOutline)
  else (leftOutline, rightOutline)

/-- The vertices of one outline curve (sketch.js 2666-2681): with smoothing and
more than 2 points the first and the last point are repeated as curve control
points. -/
def outlineCurve (env : RenderParams K) (outline : List (Vec3 K)) : Prim K :=
  if env.outlineSmoothness > 0 ∧ outline.length > 2 then
    Prim.shape true
      ([outline.getD 0 default] ++ outline ++ [outline.getD (outline.length - 1) default])
  else Prim.shape false outline

/-- The shapes drawn for one outline level (sketch.js 2666-2711): the left and
the right curve and, when both are non-empty, the two closing segments. -/
def outlineShapes (env : RenderParams K) (o : List (Vec3 K) × List (Vec3 K)) : List (Prim K) :=
  [outlineCurve env o.1, outlineCurve env o.2] ++
    (if o.1.length > 0 ∧ o.2.length > 0 then
      [Prim.shape false [o.1.getD 0 default, o.2.getD 0 default],
       Prim.shape false [o.1.getD (o.1.length - 1) default, o.2.getD (o.1.length - 1) default]]
    else [])

/-- The outline levels `1 .. outlineLevels` of the pixel brush. -/
def pixelOutlines (sin sqrt : K → K) (env : RenderParams K) (effectTube : List (Vec3 K)) :
    List (List (Vec3 K) × List (Vec3 K)) :=
  if env.outlineLevels ≥ 1 ∧ effectTube.length > 1 then
    (List.range env.outlineLevels).map fun l => pixelOutline sin sqrt env effectTube (l + 1)
  else []

/-- The function `drawSimpleTube(tube, type)`: the primitives it draws, in
order. -/
def drawSimpleTube (sin sqrt : K → K) (env : RenderParams K) (bodies : BrushBodies K)
    (tube : List (Vec3 K)) (type : String) : List (Prim K) :=
  let effectTube := tube
  if effectTube.length = 0 then []
  else if type = "surface" then
    if effectTube.length < 3 then [] else bodies.surface effectTube
  else if type = "smooth" then
    if effectTube.length < 2 then [] else bodies.smooth effectTube
  else if type = "simple" then
    effectTube.map fun pos => Prim.box ⟨pos.x, pos.y, pos.z⟩ env.basePixelSize
  else if type = "pixel" then
    pixelBoxes sin env effectTube ++
      ((pixelOutlines sin sqrt env effectTube).map (outlineShapes env)).flatten
  else if type = "smooth-outline" then
    if effectTube.length < 2 then [] else bodies.smoothOutline effectTube
  else if type = "outline" then
    if tube.length < 2 then [] else bodies.outline tube
  else
    let step := max 1 (effectTube.length / 500)
    (strideIndices effectTube.length step).map fun i =>
      let pos := effectTube.getD i default
      Prim.box ⟨pos.x, pos.y, pos.z⟩ env.basePixelSize

/-- The boxes among a list of primitives. -/
def boxesOf (prims : List (Prim K)) : List (Vec3 K × K) :=
  prims.filterMap fun p =>
    match p with
    | Prim.box pos size => some (pos, size)
    | _ => none

/-- The sketch's initial settings (sketch.js 63-74) with the wave animation
switched off. -/
def defaultParams : RenderParams ℚ :=
  { basePixelSize := 8, waveAmpAndBlurRadius := 15, waveAnimationEnabled := false,
    frameCount := 0, outlineLevels := 0, outlineSpacing := 8, outlineSmoothness := 0,
    weingartActive := false }

/-- Bodies that draw one (empty) shape, to tell a guard from a body. -/
def markerBodies : BrushBodies ℚ :=
  { surface := fun _ => [Prim.shape false []],
    smooth := fun _ => [Prim.shape false []],
    smoothOutline := fun _ => [Prim.shape false []],
    outline := fun _ => [Prim.shape false []] }

/-- The straight two-point tube of the scenarios. -/
def straightTube : List (Vec3 ℚ) := [⟨0, 0, 0⟩, ⟨10, 0, 0⟩]

end Brushes

/-- The settings of the outline scenario: `basePixelSize = 8`,
`outlineLevels = 3`, `outlineSpacing = 8`, wave animation off. -/
def outlineParams : RenderParams ℚ :=
  { basePixelSize := 8, waveAmpAndBlurRadius := 15, waveAnimationEnabled := false,
    frameCount := 0, outlineLevels := 3, outlineSpacing := 8, outlineSmoothness := 0,
    weingartActive := false }

/-- A host whose square root is exact on squares, whose `random(lo, hi)` always
returns the midpoint of its range and whose `noise` always returns `2 / 7`
(so that the noise term of the edge threshold, `map(2/7, 0, 1, -2, 5)`, is 0). -/
def MidpointHost {K : Type} [LinearOrderedField K] (h : Host K) : Prop :=
  (∀ a : K, h.sqrt (a * a) = |a|) ∧ (∀ n lo hi, h.random n lo hi = (lo + hi) / 2) ∧
    (∀ n, h.noise n = 2 / 7)

/-- The length `δ` of an edge that `growth()` halves exactly `k` times before it
is no longer above the threshold 8: `8 * 2^j < δ` for `j < k` and
`δ ≤ 8 * 2^k`. -/
def HalvedTimes {K : Type} [LinearOrderedField K] (k : Nat) (δ : K) : Prop :=
  0 ≤ δ ∧ δ ≤ 8 * 2 ^ k ∧ ∀ j, j < k → 8 * 2 ^ j < δ

/-- A chain of points on the x axis, each to the right of the one before at a
distance that `growth()` halves exactly `k` times. -/
def AxisChain {K : Type} [LinearOrderedField K] (k : Nat) (ps : List (Vec3 K)) : Prop :=
  ∀ j, j < ps.length - 1 →
    (ps.getD j ⟨0, 0, 0⟩).y = 0 ∧ (ps.getD j ⟨0, 0, 0⟩).z = 0 ∧
    (ps.getD (j + 1) ⟨0, 0, 0⟩).y = 0 ∧ (ps.getD (j + 1) ⟨0, 0, 0⟩).z = 0 ∧
    HalvedTimes k ((ps.getD (j + 1) ⟨0, 0, 0⟩).x - (ps.getD j ⟨0, 0, 0⟩).x)

instance HalvedTimes.decidable {K : Type} [LinearOrderedField K] (k : Nat) (δ : K) :
    Decidable (HalvedTimes k δ) := by
  unfold HalvedTimes
  infer_instance

instance AxisChain.decidable {K : Type} [LinearOrderedField K] (k : Nat) (ps : List (Vec3 K)) :
    Decidable (AxisChain k ps) := by
  unfold AxisChain
  infer_instance

/-- A tube of 120 points on the x axis, `2^22 = 4194304` apart; every
coordinate is an integer below `2^29`. -/
def spreadTube : List (Vec3 ℚ) :=
  (List.range 120).map fun (i : Nat) => ⟨(i : ℚ) * 4194304, 0, 0⟩

/-- The positions of the 40 seed nodes of `spreadTube` (at `x = j * 3 * 2^22`)
after the force step of the first `run()`: every node but the last has moved by
`maxSpeed = 4/5` to the right, the last one by `4/5` to the left. -/
def spreadMoved : List (Vec3 ℚ) :=
  (List.range 40).map fun (j : Nat) =>
    if j = 39 then ⟨117 * 4194304 - 4 / 5, 0, 0⟩ else ⟨(j : ℚ) * 12582912 + 4 / 5, 0, 0⟩

/-! ## Outline ribbons of the smooth brush (sketch.js 2462-2541) -/

section SmoothBrushOutline
variable {K : Type} [LinearOrderedField K] [FloorRing K]

/-- The factor `wave` of the outline loops (sketch.js 2499 and 2649). -/
def outlineWave (sin : K → K) (env : RenderParams K) (i : Nat) : K :=
  if env.waveAnimationEnabled then
    p5map (sin ((i : K) * (3 / 10) - env.frameCount * (1 / 10))) (-1) 1 (7 / 10) (13 / 10)
  else 1

/-- The length `len` of the summed-neighbour tangent at index `i`
(sketch.js 2493 and 2643). -/
def outlineTangentLen (sqrt : K → K) (effectTube : List (Vec3 K)) (i : Nat) : K :=
  let d := tangentSum3 effectTube i
  sqrt (d.1 * d.1 + d.2 * d.2)

/-- The arrays `leftOutline` and `rightOutline` of one outline level of the
smooth brush after the optional smoothing (sketch.js 2468-2515); the loop
that fills them (sketch.js 2475-2505) has the statements of the loop of the
pixel brush (sketch.js 2625-2655).  `level` runs from 1. -/
def smoothBrushOutline (sin sqrt : K → K) (env : RenderParams K) (effectTube : List (Vec3 K))
    (level : Nat) : List (Vec3 K) × List (Vec3 K) :=
  let outlineOffset := env.basePixelSize * (3 / 2) + (level : K) * env.outlineSpacing
  let pts := (List.range effectTube.length).map
    (outlinePointsAt sin sqrt env effectTube outlineOffset)
  let leftOutline := pts.map Prod.fst
  let rightOutline := pts.map Prod.snd
  if env.outlineSmoothness > 0 then
    let smoothingPasses := ⌊p5map env.outlineSmoothness 0 100 0 4⌋₊
    (smoothPasses smoothingPasses leftOutline, smoothPasses smoothingPasses rightOutline)
  else (leftOutline, rightOutline)

end SmoothBrushOutline

/-- A tube of two coincident points: the summed-neighbour tangent is zero at
both. -/
def stackedTube : List (Vec3 ℚ) := [⟨5, 5, 0⟩, ⟨5, 5, 0⟩]

/-! ## Depth reconstruction: `reconstructZValues` (sketch.js 4586-4622) -/

/-- A point of `pointsWithZ`: `sourceX` and `sourceY` may be `undefined`
(`none`). -/
structure SourcePoint (K : Type) where
  sourceX : Option K
  sourceY : Option K
  z : K
deriving DecidableEq

/-- An element of `originalPolygons`. -/
structure PolyData (K : Type) where
  pointsWithZ : List (SourcePoint K)
deriving DecidableEq

/-- A point `{ X, Y, z }` of the result. -/
structure ZPoint (K : Type) where
  X : K
  Y : K
  z : K
deriving DecidableEq

/-- A point of `pointsWithZ` with both source coordinates defined. -/
structure Source (K : Type) where
  sourceX : K
  sourceY : K
  z : K
deriving DecidableEq

section Reconstruct
variable {K : Type} [LinearOrderedField K]

/-- The distance
`Math.sqrt(Math.pow(x - origPt.sourceX, 2) + Math.pow(y - origPt.sourceY, 2))`
(sketch.js 4601-4604). -/
def xyDist (sqrt : K → K) (x y sourceX sourceY : K) : K :=
  sqrt ((x - sourceX) ^ 2 + (y - sourceY) ^ 2)

/-- The body of the inner loop of `reconstructZValues` (sketch.js 4600-4611) on
`(minDist, nearestZ)`; `minDist = none` is `Infinity`. -/
def nearestStep (sqrt : K → K) (x y : K) (st : Option K × K) (origPt : SourcePoint K) :
    Option K × K :=
  match origPt.sourceX, origPt.sourceY with
  | some sourceX, some sourceY =>
    let dist := xyDist sqrt x y sourceX sourceY
    match st.1 with
    | none => (some dist, origPt.z)
    | some minDist => if dist < minDist then (some dist, origPt.z) else st
  | _, _ => st

/-- The function `reconstructZValues(merged2D, originalPolygons)`
(sketch.js 4587-4622). -/
def reconstructZValues (sqrt : K → K) (merged2D : List (IntPoint K))
    (originalPolygons : List (PolyData K)) : List (ZPoint K) :=
  merged2D.map fun pt =>
    let x := pt.X / 1000
    let y := pt.Y / 1000
    let st := originalPolygons.foldl
      (fun st polyData => polyData.pointsWithZ.foldl (nearestStep sqrt x y) st) (none, 0)
    ⟨pt.X, pt.Y, st.2⟩

/-- The source points of `originalPolygons` in iteration order: the points of
all `pointsWithZ` whose `sourceX` and `sourceY` are both defined. -/
def definedSources (originalPolygons : List (PolyData K)) : List (Source K) :=
  (originalPolygons.flatMap fun polyData => polyData.pointsWithZ).filterMap fun p =>
    match p.sourceX, p.sourceY with
    | some sourceX, some sourceY => some ⟨sourceX, sourceY, p.z⟩
    | _, _ => none

end Reconstruct

/-- A stroke polygon with three source points and one cap point without
source coordinates. -/
def sampleSources : List (PolyData ℚ) :=
  [⟨[⟨some 0, some 0, 1⟩, ⟨none, none, 9⟩, ⟨some 3, some 4, 2⟩]⟩, ⟨[⟨some 0, some 8, 3⟩]⟩]

/-- The node of the force scenario: at the origin, at rest, `maxForce = 1/2`,
`maxSpeed = 1`, `desiredSeparation = 2`, `separationCohesionRation = 6/5`. -/
def pushedNode : Node3D ℚ := Node3D.new 0 0 0 (1 / 2) 1 2 (6 / 5) true

/-- The node list of the force scenario: `pushedNode` at index 1 between
neighbours at `x = 20` and `x = 40`, and a fourth node at `x = -1`, closer than
`desiredSeparation`. -/
def pushedNodes : List (Node3D ℚ) :=
  [Node3D.new 20 0 0 (1 / 2) 1 2 (6 / 5) true, pushedNode,
   Node3D.new 40 0 0 (1 / 2) 1 2 (6 / 5) true, Node3D.new (-1) 0 0 (1 / 2) 1 2 (6 / 5) true]

/-- A closed line of two nodes at `x = 0` and `x = 40` with `maxEdgeLen = 8`. -/
def twoNodeLine : DifferentialLine3D ℚ :=
  { nodes := [Node3D.new 0 0 0 (4 / 5) (4 / 5) 12 (6 / 5) true,
              Node3D.new 40 6 2 (4 / 5) (4 / 5) 12 (6 / 5) true],
    maxSpeed := 4 / 5, maxForce := 4 / 5, desiredSeparation := 12,
    separationCohesionRation := 6 / 5, maxEdgeLen := 8 }

/-! ## Smooth brush: the spheres (sketch.js 2351-2459) -/

/-- A sphere of the smooth brush: the interpolated index and the position of
the sample, its taper factor and the radius handed to `sphere`. -/
structure SmoothSample (K : Type) where
  interpolatedIndex : K
  pos : Vec3 K
  taperFactor : K
  finalRadius : K
deriving DecidableEq

section SmoothBrush
variable {K : Type} [LinearOrderedField K] [FloorRing K]

/-- The p5.js function `lerp(start, stop, amt)`. -/
def p5lerp (start stop amt : K) : K := amt * (stop - start) + start

/-- The array `speeds` (sketch.js 2355-2367). -/
def smoothSpeeds (sqrt : K → K) (effectTube : List (Vec3 K)) : List K :=
  (List.range effectTube.length).map fun i =>
    if i = 0 then 0
    else
      let p1 := effectTube.getD i default
      let p2 := effectTube.getD (i - 1) default
      Vec3.dist sqrt ⟨p1.x, p1.y, p1.z⟩ ⟨p2.x, p2.y, p2.z⟩

/-- The array `normalizedSpeeds` (sketch.js 2370-2377); `pow` is `Math.pow`. -/
def normalizedSpeeds (sqrt : K → K) (pow : K → K → K) (effectTube : List (Vec3 K)) : List K :=
  let speeds := smoothSpeeds sqrt effectTube
  let maxSpeed := speeds.foldl max (1 / 100)
  speeds.map fun s =>
    let normalized := s / maxSpeed
    pow (1 - normalized) (4 / 5)

/-- The value `taperLength` (sketch.js 2443). -/
def taperLength (len : Nat) : K := min 10 ((len : K) / 4)

/-- The value `taperFactor` (sketch.js 2442-2449) of a sample at
`interpolatedIndex`. -/
def taperFactor (len : Nat) (interpolatedIndex : K) : K :=
  if interpolatedIndex < taperLength len then interpolatedIndex / taperLength len
  else if interpolatedIndex > (len : K) - 1 - taperLength len then
    ((len : K) - 1 - interpolatedIndex) / taperLength len
  else 1

/-- The number `steps` of the segment from `effectTube[i]` (sketch.js 2405-2409). -/
def smoothSteps (sqrt : K → K) (env : RenderParams K) (effectTube : List (Vec3 K)) (i : Nat) :
    Nat :=
  let p1 := effectTube.getD i default
  let p2 := effectTube.getD (i + 1) default
  let dist := Vec3.dist sqrt ⟨p1.x, p1.y, p1.z⟩ ⟨p2.x, p2.y, p2.z⟩
  max 3 ⌈dist / (env.basePixelSize * (15 / 100))⌉₊

/-- The sphere drawn for `step` of segment `i` (sketch.js 2411-2458). -/
def smoothSample (sin sqrt : K → K) (pow : K → K → K) (env : RenderParams K)
    (effectTube : List (Vec3 K)) (i step : Nat) : SmoothSample K :=
  let p1 := effectTube.getD i default
  let p2 := effectTube.getD (i + 1) default
  let steps := smoothSteps sqrt env effectTube i
  let dynamicsAmount := p5map env.waveAmpAndBlurRadius 5 60 0 1
  let normalized := normalizedSpeeds sqrt pow effectTube
  let t : K := (step : K) / (steps : K)
  let interpolatedIndex : K := (i : K) + t
  let x := p5lerp p1.x p2.x t
  let y := p5lerp p1.y p2.y t
  let z := p5lerp p1.z p2.z t
  let nearestSpeedIndex := if t < 1 / 2 then i else i + 1
  let speedValue :=
    if dynamicsAmount > 3 / 10 then normalized.getD nearestSpeedIndex 0
    else p5lerp (normalized.getD i 0) (normalized.getD (i + 1) 0) t
  let dynamicsStrength := p5map dynamicsAmount 0 1 (1 / 10) 3
  let minThicknessFactor : K := 3 / 10
  let speedFactor :=
    minThicknessFactor + (1 - minThicknessFactor) + speedValue * dynamicsStrength * dynamicsAmount
  let waveFactor : K :=
    if env.waveAnimationEnabled then
      let wavePhase := interpolatedIndex * (3 / 10) - env.frameCount * (1 / 10)
      let waveAmplitude := p5map env.waveAmpAndBlurRadius 5 60 (1 / 10) (4 / 10)
      1 + sin wavePhase * waveAmplitude
    else 1
  let taper := taperFactor effectTube.length interpolatedIndex
  let finalRadius := env.basePixelSize * speedFactor * waveFactor * taper * (1 / 2)
  ⟨interpolatedIndex, ⟨x, y, z⟩, taper, finalRadius⟩

/-- The spheres of the smooth brush, in drawing order (sketch.js 2401-2459):
for each segment `i` the steps `0 .. steps`. -/
def smoothSpheres (sin sqrt : K → K) (pow : K → K → K) (env : RenderParams K)
    (effectTube : List (Vec3 K)) : List (SmoothSample K) :=
  (List.range (effectTube.length - 1)).flatMap fun i =>
    (List.range (smoothSteps sqrt env effectTube i + 1)).map
      (smoothSample sin sqrt pow env effectTube i)

end SmoothBrush

/-! ## SVG export of the box brushes: `createSVGFromStrokes` (export.js 718-741) -/

section ExportBoxes
variable {K : Type} [LinearOrderedField K]

/-- The value `size` that `createSVGFromStrokes` computes for point `i` of a
tube drawn with the pixel, simple or surface brush (export.js 719-738).  The
globals `basePixelSize`, `waveAmpAndBlurRadius`, `waveAnimationEnabled` and
`frameCount` are declared by sketch.js, so the `typeof` tests of lines 720-723
select them; `sin` is `Math.sin`, which is p5's `sin` in the default radians
mode (the sketch never calls `angleMode`). -/
def exportBoxSize (sin : K → K) (env : RenderParams K) (i : Nat) : K :=
  let baseSize := env.basePixelSize
  let waveAmp := env.waveAmpAndBlurRadius
  let isWaveEnabled := env.waveAnimationEnabled
  let currentFrame := env.frameCount
  if isWaveEnabled then
    let waveValue := sin ((i : K) * (3 / 10) - currentFrame * (1 / 10))
    let t := (waveValue + 1) / 2
    baseSize * (1 / 2) + t * (baseSize + waveAmp - baseSize * (1 / 2))
  else baseSize + waveAmp * (1 / 2)

end ExportBoxes

/-! ## Sequences of history calls -/

/-- A step of a session as far as the history is concerned: a call of
`saveToHistory`, `undo` or `redo`, or any other code, which may assign `tubes`
and `filledCells` but never `tubesHistory`, `historyIndex` or
`maxHistorySize` (these are assigned at sketch.js 3923-3958 only). -/
inductive HistoryOp (K G : Type) where
  | save
  | undo
  | redo
  | edit (tubes : List (Tube K)) (filledCells : G)

section HistoryRuns
variable {K G : Type}

/-- The globals when the sketch is loaded (sketch.js 23-26): `tubesHistory = []`,
`historyIndex = -1`, `maxHistorySize = 50`; `tubes` is empty. -/
def initialHistory (filledCells : G) : History K G :=
  { tubes := [], filledCells := filledCells, tubesHistory := [], historyIndex := -1,
    maxHistorySize := 50 }

/-- One step of a session. -/
def applyOp (a : History K G) : HistoryOp K G → Except String (History K G)
  | HistoryOp.save => pure (saveToHistory a)
  | HistoryOp.undo => ToolFinal.undo a
  | HistoryOp.redo => ToolFinal.redo a
  | HistoryOp.edit tubes filledCells => pure { a with tubes := tubes, filledCells := filledCells }

/-- A session: the steps in order. -/
def runOps (a : History K G) (ops : List (HistoryOp K G)) : Except String (History K G) :=
  ops.foldlM applyOp a

end HistoryRuns

/-- A short session: save the empty scene, draw one tube, save again. -/
def sessionOps : List (HistoryOp ℚ Unit) :=
  [HistoryOp.save, HistoryOp.edit [⟨[⟨0, 0, 0⟩, ⟨1, 2, 3⟩], some 0⟩] (), HistoryOp.save]

/-- The state at the end of `sessionOps`: two snapshots, `historyIndex = 1`. -/
def sessionState : History ℚ Unit :=
  { tubes := [⟨[⟨0, 0, 0⟩, ⟨1, 2, 3⟩], some 0⟩], filledCells := (),
    tubesHistory := [⟨[], ()⟩, ⟨[⟨[⟨0, 0, 0⟩, ⟨1, 2, 3⟩], none⟩], ()⟩],
    historyIndex := 1, maxHistorySize := 50 }

/-! ## Boolean polygon merge with fallback: `unionPolygonsClipper` (sketch.js 4836-4875) -/

/-- The library `ClipperLib` as `unionPolygonsClipper` calls it; every call may
throw: `construct` is `new ClipperLib.Clipper()` followed by
`new ClipperLib.Paths()`, `Execute` (given the subject and the clip path that
were added) returns its success flag together with the solution paths, and
`Area` is `ClipperLib.Clipper.Area`. -/
structure ClipperCalls (P A : Type) where
  construct : Except String Unit
  AddPath : List P → PolyType → Except String Unit
  Execute : List P → List P → Except String (Bool × List (List P))
  Area : List P → Except String A

section MergeFallback
variable {K : Type} [LinearOrderedField K] {P : Type}

/-- The body of the loop "Extract outer boundary (largest polygon)"
(sketch.js 4861-4867) on `(largest, maxArea)`. -/
def largestStep (cpr : ClipperCalls P K) (st : List P × K) (poly : List P) :
    Except String (List P × K) := do
  let area ← cpr.Area poly
  let area := |area|
  if area > st.2 then pure (poly, area) else pure st

/-- The body of the `try` block of `unionPolygonsClipper` (sketch.js 4843-4869).
After the test `!success || solution.length === 0` the list `solution` is not
empty, so `solution[0]` exists. -/
def unionTryClipper (cpr : ClipperCalls P K) (poly1 poly2 : List P) :
    Except String (List P) := do
  cpr.construct
  cpr.AddPath poly1 PolyType.ptSubject
  cpr.AddPath poly2 PolyType.ptClip
  let (success, solution) ← cpr.Execute poly1 poly2
  if success = false ∨ solution.length = 0 then pure poly1
  else
    match solution with
    | [] => pure poly1
    | largest :: rest => do
      let area ← cpr.Area largest
      let maxArea := |area|
      let best ← rest.foldlM (largestStep cpr) (largest, maxArea)
      pure best.1

/-- The function `unionPolygonsClipper(poly1, poly2)` (sketch.js 4837-4875);
`lib` is `window.ClipperLib`, and the `catch` returns `poly1`. -/
def unionPolygonsClipper (lib : Option (ClipperCalls P K)) (poly1 poly2 : List P) : List P :=
  match lib with
  | none => poly1
  | some cpr =>
    match unionTryClipper cpr poly1 poly2 with
    | Except.ok r => r
    | Except.error _ => poly1

end MergeFallback

/-- A library whose calls all return, with the fixed solution list `solution`
and the shoelace area. -/
def solvingClipper (solution : List (List (IntPoint ℚ))) : ClipperCalls (IntPoint ℚ) ℚ where
  construct := Except.ok ()
  AddPath := fun _ _ => Except.ok ()
  Execute := fun _ _ => Except.ok (true, solution)
  Area := fun path => Except.ok (shoelace path)

/-! ## Theorems -/

/-- C1 (as stated, refuted): with no rotation, zoom 1 and no pan, the point
`(0, 0, 1)` projects to the canvas centre and `screenTo3D` sends the centre to
`(0, 0, 0)`: the depth of the point is lost. -/
theorem roundTrip_loses_depth :
    roundTrip Real.cos Real.sin (⟨0, 0, 1, 0, 0, 800, 600⟩ : View ℝ) ⟨0, 0, 1⟩
      = ⟨0, 0, 0⟩ ∧
    roundTrip Real.cos Real.sin (⟨0, 0, 1, 0, 0, 800, 600⟩ : View ℝ) ⟨0, 0, 1⟩
      ≠ ⟨0, 0, 1⟩ := by
  have h : roundTrip Real.cos Real.sin (⟨0, 0, 1, 0, 0, 800, 600⟩ : View ℝ) ⟨0, 0, 1⟩
      = ⟨0, 0, 0⟩ := by
    simp [roundTrip, project3DToScreen, screenTo3D, rotateToView]
  refine ⟨h, ?_⟩
  rw [h]
  intro hc
  have := congrArg Vec3.z hc
  simp at this

/-- Supporting fact for C1: both angles a quarter turn.  The point `(1, 0, 0)`
has view depth 0, and the round trip returns `(0, 0, 1)`: `screenTo3D` undoes
the Y rotation before the X rotation, the order in which
`project3DToScreen` applied them. -/
theorem roundTrip_rotation_order :
    (rotateToView Real.cos Real.sin
        (⟨Real.pi / 2, Real.pi / 2, 1, 0, 0, 800, 600⟩ : View ℝ) 1 0 0).z = 0 ∧
    roundTrip Real.cos Real.sin
        (⟨Real.pi / 2, Real.pi / 2, 1, 0, 0, 800, 600⟩ : View ℝ) ⟨1, 0, 0⟩
      = ⟨0, 0, 1⟩ := by
  have hc : Real.cos (-(Real.pi / 2)) = 0 := by rw [Real.cos_neg, Real.cos_pi_div_two]
  have hs : Real.sin (-(Real.pi / 2)) = -1 := by rw [Real.sin_neg, Real.sin_pi_div_two]
  constructor
  · simp [rotateToView, hc, hs]
  · simp [roundTrip, project3DToScreen, screenTo3D, rotateToView, hc, hs]

/-- C1 (amended): for zoom > 0, any pan and canvas size, when at most one of
the two rotation angles is non-zero, every point whose depth in view space is 0
is returned unchanged by `screenTo3D` after `project3DToScreen`. -/
theorem roundTrip_of_depth_zero (v : View ℝ) (p : Vec3 ℝ)
    (hzoom : 0 < v.voxelZoom)
    (hrot : v.voxelRotX = 0 ∨ v.voxelRotY = 0)
    (hdepth : (rotateToView Real.cos Real.sin v p.x p.y p.z).z = 0) :
    roundTrip Real.cos Real.sin v p = p := by
  obtain ⟨px, py, pz⟩ := p
  have hz : v.voxelZoom ≠ 0 := ne_of_gt hzoom
  have undo : ∀ a pan w : ℝ, (a * v.voxelZoom + pan + w / 2 - w / 2 - pan) / v.voxelZoom = a := by
    intro a pan w
    field_simp
  rcases hrot with h0 | h0
  · -- no X rotation
    have hY := Real.sin_sq_add_cos_sq (-v.voxelRotY)
    simp only [rotateToView, h0, neg_zero, Real.cos_zero, Real.sin_zero] at hdepth
    simp only [roundTrip, project3DToScreen, screenTo3D, rotateToView, h0, neg_zero,
      Real.cos_zero, Real.sin_zero, undo, zero_div, zero_mul, mul_zero, mul_one, sub_zero,
      add_zero, zero_add, neg_zero]
    generalize Real.cos (-v.voxelRotY) = c at hdepth hY ⊢
    generalize Real.sin (-v.voxelRotY) = s at hdepth hY ⊢
    rw [Vec3.mk.injEq]
    refine ⟨?_, ?_, ?_⟩
    · linear_combination s * hdepth + px * hY
    · ring
    · linear_combination (-c) * hdepth + pz * hY
  · -- no Y rotation
    have hX := Real.sin_sq_add_cos_sq (-v.voxelRotX)
    simp only [rotateToView, h0, neg_zero, Real.cos_zero, Real.sin_zero] at hdepth
    simp only [roundTrip, project3DToScreen, screenTo3D, rotateToView, h0, neg_zero,
      Real.cos_zero, Real.sin_zero, undo, zero_div, zero_mul, mul_zero, mul_one, sub_zero,
      add_zero, zero_add, neg_zero]
    generalize Real.cos (-v.voxelRotX) = c at hdepth hX ⊢
    generalize Real.sin (-v.voxelRotX) = s at hdepth hX ⊢
    rw [Vec3.mk.injEq]
    refine ⟨?_, ?_, ?_⟩
    · ring
    · linear_combination (-s) * hdepth + py * hX
    · linear_combination (-c) * hdepth + pz * hX

/-- Witness of `roundTrip_of_depth_zero`: a quarter turn about Y, zoom 2. -/
theorem roundTrip_of_depth_zero_witness :
    roundTrip Real.cos Real.sin (⟨0, Real.pi / 2, 2, 5, 7, 800, 600⟩ : View ℝ) ⟨0, 3, 4⟩
      = ⟨0, 3, 4⟩ :=
  roundTrip_of_depth_zero ⟨0, Real.pi / 2, 2, 5, 7, 800, 600⟩ ⟨0, 3, 4⟩
    (by norm_num) (Or.inl rfl)
    (by
      have hc : Real.cos (-(Real.pi / 2)) = 0 := by rw [Real.cos_neg, Real.cos_pi_div_two]
      have hs : Real.sin (-(Real.pi / 2)) = -1 := by rw [Real.sin_neg, Real.sin_pi_div_two]
      simp [rotateToView, hc, hs])

/-! ### `createStrokePolygonForSVG` -/

section GeometryLemmas
variable {K : Type} [LinearOrderedField K]

theorem ExactSqrt.sqrt_mul_self {sqrt : K → K} (h : ExactSqrt sqrt) {a : K} (ha : 0 ≤ a) :
    sqrt (a * a) = a := by
  obtain ⟨h0, h1⟩ := h (a * a) (mul_self_nonneg a)
  exact (mul_self_inj h0 ha).1 h1

theorem foldl_strokeStep (sqrt : K → K) (points : List (Vec2 K)) (halfWidth : K)
    (l : List Nat) (hl : ∀ i ∈ l, 1 / 100 < tangentLen sqrt points i)
    (sides : List (Vec2 K) × List (Vec2 K)) :
    l.foldl (strokeStep sqrt points halfWidth) sides =
      (sides.1 ++ l.map (leftPoint sqrt points halfWidth),
       sides.2 ++ l.map (rightPoint sqrt points halfWidth)) := by
  induction l generalizing sides with
  | nil => simp
  | cons i l ih =>
    have hi : 1 / 100 < tangentLen sqrt points i := hl i (List.mem_cons_self _ _)
    have hstep : strokeStep sqrt points halfWidth sides i =
        (sides.1 ++ [leftPoint sqrt points halfWidth i],
         sides.2 ++ [rightPoint sqrt points halfWidth i]) := by
      unfold tangentLen at hi
      simp only [strokeStep, leftPoint, rightPoint, gt_iff_lt]
      rw [if_pos hi]
    rw [List.foldl_cons, hstep, ih (fun j hj => hl j (List.mem_cons_of_mem _ hj))]
    simp

theorem offset_sq (sqrt : K → K) (hsqrt : ExactSqrt sqrt) (points : List (Vec2 K))
    (halfWidth : K) (i : Nat) (hi : 1 / 100 < tangentLen sqrt points i) :
    (-(tangentSum points i).2 / tangentLen sqrt points i * halfWidth) *
        (-(tangentSum points i).2 / tangentLen sqrt points i * halfWidth) +
      ((tangentSum points i).1 / tangentLen sqrt points i * halfWidth) *
        ((tangentSum points i).1 / tangentLen sqrt points i * halfWidth)
      = halfWidth * halfWidth := by
  have hpos : 0 < tangentLen sqrt points i := lt_trans (by norm_num) hi
  have hne : tangentLen sqrt points i ≠ 0 := ne_of_gt hpos
  have hv : 0 ≤ (tangentSum points i).1 * (tangentSum points i).1 +
      (tangentSum points i).2 * (tangentSum points i).2 :=
    add_nonneg (mul_self_nonneg _) (mul_self_nonneg _)
  have hsq : tangentLen sqrt points i * tangentLen sqrt points i =
      (tangentSum points i).1 * (tangentSum points i).1 +
      (tangentSum points i).2 * (tangentSum points i).2 := (hsqrt _ hv).2
  generalize tangentLen sqrt points i = len at hne hsq
  generalize (tangentSum points i).1 = dx at hsq
  generalize (tangentSum points i).2 = dy at hsq
  field_simp
  linear_combination (-(halfWidth * halfWidth)) * hsq

end GeometryLemmas

/-- C2: for `n ≥ 2` points whose summed-neighbour tangent is everywhere longer
than 0.01 and a width `≥ 0`, `createStrokePolygonForSVG` returns `2n` points;
entries `i` and `2n-1-i` are both at distance `width / 2` from `points[i]`,
which is their midpoint. -/
theorem createStrokePolygonForSVG_offsets {K : Type} [LinearOrderedField K]
    (sqrt : K → K) (hsqrt : ExactSqrt sqrt) (points : List (Vec2 K)) (width : K)
    (hn : 2 ≤ points.length) (hw : 0 ≤ width)
    (hlen : ∀ i, i < points.length → 1 / 100 < tangentLen sqrt points i) :
    ∃ poly : List (Vec2 K),
      createStrokePolygonForSVG sqrt points width = some poly ∧
      poly.length = 2 * points.length ∧
      ∀ i, i < points.length →
        dist2 sqrt (poly.getD i default) (points.getD i default) = width / 2 ∧
        dist2 sqrt (poly.getD (2 * points.length - 1 - i) default) (points.getD i default)
          = width / 2 ∧
        (points.getD i default).x =
          ((poly.getD i default).x + (poly.getD (2 * points.length - 1 - i) default).x) / 2 ∧
        (points.getD i default).y =
          ((poly.getD i default).y + (poly.getD (2 * points.length - 1 - i) default).y) / 2 := by
  have hfold := foldl_strokeStep sqrt points (width / 2) (List.range points.length)
    (fun i hi => hlen i (List.mem_range.1 hi)) ([], [])
  refine ⟨(List.range points.length).map (leftPoint sqrt points (width / 2)) ++
      ((List.range points.length).map (rightPoint sqrt points (width / 2))).reverse, ?_, ?_, ?_⟩
  · unfold createStrokePolygonForSVG
    rw [if_neg (by omega)]
    simp only [hfold, List.nil_append]
  · simp
    omega
  · intro i hi
    have hL : ((List.range points.length).map (leftPoint sqrt points (width / 2)) ++
        ((List.range points.length).map (rightPoint sqrt points (width / 2))).reverse).getD i
          default = leftPoint sqrt points (width / 2) i := by
      rw [List.getD_eq_getElem?_getD, List.getElem?_append_left (by simpa using hi)]
      simp [hi]
    have hR : ((List.range points.length).map (leftPoint sqrt points (width / 2)) ++
        ((List.range points.length).map (rightPoint sqrt points (width / 2))).reverse).getD
          (2 * points.length - 1 - i) default = rightPoint sqrt points (width / 2) i := by
      rw [List.getD_eq_getElem?_getD, List.getElem?_append_right (by simp; omega)]
      rw [List.getElem?_reverse (by simp; omega)]
      simp only [List.length_map, List.length_range]
      have e : points.length - 1 - (2 * points.length - 1 - i - points.length) = i := by omega
      rw [e]
      simp [hi]
    rw [hL, hR]
    have hsq := offset_sq sqrt hsqrt points (width / 2) i (hlen i hi)
    have hhw : 0 ≤ width / 2 := by positivity
    simp only [tangentLen] at hsq
    refine ⟨?_, ?_, ?_, ?_⟩
    · simp only [dist2, leftPoint]
      trans sqrt (width / 2 * (width / 2))
      · congr 1
        rw [← hsq]
        ring
      · exact hsqrt.sqrt_mul_self hhw
    · simp only [dist2, rightPoint]
      trans sqrt (width / 2 * (width / 2))
      · congr 1
        rw [← hsq]
        ring
      · exact hsqrt.sqrt_mul_self hhw
    · simp only [leftPoint, rightPoint]
      ring
    · simp only [leftPoint, rightPoint]
      ring


/-- Witness of `createStrokePolygonForSVG_offsets`: the segment from `(0, 0)` to
`(3, 4)` with width 2, over the real numbers. -/
theorem createStrokePolygonForSVG_offsets_witness :
    ∃ poly : List (Vec2 ℝ),
      createStrokePolygonForSVG Real.sqrt [⟨0, 0⟩, ⟨3, 4⟩] 2 = some poly ∧
      poly.length = 4 ∧
      dist2 Real.sqrt (poly.getD 0 default) ⟨0, 0⟩ = 1 ∧
      dist2 Real.sqrt (poly.getD 3 default) ⟨0, 0⟩ = 1 := by
  have h25 : Real.sqrt 25 = 5 := by
    rw [show (25 : ℝ) = 5 * 5 by norm_num]
    exact Real.sqrt_mul_self (by norm_num)
  obtain ⟨poly, h1, h2, h3⟩ := createStrokePolygonForSVG_offsets Real.sqrt
    (fun v hv => ⟨Real.sqrt_nonneg v, Real.mul_self_sqrt hv⟩)
    [⟨0, 0⟩, ⟨3, 4⟩] 2 (by simp) (by norm_num)
    (by
      intro i hi
      have hi2 : i < 2 := by simpa using hi
      interval_cases i
      · simp only [tangentLen, tangentSum]
        norm_num [h25]
      · simp only [tangentLen, tangentSum]
        norm_num [h25])
  refine ⟨poly, h1, by simpa using h2, ?_, ?_⟩
  · have := (h3 0 (by simp)).1
    simpa using this
  · have := (h3 0 (by simp)).2.1
    simpa using this

/-! ### `smoothOutlinePoints` -/

section SmoothLemmas
variable {K : Type} [LinearOrderedField K]

theorem foldl_push {α β : Type} (f : α → β) (l : List α) (init : List β) :
    l.foldl (fun acc i => acc ++ [f i]) init = init ++ l.map f := by
  induction l generalizing init with
  | nil => simp
  | cons a l ih => simp [ih]

theorem smoothOutlinePoints_eq_map (points : List (Vec3 K)) (h : 3 ≤ points.length) :
    smoothOutlinePoints points = (List.range points.length).map (smoothedAt points) := by
  unfold smoothOutlinePoints
  rw [if_neg (by omega), foldl_push]
  simp

theorem smoothOutlinePoints_length (points : List (Vec3 K)) :
    (smoothOutlinePoints points).length = points.length := by
  by_cases h : points.length < 3
  · simp [smoothOutlinePoints, h]
  · rw [smoothOutlinePoints_eq_map points (by omega)]
    simp

theorem smoothOutlinePoints_getD (points : List (Vec3 K)) (h : 3 ≤ points.length)
    (i : Nat) (hi : i < points.length) :
    (smoothOutlinePoints points).getD i default = smoothedAt points i := by
  rw [smoothOutlinePoints_eq_map points h, List.getD_eq_getElem?_getD]
  simp [hi]

end SmoothLemmas

/-- C3: one pass of `smoothOutlinePoints` keeps the length, keeps the first and
the last point, and replaces every interior point by the coordinate-wise mean
of its predecessor, itself and its successor; a list of fewer than 3 points is
returned unchanged. -/
theorem smoothOutlinePoints_spec {K : Type} [LinearOrderedField K] (points : List (Vec3 K)) :
    (smoothOutlinePoints points).length = points.length ∧
    (smoothOutlinePoints points).getD 0 default = points.getD 0 default ∧
    (smoothOutlinePoints points).getD (points.length - 1) default
      = points.getD (points.length - 1) default ∧
    (∀ i, 0 < i → i + 1 < points.length →
      (smoothOutlinePoints points).getD i default =
        ⟨((points.getD (i - 1) default).x + (points.getD i default).x
            + (points.getD (i + 1) default).x) / 3,
         ((points.getD (i - 1) default).y + (points.getD i default).y
            + (points.getD (i + 1) default).y) / 3,
         ((points.getD (i - 1) default).z + (points.getD i default).z
            + (points.getD (i + 1) default).z) / 3⟩) ∧
    (points.length < 3 → smoothOutlinePoints points = points) := by
  refine ⟨smoothOutlinePoints_length points, ?_, ?_, ?_, ?_⟩
  · by_cases h : points.length < 3
    · simp [smoothOutlinePoints, h]
    · rw [smoothOutlinePoints_getD points (by omega) 0 (by omega)]
      simp [smoothedAt]
  · by_cases h : points.length < 3
    · simp [smoothOutlinePoints, h]
    · rw [smoothOutlinePoints_getD points (by omega) _ (by omega)]
      simp [smoothedAt]
  · intro i h0 h1
    rw [smoothOutlinePoints_getD points (by omega) i (by omega)]
    have hne : ¬ (i = 0 ∨ i = points.length - 1) := by omega
    simp only [smoothedAt, if_neg hne]
  · intro h
    simp [smoothOutlinePoints, h]

/-- Witness of `smoothOutlinePoints_spec`: the middle point of a three-point
polyline over the rationals. -/
theorem smoothOutlinePoints_spec_witness :
    (smoothOutlinePoints ([⟨0, 0, 0⟩, ⟨3, 6, 9⟩, ⟨3, 0, 0⟩] : List (Vec3 ℚ))).getD 1 default
      = ⟨((0 : ℚ) + 3 + 3) / 3, ((0 : ℚ) + 6 + 0) / 3, ((0 : ℚ) + 9 + 0) / 3⟩ ∧
    smoothOutlinePoints ([⟨1, 2, 3⟩, ⟨4, 5, 6⟩] : List (Vec3 ℚ)) = [⟨1, 2, 3⟩, ⟨4, 5, 6⟩] :=
  ⟨(smoothOutlinePoints_spec ([⟨0, 0, 0⟩, ⟨3, 6, 9⟩, ⟨3, 0, 0⟩] : List (Vec3 ℚ))).2.2.2.1 1
      (by decide) (by decide),
   (smoothOutlinePoints_spec ([⟨1, 2, 3⟩, ⟨4, 5, 6⟩] : List (Vec3 ℚ))).2.2.2.2 (by decide)⟩

/-! ### Smoothing passes and the bending energy -/

section EnergyLemmas
variable {K : Type} [LinearOrderedField K]

theorem list_sum_range_map (g : Nat → K) (m : Nat) :
    ((List.range m).map g).sum = ∑ j ∈ Finset.range m, g j := by
  induction m with
  | zero => simp
  | succ m ih => rw [List.range_succ, List.map_append, List.sum_append, ih,
      Finset.sum_range_succ]; simp

/-- Averaging a finite sequence with its two neighbours (a missing neighbour
counts as 0) does not increase the sum of squares. -/
theorem sum_sq_avg3_le (f : Nat → K) (m : Nat) :
    ∑ j ∈ Finset.range m,
        (((if j = 0 then 0 else f (j - 1)) + f j + (if j + 1 = m then 0 else f (j + 1))) / 3) ^ 2
      ≤ ∑ j ∈ Finset.range m, f j ^ 2 := by
  cases m with
  | zero => simp
  | succ m =>
    have hL : ∑ j ∈ Finset.range (m + 1), (if j = 0 then 0 else f (j - 1)) ^ 2
        ≤ ∑ j ∈ Finset.range (m + 1), f j ^ 2 := by
      rw [Finset.sum_range_succ', Finset.sum_range_succ]
      simp only [Nat.add_eq_zero, one_ne_zero, and_false, if_false, Nat.add_sub_cancel,
        if_true]
      have : 0 ≤ f m ^ 2 := sq_nonneg _
      simp only [ne_eq, OfNat.ofNat_ne_zero, not_false_eq_true, zero_pow, add_zero]
      linarith
    have hR : ∑ j ∈ Finset.range (m + 1), (if j + 1 = m + 1 then 0 else f (j + 1)) ^ 2
        ≤ ∑ j ∈ Finset.range (m + 1), f j ^ 2 := by
      rw [Finset.sum_range_succ, Finset.sum_range_succ']
      have h1 : ∑ j ∈ Finset.range m, (if j + 1 = m + 1 then 0 else f (j + 1)) ^ 2
          = ∑ j ∈ Finset.range m, f (j + 1) ^ 2 := by
        apply Finset.sum_congr rfl
        intro j hj
        have : j < m := Finset.mem_range.1 hj
        rw [if_neg (by omega)]
      rw [h1]
      have : 0 ≤ f 0 ^ 2 := sq_nonneg _
      simp only [if_true, ne_eq, OfNat.ofNat_ne_zero, not_false_eq_true, zero_pow, add_zero]
      linarith
    have hpt : ∀ j ∈ Finset.range (m + 1),
        (((if j = 0 then 0 else f (j - 1)) + f j
            + (if j + 1 = m + 1 then 0 else f (j + 1))) / 3) ^ 2
          ≤ ((if j = 0 then 0 else f (j - 1)) ^ 2 + f j ^ 2
            + (if j + 1 = m + 1 then 0 else f (j + 1)) ^ 2) / 3 := by
      intro j _
      generalize (if j = 0 then 0 else f (j - 1)) = a
      generalize (if j + 1 = m + 1 then 0 else f (j + 1)) = c
      generalize f j = b
      nlinarith [sq_nonneg (a - b), sq_nonneg (b - c), sq_nonneg (a - c)]
    calc _ ≤ ∑ j ∈ Finset.range (m + 1),
          ((if j = 0 then 0 else f (j - 1)) ^ 2 + f j ^ 2
            + (if j + 1 = m + 1 then 0 else f (j + 1)) ^ 2) / 3 := Finset.sum_le_sum hpt
      _ = (∑ j ∈ Finset.range (m + 1), (if j = 0 then 0 else f (j - 1)) ^ 2
            + ∑ j ∈ Finset.range (m + 1), f j ^ 2
            + ∑ j ∈ Finset.range (m + 1), (if j + 1 = m + 1 then 0 else f (j + 1)) ^ 2) / 3 := by
          rw [← Finset.sum_div, Finset.sum_add_distrib, Finset.sum_add_distrib]
      _ ≤ _ := by linarith

/-- The second difference of the smoothed polyline at the interior index
`j + 1` is the three-term average of the second differences of the input. -/
theorem secondDiff_smooth (points : List (Vec3 K)) (j : Nat) (hj : j + 2 < points.length) :
    secondDiff (smoothOutlinePoints points) (j + 1) =
      ⟨((if j = 0 then 0 else (secondDiff points (j - 1 + 1)).x) + (secondDiff points (j + 1)).x
          + (if j + 1 = points.length - 2 then 0 else (secondDiff points (j + 1 + 1)).x)) / 3,
       ((if j = 0 then 0 else (secondDiff points (j - 1 + 1)).y) + (secondDiff points (j + 1)).y
          + (if j + 1 = points.length - 2 then 0 else (secondDiff points (j + 1 + 1)).y)) / 3,
       ((if j = 0 then 0 else (secondDiff points (j - 1 + 1)).z) + (secondDiff points (j + 1)).z
          + (if j + 1 = points.length - 2 then 0 else (secondDiff points (j + 1 + 1)).z)) / 3⟩ := by
  have h3 : 3 ≤ points.length := by omega
  have e0 := smoothOutlinePoints_getD points h3 j (by omega)
  have e1 := smoothOutlinePoints_getD points h3 (j + 1) (by omega)
  have e2 := smoothOutlinePoints_getD points h3 (j + 1 + 1) (by omega)
  have hmid : ¬ (j + 1 = 0 ∨ j + 1 = points.length - 1) := by omega
  simp only [secondDiff, Nat.add_sub_cancel, e0, e1, e2]
  simp only [smoothedAt, if_neg hmid, Nat.add_sub_cancel]
  cases j with
  | zero =>
    have hfirst : (0 = 0 ∨ 0 = points.length - 1) := Or.inl rfl
    by_cases hl : 0 + 1 = points.length - 2
    · have hlast : (0 + 1 + 1 = 0 ∨ 0 + 1 + 1 = points.length - 1) := by omega
      simp only [if_pos hl, if_pos hlast, if_pos hfirst, if_true, true_or, Vec3.mk.injEq]
      refine ⟨?_, ?_, ?_⟩ <;> ring
    · have hlast : ¬ (0 + 1 + 1 = 0 ∨ 0 + 1 + 1 = points.length - 1) := by omega
      simp only [if_neg hl, if_neg hlast, if_pos hfirst, if_true, true_or, Vec3.mk.injEq,
        Nat.add_sub_cancel]
      refine ⟨?_, ?_, ?_⟩ <;> ring
  | succ i =>
    have hfirst : ¬ (i + 1 = 0 ∨ i + 1 = points.length - 1) := by omega
    have hz : ¬ (i + 1 = 0) := by omega
    by_cases hl : i + 1 + 1 = points.length - 2
    · have hlast : (i + 1 + 1 + 1 = 0 ∨ i + 1 + 1 + 1 = points.length - 1) := by omega
      simp only [if_pos hl, if_pos hlast, if_neg hfirst, if_neg hz, Vec3.mk.injEq,
        Nat.add_sub_cancel]
      refine ⟨?_, ?_, ?_⟩ <;> ring
    · have hlast : ¬ (i + 1 + 1 + 1 = 0 ∨ i + 1 + 1 + 1 = points.length - 1) := by omega
      simp only [if_neg hl, if_neg hlast, if_neg hfirst, if_neg hz, Vec3.mk.injEq,
        Nat.add_sub_cancel]
      refine ⟨?_, ?_, ?_⟩ <;> ring

theorem bendEnergy_smooth_le (points : List (Vec3 K)) :
    bendEnergy (smoothOutlinePoints points) ≤ bendEnergy points := by
  by_cases h : points.length < 3
  · simp [smoothOutlinePoints, h]
  · unfold bendEnergy
    rw [list_sum_range_map, list_sum_range_map, smoothOutlinePoints_length]
    have hx := sum_sq_avg3_le (fun j => (secondDiff points (j + 1)).x) (points.length - 2)
    have hy := sum_sq_avg3_le (fun j => (secondDiff points (j + 1)).y) (points.length - 2)
    have hz := sum_sq_avg3_le (fun j => (secondDiff points (j + 1)).z) (points.length - 2)
    have hrw : ∀ j ∈ Finset.range (points.length - 2),
        normSq (secondDiff (smoothOutlinePoints points) (j + 1)) =
          (((if j = 0 then 0 else (secondDiff points (j - 1 + 1)).x)
              + (secondDiff points (j + 1)).x
              + (if j + 1 = points.length - 2 then 0
                  else (secondDiff points (j + 1 + 1)).x)) / 3) ^ 2
          + (((if j = 0 then 0 else (secondDiff points (j - 1 + 1)).y)
              + (secondDiff points (j + 1)).y
              + (if j + 1 = points.length - 2 then 0
                  else (secondDiff points (j + 1 + 1)).y)) / 3) ^ 2
          + (((if j = 0 then 0 else (secondDiff points (j - 1 + 1)).z)
              + (secondDiff points (j + 1)).z
              + (if j + 1 = points.length - 2 then 0
                  else (secondDiff points (j + 1 + 1)).z)) / 3) ^ 2 := by
      intro j hj
      have hj2 : j + 2 < points.length := by
        have := Finset.mem_range.1 hj
        omega
      rw [secondDiff_smooth points j hj2]
      simp only [normSq]
      ring
    rw [Finset.sum_congr rfl hrw, Finset.sum_add_distrib, Finset.sum_add_distrib]
    have hsplit : ∑ j ∈ Finset.range (points.length - 2), normSq (secondDiff points (j + 1))
        = ∑ j ∈ Finset.range (points.length - 2), (secondDiff points (j + 1)).x ^ 2
          + ∑ j ∈ Finset.range (points.length - 2), (secondDiff points (j + 1)).y ^ 2
          + ∑ j ∈ Finset.range (points.length - 2), (secondDiff points (j + 1)).z ^ 2 := by
      rw [← Finset.sum_add_distrib, ← Finset.sum_add_distrib]
      apply Finset.sum_congr rfl
      intro j _
      simp only [normSq]
      ring
    rw [hsplit]
    exact add_le_add (add_le_add hx hy) hz

theorem smoothPasses_succ (k : Nat) (points : List (Vec3 K)) :
    smoothPasses (k + 1) points = smoothOutlinePoints (smoothPasses k points) := by
  induction k generalizing points with
  | zero => rfl
  | succ k ih =>
    show smoothPasses (k + 1) (smoothOutlinePoints points) = _
    rw [ih]
    rfl

end EnergyLemmas

/-- C4: zero smoothing passes leave a polyline unchanged, and the sum over the
interior points of the squared second difference after `k + 1` passes is at
most its value after `k` passes. -/
theorem smoothPasses_energy_antitone {K : Type} [LinearOrderedField K]
    (points : List (Vec3 K)) (k : Nat) :
    smoothPasses 0 points = points ∧
    bendEnergy (smoothPasses (k + 1) points) ≤ bendEnergy (smoothPasses k points) := by
  refine ⟨rfl, ?_⟩
  rw [smoothPasses_succ]
  exact bendEnergy_smooth_le _

/-! ### `unionPolygons` -/

section MergeLemmas
variable {K : Type} [LinearOrderedField K]

/-- The replaced declaration (line 4145) absorbs every exception of the engine:
whenever its `try` block fails it returns its first argument. -/
theorem VectorInk.unionPolygons_of_throw {P : Type} (lib : Option (Clipper P K))
    (poly1 poly2 : List P) (e : String) (h : VectorInk.unionTry lib poly1 poly2 = Except.error e) :
    VectorInk.unionPolygons lib (some poly1) (some poly2) = some poly1 := by
  simp [VectorInk.unionPolygons, h]

/-- The replaced declaration (line 4145) returns `poly` for `(poly, null)`. -/
theorem VectorInk.unionPolygons_null {P : Type} (lib : Option (Clipper P K)) (poly : List P) :
    VectorInk.unionPolygons lib (some poly) none = some poly := rfl

/-- The declaration in effect (line 5142) passes on an exception of `AddPath`. -/
theorem unionPolygons_of_addPath_throw (round : K → K) (cpr : Clipper (IntPoint K) K)
    (poly1 poly2 : List (Vec2 K)) (e : String)
    (h : cpr.AddPath (poly1.map (toClipper round)) PolyType.ptSubject = Except.error e) :
    unionPolygons round (some cpr) (some poly1) (some poly2) = Except.error e := by
  simp [unionPolygons, h, bind, Except.bind, pure, Except.pure]

/-- The declaration in effect (line 5142) passes on an exception of `Execute`. -/
theorem unionPolygons_of_execute_throw (round : K → K) (cpr : Clipper (IntPoint K) K)
    (poly1 poly2 : List (Vec2 K)) (e : String)
    (h1 : cpr.AddPath (poly1.map (toClipper round)) PolyType.ptSubject = Except.ok ())
    (h2 : cpr.AddPath (poly2.map (toClipper round)) PolyType.ptClip = Except.ok ())
    (h : cpr.Execute (poly1.map (toClipper round)) (poly2.map (toClipper round))
      = Except.error e) :
    unionPolygons round (some cpr) (some poly1) (some poly2) = Except.error e := by
  simp [unionPolygons, h, h1, h2, bind, Except.bind, pure, Except.pure]

/-- The loop "Get outer boundary (largest polygon)" returns the first polygon
of maximal signed area among `first` and `solution`. -/
theorem largestOf_spec {P : Type} (area : List P → K) :
    ∀ (solution : List (List P)) (first : List P),
      (largestOf area first solution = first ∨ largestOf area first solution ∈ solution) ∧
      area first ≤ area (largestOf area first solution) ∧
      ∀ s ∈ solution, area s ≤ area (largestOf area first solution) := by
  intro solution
  induction solution with
  | nil =>
    intro first
    exact ⟨Or.inl rfl, le_refl _, fun s hs => by simp at hs⟩
  | cons x xs ih =>
    intro first
    unfold largestOf
    rw [List.foldl_cons]
    by_cases hc : area x > area first
    · rw [if_pos hc]
      obtain ⟨hmem, hle, hmax⟩ := ih x
      unfold largestOf at hmem hle hmax
      refine ⟨Or.inr ?_, le_trans (le_of_lt hc) hle, ?_⟩
      · rcases hmem with h | h
        · rw [h]
          exact List.mem_cons_self _ _
        · exact List.mem_cons_of_mem _ h
      · intro s hs
        rcases List.mem_cons.1 hs with h | h
        · rw [h]
          exact hle
        · exact hmax s h
    · rw [if_neg hc]
      obtain ⟨hmem, hle, hmax⟩ := ih first
      unfold largestOf at hmem hle hmax
      refine ⟨?_, hle, ?_⟩
      · rcases hmem with h | h
        · exact Or.inl h
        · exact Or.inr (List.mem_cons_of_mem _ h)
      · intro s hs
        rcases List.mem_cons.1 hs with h | h
        · rw [h]
          exact le_trans (not_lt.1 hc) hle
        · exact hmax s h

end MergeLemmas

/-- C5 (the code at the failing input): with a clipping engine whose `AddPath`
throws, the declaration of `unionPolygons` in effect at run time raises the
engine's exception to its caller instead of returning its first argument,
whereas the replaced declaration returns the first argument. -/
theorem unionPolygons_raises_engine_error :
    unionPolygons jsRound (some throwingClipper) (some triangle) (some triangle)
      = Except.error "Error: AddPath failed" ∧
    VectorInk.unionPolygons (some throwingClipper)
        (some (triangle.map (toClipper jsRound))) (some (triangle.map (toClipper jsRound)))
      = some (triangle.map (toClipper jsRound)) := by
  constructor
  · exact unionPolygons_of_addPath_throw jsRound throwingClipper triangle triangle _ rfl
  · exact VectorInk.unionPolygons_of_throw _ _ _ "Error: AddPath failed" rfl

/-- C6 (the code at the failing input): with the clipping library loaded, the
declaration of `unionPolygons` in effect at run time raises a `TypeError` for
`(poly, null)`, for every polygon and every engine. -/
theorem unionPolygons_null_raises {K : Type} [LinearOrderedField K] (round : K → K)
    (cpr : Clipper (IntPoint K) K) (poly : List (Vec2 K)) :
    unionPolygons round (some cpr) (some poly) none
      = Except.error "TypeError: Cannot read properties of null (reading 'map')" := by
  simp [unionPolygons, bind, Except.bind, pure, Except.pure]

/-- C7: when the engine is loaded, accepts both paths and reports a non-empty
solution list that follows the engine's orientation convention (outer
boundaries have non-negative signed area; a hole has negative signed area and
lies inside an outer boundary of the list, so that its absolute area is not
larger than the area of that boundary), `unionPolygons` returns a polygon of
the list, converted back with `p.X / 1000`, `p.Y / 1000`, whose absolute area
is maximal among the polygons of the list. -/
theorem unionPolygons_returns_largest {K : Type} [LinearOrderedField K] (round : K → K)
    (cpr : Clipper (IntPoint K) K) (poly1 poly2 : List (Vec2 K)) (flag : Bool)
    (solution : List (List (IntPoint K)))
    (h1 : cpr.AddPath (poly1.map (toClipper round)) PolyType.ptSubject = Except.ok ())
    (h2 : cpr.AddPath (poly2.map (toClipper round)) PolyType.ptClip = Except.ok ())
    (hexec : cpr.Execute (poly1.map (toClipper round)) (poly2.map (toClipper round))
      = Except.ok (flag, solution))
    (hne : solution ≠ [])
    (horient : ∀ s ∈ solution, cpr.Area s < 0 → ∃ o ∈ solution, |cpr.Area s| ≤ cpr.Area o) :
    ∃ largest ∈ solution,
      unionPolygons round (some cpr) (some poly1) (some poly2)
        = Except.ok (some (largest.map fromClipper)) ∧
      ∀ s ∈ solution, |cpr.Area s| ≤ |cpr.Area largest| := by
  cases solution with
  | nil => exact absurd rfl hne
  | cons first rest =>
    obtain ⟨hmem, _, hmax⟩ := largestOf_spec cpr.Area (first :: rest) first
    have hin : largestOf cpr.Area first (first :: rest) ∈ first :: rest := by
      rcases hmem with h | h
      · rw [h]
        exact List.mem_cons_self _ _
      · exact h
    refine ⟨largestOf cpr.Area first (first :: rest), hin, ?_, ?_⟩
    · simp [unionPolygons, h1, h2, hexec, bind, Except.bind, pure, Except.pure]
    · intro s hs
      by_cases hneg : cpr.Area s < 0
      · obtain ⟨o, ho, hle⟩ := horient s hs hneg
        have hom := hmax o ho
        exact le_trans hle (le_trans hom (le_abs_self _))
      · have h0 : 0 ≤ cpr.Area s := not_lt.1 hneg
        rw [abs_of_nonneg h0]
        exact le_trans (hmax s hs) (le_abs_self _)

/-- Witness of `unionPolygons_returns_largest`: the engine reports the hole
`smallHole` (area -1000000) before the outer boundary `bigOuter` (area
9000000); `unionPolygons` returns `bigOuter`. -/
theorem unionPolygons_returns_largest_witness :
    unionPolygons jsRound (some (constClipper [smallHole, bigOuter]))
        (some triangle) (some triangle)
      = Except.ok (some (bigOuter.map fromClipper)) ∧
    ∀ s ∈ [smallHole, bigOuter], |shoelace s| ≤ |shoelace bigOuter| := by
  obtain ⟨largest, _, hres, hmax⟩ := unionPolygons_returns_largest jsRound
    (constClipper [smallHole, bigOuter]) triangle triangle true [smallHole, bigOuter]
    rfl rfl rfl (by simp)
    (fun s hs _ => ⟨bigOuter, by simp, by
      rcases List.mem_cons.1 hs with h | h
      · rw [h]
        decide!
      · rw [List.mem_singleton.1 h]
        decide!⟩)
  have e : unionPolygons jsRound (some (constClipper [smallHole, bigOuter]))
      (some triangle) (some triangle) = Except.ok (some (bigOuter.map fromClipper)) := by
    decide!
  refine ⟨e, fun s hs => ?_⟩
  rcases List.mem_cons.1 hs with h | h
  · rw [h]
    decide!
  · rw [List.mem_singleton.1 h]

/-! ### Growth: the tick gate -/

section TickLemmas
variable {K : Type} [LinearOrderedField K]

theorem getOrCreateState_of_some (h : Host K) (growthIntensity : K)
    (growthProgress : Nat → Option (GrowthState K)) (draws : Nat) (tube : List (Vec3 K))
    (tubeId : Nat) (state : GrowthState K) (hs : growthProgress tubeId = some state) :
    getOrCreateState h growthIntensity growthProgress draws tube tubeId = (state, draws) := by
  simp [getOrCreateState, hs]

omit [LinearOrderedField K] in
theorem update_same (growthProgress : Nat → Option (GrowthState K)) (tubeId : Nat)
    (state : GrowthState K) (hs : growthProgress tubeId = some state) :
    Function.update growthProgress tubeId (some state) = growthProgress := by
  rw [← hs]
  exact Function.update_eq_self tubeId growthProgress

/-- A tick on a frozen state changes nothing and draws the current points. -/
theorem drawGrowthBranches_frozen (h : Host K) (growthIntensity : K) (fuel : Nat)
    (growthProgress : Nat → Option (GrowthState K)) (draws : Nat) (tube : List (Vec3 K))
    (tubeId : Nat) (state : GrowthState K) (ht : 3 ≤ tube.length)
    (hs : growthProgress tubeId = some state) (hf : frozen state) :
    drawGrowthBranches h growthIntensity fuel growthProgress draws tube tubeId
      = Except.ok ⟨growthProgress, draws, some state.diffLine.getPoints⟩ := by
  unfold drawGrowthBranches
  rw [if_neg (by omega), getOrCreateState_of_some h growthIntensity growthProgress draws tube
    tubeId state hs]
  simp only [update_same growthProgress tubeId state hs]
  have hf' : state.diffLine.getPoints.length > MAX_POINTS ∨ state.iteration > MAX_ITERATIONS := hf
  rw [if_pos hf']
  rfl

/-- A tick on a state that is not frozen and whose frame counter becomes 2
calls `run()` and adds 1 to the iteration counter. -/
theorem drawGrowthBranches_run (h : Host K) (growthIntensity : K) (fuel : Nat)
    (growthProgress : Nat → Option (GrowthState K)) (draws : Nat) (tube : List (Vec3 K))
    (tubeId : Nat) (state : GrowthState K) (ht : 3 ≤ tube.length)
    (hs : growthProgress tubeId = some state) (hf : ¬ frozen state)
    (hframes : 1 ≤ state.framesSinceLastGrowth) :
    drawGrowthBranches h growthIntensity fuel growthProgress draws tube tubeId
      = (state.diffLine.run h growthIntensity fuel draws).map fun r =>
          ⟨Function.update growthProgress tubeId
              (some { iteration := state.iteration + 1, diffLine := r.1,
                      framesSinceLastGrowth := 0 }),
            r.2, some r.1.getPoints⟩ := by
  unfold drawGrowthBranches
  rw [if_neg (by omega), getOrCreateState_of_some h growthIntensity growthProgress draws tube
    tubeId state hs]
  simp only [update_same growthProgress tubeId state hs]
  have hf' : ¬ (state.diffLine.getPoints.length > MAX_POINTS ∨ state.iteration > MAX_ITERATIONS) := hf
  rw [if_neg hf']
  rw [if_neg (by omega)]
  cases hr : state.diffLine.run h growthIntensity fuel draws with
  | error e => simp [hr, bind, Except.bind, Except.map]
  | ok r => simp [hr, bind, Except.bind, Except.map, pure, Except.pure]

/-- A tick on a state that is not frozen and whose frame counter is 0 only adds
1 to the frame counter and draws the current points. -/
theorem drawGrowthBranches_wait (h : Host K) (growthIntensity : K) (fuel : Nat)
    (growthProgress : Nat → Option (GrowthState K)) (draws : Nat) (tube : List (Vec3 K))
    (tubeId : Nat) (state : GrowthState K) (ht : 3 ≤ tube.length)
    (hs : growthProgress tubeId = some state) (hf : ¬ frozen state)
    (hframes : state.framesSinceLastGrowth = 0) :
    drawGrowthBranches h growthIntensity fuel growthProgress draws tube tubeId
      = Except.ok ⟨Function.update growthProgress tubeId
            (some { state with framesSinceLastGrowth := 1 }),
          draws, some state.diffLine.getPoints⟩ := by
  unfold drawGrowthBranches
  rw [if_neg (by omega), getOrCreateState_of_some h growthIntensity growthProgress draws tube
    tubeId state hs]
  simp only [update_same growthProgress tubeId state hs]
  have hf' : ¬ (state.diffLine.getPoints.length > MAX_POINTS ∨ state.iteration > MAX_ITERATIONS) := hf
  rw [if_neg hf']
  simp only [hframes]
  rfl

end TickLemmas

/-! ### Growth: seeding -/

section SeedLemmas
variable {K : Type} [LinearOrderedField K]

/-- The indices below `len` that are multiples of `s` are `0, s, 2 s, ...`,
and there are `⌈len / s⌉` of them. -/
theorem filter_multiples (s : Nat) (hs : 0 < s) (len : Nat) :
    (List.range len).filter (fun i => i % s = 0)
      = (List.range ((len + s - 1) / s)).map (fun j => j * s) := by
  induction len with
  | zero =>
    have : (s - 1) / s = 0 := Nat.div_eq_of_lt (by omega)
    simp [this]
  | succ len ih =>
    rw [List.range_succ, List.filter_append, ih]
    have hdm := Nat.div_add_mod len s
    have hr : len % s < s := Nat.mod_lt _ hs
    by_cases h0 : len % s = 0
    · have hlen : len = s * (len / s) := by omega
      have e1 : (len + s - 1) / s = len / s := by
        apply Nat.div_eq_of_lt_le
        · rw [Nat.mul_comm]; omega
        · rw [Nat.add_mul, Nat.mul_comm (len / s) s]; omega
      have e2 : (len + 1 + s - 1) / s = len / s + 1 := by
        apply Nat.div_eq_of_lt_le
        · rw [Nat.add_mul, Nat.mul_comm (len / s) s]; omega
        · rw [Nat.add_mul, Nat.add_mul, Nat.mul_comm (len / s) s]; omega
      rw [e1, e2, List.range_succ, List.map_append]
      simp only [List.filter_cons, List.filter_nil, h0, decide_True, if_true, List.map_cons,
        List.map_nil]
      rw [Nat.mul_comm (len / s) s, ← hlen]
    · have e1 : (len + s - 1) / s = len / s + 1 := by
        apply Nat.div_eq_of_lt_le
        · rw [Nat.add_mul, Nat.mul_comm (len / s) s]; omega
        · rw [Nat.add_mul, Nat.add_mul, Nat.mul_comm (len / s) s]; omega
      have e2 : (len + 1 + s - 1) / s = len / s + 1 := by
        apply Nat.div_eq_of_lt_le
        · rw [Nat.add_mul, Nat.mul_comm (len / s) s]; omega
        · rw [Nat.add_mul, Nat.add_mul, Nat.mul_comm (len / s) s]; omega
      rw [e1, e2]
      simp [h0]

/-- The positions of the nodes that the seeding loop appends are the tube
points at the visited indices, in order. -/
theorem seedNodes_positions (h : Host K) (tube : List (Vec3 K))
    (maxForce maxSpeed desiredSeparation separationCohesionRatio : K) (l : List Nat)
    (st : DifferentialLine3D K × Nat) :
    (l.foldl
      (fun st i =>
        let p := tube.getD i default
        let node := Node3D.new p.x p.y p.z
          (maxForce + h.random st.2 (-3 / 10) (3 / 10))
          (maxSpeed + h.random (st.2 + 1) (-1 / 5) (1 / 5))
          (desiredSeparation + h.random (st.2 + 2) (-2) 2)
          separationCohesionRatio true
        (DifferentialLine3D.addNode st.1 node, st.2 + 3))
      st).1.nodes.map (fun n => n.position)
      = st.1.nodes.map (fun n => n.position) ++ l.map (fun i => tube.getD i default) := by
  induction l generalizing st with
  | nil => simp
  | cons i l ih =>
    rw [List.foldl_cons, ih]
    simp [DifferentialLine3D.addNode, Node3D.new]

/-- The state created for a tube without growth state: iteration 0, frame
counter 0, and one node at each of `tube[0], tube[stride], tube[2 stride], ...`
with `stride = max(3, floor(len / 40))`. -/
theorem getOrCreateState_fresh (h : Host K) (growthIntensity : K)
    (growthProgress : Nat → Option (GrowthState K)) (draws : Nat) (tube : List (Vec3 K))
    (tubeId : Nat) (hnone : growthProgress tubeId = none) :
    (getOrCreateState h growthIntensity growthProgress draws tube tubeId).1.iteration = 0 ∧
    (getOrCreateState h growthIntensity growthProgress draws tube tubeId).1.framesSinceLastGrowth
      = 0 ∧
    (getOrCreateState h growthIntensity growthProgress draws tube tubeId).1.diffLine.nodes.map
        (fun n => n.position)
      = (List.range ((tube.length + max 3 (tube.length / 40) - 1) / max 3 (tube.length / 40))).map
          (fun j => tube.getD (j * max 3 (tube.length / 40)) default) := by
  have hpos : 0 < max 3 (tube.length / 40) := by omega
  simp only [getOrCreateState, hnone, seedNodes, true_and]
  rw [seedNodes_positions, filter_multiples _ hpos]
  simp [DifferentialLine3D.new, List.map_map, Function.comp_def]

/-- The number of seed nodes: `⌈len / stride⌉`, between 40 and 53 for
`len ≥ 120` and at most 40 below. -/
theorem seed_count_bounds (len : Nat) :
    (120 ≤ len → 40 ≤ (len + max 3 (len / 40) - 1) / max 3 (len / 40) ∧
      (len + max 3 (len / 40) - 1) / max 3 (len / 40) ≤ 53) ∧
    (len < 120 → (len + max 3 (len / 40) - 1) / max 3 (len / 40) ≤ 40) := by
  constructor
  · intro hlen
    have hq : max 3 (len / 40) = len / 40 := by omega
    rw [hq]
    have h3 : 3 ≤ len / 40 := by omega
    have hpos : 0 < len / 40 := by omega
    constructor
    · rw [Nat.le_div_iff_mul_le hpos]; omega
    · apply Nat.le_of_lt_succ
      rw [Nat.div_lt_iff_lt_mul hpos]; omega
  · intro hlen
    have hq : max 3 (len / 40) = 3 := by omega
    rw [hq]
    omega

end SeedLemmas

/-- C12: for a tube of length `len ≥ 3` without growth state, seeding uses
`stride = max(3, floor(len / 40))` and creates exactly `⌈len / stride⌉` nodes,
at `tube[0], tube[stride], tube[2 stride], ...`; that count lies between 40 and
53 when `len ≥ 120` and is at most 40 otherwise. -/
theorem seeding_stride_and_count {K : Type} [LinearOrderedField K] (h : Host K)
    (growthIntensity : K) (growthProgress : Nat → Option (GrowthState K)) (draws : Nat)
    (tube : List (Vec3 K)) (tubeId : Nat) (hlen : 3 ≤ tube.length)
    (hnone : growthProgress tubeId = none) :
    ∃ (state : GrowthState K) (draws1 : Nat),
      getOrCreateState h growthIntensity growthProgress draws tube tubeId = (state, draws1) ∧
      state.diffLine.nodes.map (fun n => n.position)
        = (List.range ((tube.length + max 3 (tube.length / 40) - 1)
              / max 3 (tube.length / 40))).map
            (fun j => tube.getD (j * max 3 (tube.length / 40)) default) ∧
      state.diffLine.nodes.length
        = (tube.length + max 3 (tube.length / 40) - 1) / max 3 (tube.length / 40) ∧
      (120 ≤ tube.length → 40 ≤ state.diffLine.nodes.length ∧ state.diffLine.nodes.length ≤ 53) ∧
      (tube.length < 120 → state.diffLine.nodes.length ≤ 40) := by
  have _hlen := hlen
  obtain ⟨_, _, hp⟩ := getOrCreateState_fresh h growthIntensity growthProgress draws tube tubeId
    hnone
  have hcount : (getOrCreateState h growthIntensity growthProgress draws tube
      tubeId).1.diffLine.nodes.length
      = (tube.length + max 3 (tube.length / 40) - 1) / max 3 (tube.length / 40) := by
    have := congrArg List.length hp
    simpa using this
  refine ⟨(getOrCreateState h growthIntensity growthProgress draws tube tubeId).1,
    (getOrCreateState h growthIntensity growthProgress draws tube tubeId).2, rfl, hp, hcount,
    ?_, ?_⟩
  · intro h120
    have hb := (seed_count_bounds tube.length).1 h120
    rw [← hcount] at hb
    exact hb
  · intro h120
    have hb := (seed_count_bounds tube.length).2 h120
    rw [← hcount] at hb
    exact hb

/-- Witness of `seeding_stride_and_count`: the four-point tube `tube4` is seeded
with `⌈4 / 3⌉ = 2` nodes. -/
theorem seeding_stride_and_count_witness :
    ∃ (state : GrowthState ℚ) (draws1 : Nat),
      getOrCreateState midHost 1 (fun _ => none) 0 tube4 0 = (state, draws1) ∧
      state.diffLine.nodes.length = 2 := by
  obtain ⟨state, draws1, h1, _, h3, _, _⟩ :=
    seeding_stride_and_count midHost 1 (fun _ => none) 0 tube4 0 (by decide) rfl
  exact ⟨state, draws1, h1, by simpa [tube4] using h3⟩

/-! ### The rational host -/

theorem sqrtIter_eq (n : Nat) : ∀ fuel guess : Nat, guess ≤ fuel →
    sqrtIter n fuel guess = Nat.sqrt.iter n guess := by
  intro fuel
  induction fuel with
  | zero =>
    intro guess hg
    have h0 : guess = 0 := by omega
    subst h0
    rw [Nat.sqrt.iter]
    simp [sqrtIter]
  | succ fuel ih =>
    intro guess hg
    rw [Nat.sqrt.iter]
    simp only [sqrtIter]
    by_cases hlt : (guess + n / guess) / 2 < guess
    · rw [if_pos hlt, dif_pos hlt]
      exact ih _ (by omega)
    · rw [if_neg hlt, dif_neg hlt]

theorem natSqrt_eq (n : Nat) : natSqrt n = Nat.sqrt n := by
  unfold natSqrt Nat.sqrt
  by_cases h : n ≤ 1
  · simp [h]
  · simp only [h, if_false]
    exact sqrtIter_eq n _ _ (le_refl _)

theorem ratSqrt_eq (q : ℚ) : ratSqrt q = Rat.sqrt q := by
  unfold ratSqrt Rat.sqrt Int.sqrt
  rw [natSqrt_eq, natSqrt_eq]

/-- The square root of the rational host is exact on squares. -/
theorem ratSqrt_mul_self (q : ℚ) : midHost.sqrt (q * q) = |q| := by
  show ratSqrt (q * q) = |q|
  rw [ratSqrt_eq]
  exact Rat.sqrt_eq q

/-! ### Growth: the caps -/

section CapLemmas
variable {K : Type} [LinearOrderedField K]

omit [LinearOrderedField K] in
theorem getPoints_length (line : DifferentialLine3D K) :
    line.getPoints.length = line.nodes.length := by
  simp [DifferentialLine3D.getPoints]

/-- Any number of ticks on a frozen state changes nothing. -/
theorem ticks_frozen (h : Host K) (growthIntensity : K) (fuel : Nat)
    (growthProgress : Nat → Option (GrowthState K)) (draws : Nat) (tube : List (Vec3 K))
    (tubeId : Nat) (state : GrowthState K) (ht : 3 ≤ tube.length)
    (hs : growthProgress tubeId = some state) (hf : frozen state) (n : Nat) :
    ticks h growthIntensity fuel tube tubeId growthProgress draws (n + 1)
      = Except.ok ⟨growthProgress, draws, some state.diffLine.getPoints⟩ := by
  induction n with
  | zero =>
    simp only [ticks, bind, Except.bind, pure, Except.pure]
    exact drawGrowthBranches_frozen h growthIntensity fuel growthProgress draws tube tubeId
      state ht hs hf
  | succ n ih =>
    rw [ticks, ih]
    simp only [bind, Except.bind]
    exact drawGrowthBranches_frozen h growthIntensity fuel growthProgress draws tube tubeId
      state ht hs hf

end CapLemmas

/-- C10: if at entry to `drawGrowthBranches` the growth state of the tube has
more than 800 nodes or an iteration counter above 500, the call leaves
`growthProgress` (node list, every node, iteration, frame counter) unchanged
and draws exactly the current `getPoints()`; the same holds for every later
tick. -/
theorem frozen_state_is_only_redrawn {K : Type} [LinearOrderedField K] (h : Host K)
    (growthIntensity : K) (fuel : Nat) (growthProgress : Nat → Option (GrowthState K))
    (draws : Nat) (tube : List (Vec3 K)) (tubeId : Nat) (state : GrowthState K)
    (ht : 3 ≤ tube.length) (hs : growthProgress tubeId = some state)
    (hcap : state.diffLine.nodes.length > 800 ∨ state.iteration > 500) :
    drawGrowthBranches h growthIntensity fuel growthProgress draws tube tubeId
      = Except.ok ⟨growthProgress, draws, some state.diffLine.getPoints⟩ ∧
    ∀ n, ticks h growthIntensity fuel tube tubeId growthProgress draws (n + 1)
      = Except.ok ⟨growthProgress, draws, some state.diffLine.getPoints⟩ := by
  have hf : frozen state := by
    unfold frozen MAX_POINTS MAX_ITERATIONS
    rw [getPoints_length]
    exact hcap
  exact ⟨drawGrowthBranches_frozen h growthIntensity fuel growthProgress draws tube tubeId
      state ht hs hf,
    ticks_frozen h growthIntensity fuel growthProgress draws tube tubeId state ht hs hf⟩

/-- Witness of `frozen_state_is_only_redrawn`: the state of `stateAt500` with the
counter at 501 is only redrawn. -/
theorem frozen_state_is_only_redrawn_witness :
    drawGrowthBranches midHost 1 10
        (singleProgress 0 { stateAt500 with iteration := 501 }) 0 tube4 0
      = Except.ok ⟨singleProgress 0 { stateAt500 with iteration := 501 }, 0,
          some stateAt500.diffLine.getPoints⟩ :=
  (frozen_state_is_only_redrawn midHost 1 10
    (singleProgress 0 { stateAt500 with iteration := 501 }) 0 tube4 0
    { stateAt500 with iteration := 501 } (by decide) rfl (Or.inr (by decide))).1

/-- C9 (the code at the failing input): a tick that finds the iteration counter
at 500 (and one frame counted) calls `run()`: the counter becomes 501 and the
nodes move from `x = 0, 3` to `x = -4/25, 79/25`. -/
theorem tick_at_iteration_500_runs :
    stateAt500.diffLine.nodes.map (fun n => n.position) = [⟨0, 0, 0⟩, ⟨3, 0, 0⟩] ∧
    tickSummary (drawGrowthBranches midHost 1 10 (singleProgress 0 stateAt500) 0 tube4 0) 0
      = some ⟨501, 0, [⟨-4 / 25, 0, 0⟩, ⟨79 / 25, 0, 0⟩],
          some [⟨-4 / 25, 0, 0⟩, ⟨79 / 25, 0, 0⟩]⟩ := by
  constructor
  · decide!
  · decide!

/-! ### Growth: the throttle -/

section ThrottleLemmas
variable {K : Type} [LinearOrderedField K]

/-- A freshly seeded state is never frozen: it has at most 53 nodes. -/
theorem seeded_not_frozen (h : Host K) (growthIntensity : K)
    (growthProgress : Nat → Option (GrowthState K)) (draws : Nat) (tube : List (Vec3 K))
    (tubeId : Nat) (hnone : growthProgress tubeId = none) :
    ¬ frozen (getOrCreateState h growthIntensity growthProgress draws tube tubeId).1 := by
  obtain ⟨hi, _, hp⟩ := getOrCreateState_fresh h growthIntensity growthProgress draws tube tubeId
    hnone
  have hcount : (getOrCreateState h growthIntensity growthProgress draws tube
      tubeId).1.diffLine.nodes.length
      = (tube.length + max 3 (tube.length / 40) - 1) / max 3 (tube.length / 40) := by
    have := congrArg List.length hp
    simpa using this
  have hb := seed_count_bounds tube.length
  unfold frozen MAX_POINTS MAX_ITERATIONS
  rw [getPoints_length, hcount, hi]
  by_cases h120 : 120 ≤ tube.length
  · have := (hb.1 h120).2
    omega
  · have := hb.2 (by omega)
    omega

/-- The first tick of a tube without growth state seeds it and only counts one
frame. -/
theorem drawGrowthBranches_fresh (h : Host K) (growthIntensity : K) (fuel : Nat)
    (growthProgress : Nat → Option (GrowthState K)) (draws : Nat) (tube : List (Vec3 K))
    (tubeId : Nat) (ht : 3 ≤ tube.length) (hnone : growthProgress tubeId = none) :
    ∃ t : Tick K,
      drawGrowthBranches h growthIntensity fuel growthProgress draws tube tubeId = Except.ok t ∧
      t.progress tubeId
        = some { (getOrCreateState h growthIntensity growthProgress draws tube tubeId).1 with
                 framesSinceLastGrowth := 1 } := by
  obtain ⟨_, hfr, _⟩ := getOrCreateState_fresh h growthIntensity growthProgress draws tube tubeId
    hnone
  have hnf := seeded_not_frozen h growthIntensity growthProgress draws tube tubeId hnone
  have hnf' : ¬ ((getOrCreateState h growthIntensity growthProgress draws tube
      tubeId).1.diffLine.getPoints.length > MAX_POINTS ∨
      (getOrCreateState h growthIntensity growthProgress draws tube tubeId).1.iteration
        > MAX_ITERATIONS) := hnf
  unfold drawGrowthBranches
  rw [if_neg (by omega)]
  simp only []
  rw [if_neg hnf']
  simp only [hfr]
  refine ⟨_, rfl, ?_⟩
  simp

/-- After `k ≥ 1` ticks that found the caps not exceeded, the iteration counter
is `k / 2` and the frame counter is `k % 2`. -/
theorem ticks_counters (h : Host K) (growthIntensity : K) (fuel : Nat)
    (growthProgress : Nat → Option (GrowthState K)) (draws : Nat) (tube : List (Vec3 K))
    (tubeId : Nat) (ht : 3 ≤ tube.length) (hnone : growthProgress tubeId = none) :
    ∀ (k : Nat) (t : Tick K),
      ticks h growthIntensity fuel tube tubeId growthProgress draws (k + 1) = Except.ok t →
      (∀ j tj st, j ≤ k →
        ticks h growthIntensity fuel tube tubeId growthProgress draws j = Except.ok tj →
        tj.progress tubeId = some st → ¬ frozen st) →
      ∃ st, t.progress tubeId = some st ∧ st.iteration = (k + 1) / 2 ∧
        st.framesSinceLastGrowth = (k + 1) % 2 := by
  intro k
  induction k with
  | zero =>
    intro t hk _
    simp only [ticks, bind, Except.bind, pure, Except.pure] at hk
    obtain ⟨t1, h1, h2⟩ := drawGrowthBranches_fresh h growthIntensity fuel growthProgress draws
      tube tubeId ht hnone
    obtain ⟨hi, _, _⟩ := getOrCreateState_fresh h growthIntensity growthProgress draws tube
      tubeId hnone
    rw [h1] at hk
    cases hk
    exact ⟨_, h2, by simpa using hi, rfl⟩
  | succ k ih =>
    intro t hk hcaps
    rw [ticks] at hk
    cases hprev : ticks h growthIntensity fuel tube tubeId growthProgress draws (k + 1) with
    | error e => rw [hprev] at hk; simp [bind, Except.bind] at hk
    | ok tk =>
      rw [hprev] at hk
      simp only [bind, Except.bind] at hk
      obtain ⟨st, hst, hit, hframes⟩ := ih tk hprev
        (fun j tj s hj => hcaps j tj s (by omega))
      have hnf : ¬ frozen st := hcaps (k + 1) tk st (le_refl _) hprev hst
      rcases Nat.mod_two_eq_zero_or_one (k + 1) with hpar | hpar
      · rw [drawGrowthBranches_wait h growthIntensity fuel tk.progress tk.draws tube tubeId st ht
          hst hnf (by omega)] at hk
        cases hk
        refine ⟨{ st with framesSinceLastGrowth := 1 }, by simp, ?_, ?_⟩
        · show st.iteration = (k + 1 + 1) / 2
          omega
        · show 1 = (k + 1 + 1) % 2
          omega
      · rw [drawGrowthBranches_run h growthIntensity fuel tk.progress tk.draws tube tubeId st ht
          hst hnf (by omega)] at hk
        cases hrun : st.diffLine.run h growthIntensity fuel tk.draws with
        | error e => rw [hrun] at hk; simp [Except.map] at hk
        | ok r =>
          rw [hrun] at hk
          simp only [Except.map] at hk
          cases hk
          refine ⟨(⟨st.iteration + 1, r.1, 0⟩ : GrowthState K), by simp, ?_, ?_⟩
          · show st.iteration + 1 = (k + 1 + 1) / 2
            omega
          · show 0 = (k + 1 + 1) % 2
            omega

end ThrottleLemmas

/-- C13: starting with the call that seeds the growth state, and as long as
each call finds neither cap exceeded, after `k` calls of `drawGrowthBranches`
the iteration counter (the number of `run()` calls) is `floor(k / 2)` and the
frame counter is `k mod 2`: `run()` is invoked on exactly the 2nd, 4th, 6th, ...
call. -/
theorem run_on_every_second_tick {K : Type} [LinearOrderedField K] (h : Host K)
    (growthIntensity : K) (fuel : Nat) (growthProgress : Nat → Option (GrowthState K))
    (draws : Nat) (tube : List (Vec3 K)) (tubeId : Nat) (ht : 3 ≤ tube.length)
    (hnone : growthProgress tubeId = none) (k : Nat) (hk : 1 ≤ k) (t : Tick K)
    (hticks : ticks h growthIntensity fuel tube tubeId growthProgress draws k = Except.ok t)
    (hcaps : ∀ j tj st, j < k →
      ticks h growthIntensity fuel tube tubeId growthProgress draws j = Except.ok tj →
      tj.progress tubeId = some st →
      ¬ (st.diffLine.nodes.length > 800 ∨ st.iteration > 500)) :
    ∃ st, t.progress tubeId = some st ∧ st.iteration = k / 2 ∧
      st.framesSinceLastGrowth = k % 2 := by
  obtain ⟨k, rfl⟩ : ∃ m, k = m + 1 := ⟨k - 1, by omega⟩
  refine ticks_counters h growthIntensity fuel growthProgress draws tube tubeId ht hnone k t
    hticks ?_
  intro j tj st hj h1 h2
  have := hcaps j tj st (by omega) h1 h2
  unfold frozen MAX_POINTS MAX_ITERATIONS
  rw [getPoints_length]
  exact this

/-- Witness of `run_on_every_second_tick`: two ticks of `tube4` under the
rational host; the second one calls `run()`. -/
theorem run_on_every_second_tick_witness :
    ∃ (t : Tick ℚ) (st : GrowthState ℚ),
      ticks midHost 1 10 tube4 0 (fun _ => none) 0 2 = Except.ok t ∧
      t.progress 0 = some st ∧ st.iteration = 1 ∧ st.framesSinceLastGrowth = 0 := by
  have hok : Except.toBool (ticks midHost 1 10 tube4 0 (fun _ => none) 0 2) = true := by
    decide!
  have hone : tickSummary (ticks midHost 1 10 tube4 0 (fun _ => none) 0 1) 0
      = some ⟨0, 1, [⟨0, 0, 0⟩, ⟨3, 0, 0⟩], some [⟨0, 0, 0⟩, ⟨3, 0, 0⟩]⟩ := by
    decide!
  cases hr : ticks midHost 1 10 tube4 0 (fun _ => none) 0 2 with
  | error e => rw [hr] at hok; simp [Except.toBool] at hok
  | ok t =>
    obtain ⟨st, h1, h2, h3⟩ := run_on_every_second_tick midHost 1 10 (fun _ => none) 0 tube4 0
      (by decide) rfl 2 (by decide) t hr
      (by
        intro j tj st hj hj1 hj2
        interval_cases j
        · simp only [ticks, pure, Except.pure] at hj1
          cases hj1
          simp at hj2
        · rw [hj1] at hone
          simp only [tickSummary, hj2, Option.some.injEq, Summary.mk.injEq] at hone
          have hlen := congrArg List.length hone.2.2.1
          simp only [List.length_map, List.length_cons, List.length_nil] at hlen
          omega)
    exact ⟨t, st, rfl, h1, h2, h3⟩

/-! ### Growth: `run()` keeps the nodes -/

section RunLemmas
variable {K : Type} [LinearOrderedField K]

theorem set_of_getElem? {α : Type} (l : List α) (i : Nat) (a : α) (h : l[i]? = some a) :
    l.set i a = l := by
  induction l generalizing i with
  | nil => simp
  | cons b l ih =>
    cases i with
    | zero => simp at h; simp [h]
    | succ i => simp at h; simp [ih i h]

/-- The method `run(nodes)` of one node changes neither the length of the list
nor the fixed fields of any entry. -/
theorem Node3D.run_fixedFields (h : Host K) (nodes nodes1 : List (Node3D K)) (i draws draws1 : Nat)
    (hrun : Node3D.run h nodes i draws = Except.ok (nodes1, draws1)) :
    nodes1.map Node3D.fixedFields = nodes.map Node3D.fixedFields := by
  unfold Node3D.run nodeAt at hrun
  cases hi : nodes[i]? with
  | none => simp [hi, bind, Except.bind] at hrun
  | some self =>
    simp only [hi, bind, Except.bind, pure, Except.pure] at hrun
    by_cases hg : self.dontGrow = true
    · simp only [hg, if_true] at hrun
      unfold Node3D.differentiate at hrun
      cases hc : Node3D.edgeCohesion h self nodes i with
      | error e => simp [hc, bind, Except.bind] at hrun
      | ok cohesion =>
        simp only [hc, bind, Except.bind, pure, Except.pure, Except.ok.injEq,
          Prod.mk.injEq] at hrun
        rw [← hrun.1, List.map_set]
        apply set_of_getElem?
        simp [hi, Node3D.fixedFields, Node3D.update]
    · simp only [hg, Bool.false_eq_true, if_false, Except.ok.injEq, Prod.mk.injEq] at hrun
      rw [← hrun.1]

theorem foldlM_run_fixedFields (h : Host K) (l : List Nat) (st st1 : List (Node3D K) × Nat)
    (hrun : l.foldlM (fun st i => Node3D.run h st.1 i st.2) st = Except.ok st1) :
    st1.1.map Node3D.fixedFields = st.1.map Node3D.fixedFields := by
  induction l generalizing st with
  | nil =>
    simp only [List.foldlM, pure, Except.pure, Except.ok.injEq] at hrun
    rw [hrun]
  | cons i l ih =>
    simp only [List.foldlM, bind, Except.bind] at hrun
    cases hstep : Node3D.run h st.1 i st.2 with
    | error e => simp [hstep] at hrun
    | ok st2 =>
      simp only [hstep] at hrun
      rw [ih st2 hrun]
      exact Node3D.run_fixedFields h st.1 st2.1 i st.2 st2.2 hstep

omit [LinearOrderedField K] in
theorem sublist_addNodeAt (line : DifferentialLine3D K) (n : Node3D K) (i : Nat) :
    List.Sublist line.nodes (DifferentialLine3D.addNodeAt line n i).nodes := by
  have h1 : List.Sublist (line.nodes.take i ++ line.nodes.drop i)
      (line.nodes.take i ++ n :: line.nodes.drop i) :=
    List.Sublist.append (List.Sublist.refl _) (List.sublist_cons_self _ _)
  rw [List.take_append_drop] at h1
  exact h1

/-- The loop of `growth()` only inserts nodes. -/
theorem growthLoop_sublist (h : Host K) (growthIntensity : K) :
    ∀ (fuel i : Nat) (line : DifferentialLine3D K) (draws : Nat)
      (r : DifferentialLine3D K × Nat),
      DifferentialLine3D.growthLoop h growthIntensity fuel i line draws = Except.ok r →
      List.Sublist line.nodes r.1.nodes := by
  intro fuel
  induction fuel with
  | zero =>
    intro i line draws r hr
    unfold DifferentialLine3D.growthLoop at hr
    by_cases hi : i < line.nodes.length
    · simp [hi] at hr
    · simp only [hi, if_false, pure, Except.pure, Except.ok.injEq] at hr
      rw [← hr]
  | succ fuel ih =>
    intro i line draws r hr
    unfold DifferentialLine3D.growthLoop at hr
    by_cases hi : i < line.nodes.length
    · simp only [hi, if_true, bind, Except.bind] at hr
      cases h1 : nodeAt line.nodes i with
      | error e => simp [h1] at hr
      | ok n1 =>
        cases h2 : nodeAt line.nodes ((i + 1) % line.nodes.length) with
        | error e => simp [h1, h2] at hr
        | ok n2 =>
          simp only [h1, h2] at hr
          split at hr
          · exact (sublist_addNodeAt line _ _).trans (ih _ _ _ _ hr)
          · exact ih _ _ _ _ hr
    · simp only [hi, if_false, pure, Except.pure, Except.ok.injEq] at hr
      rw [← hr]

end RunLemmas

/-- C11: when `run()` returns, the node list consists of the nodes it had
before (each after its own `run(nodes)`, with its fixed fields untouched), in
the same order, with the inserted nodes in between; so it is at least as
long as before. -/
theorem run_keeps_every_node {K : Type} [LinearOrderedField K] (h : Host K)
    (growthIntensity : K) (fuel : Nat) (line line1 : DifferentialLine3D K) (draws draws1 : Nat)
    (hrun : line.run h growthIntensity fuel draws = Except.ok (line1, draws1)) :
    ∃ (moved : List (Node3D K)) (d : Nat),
      DifferentialLine3D.runNodes h line.nodes draws = Except.ok (moved, d) ∧
      moved.map Node3D.fixedFields = line.nodes.map Node3D.fixedFields ∧
      List.Sublist moved line1.nodes ∧
      line.nodes.length ≤ line1.nodes.length := by
  unfold DifferentialLine3D.run at hrun
  cases hm : DifferentialLine3D.runNodes h line.nodes draws with
  | error e => simp [hm, bind, Except.bind] at hrun
  | ok st =>
    simp only [hm, bind, Except.bind] at hrun
    have hfix := foldlM_run_fixedFields h _ (line.nodes, draws) st hm
    have hsub := growthLoop_sublist h growthIntensity fuel 0 _ st.2 (line1, draws1) hrun
    refine ⟨st.1, st.2, rfl, hfix, hsub, ?_⟩
    have h1 := congrArg List.length hfix
    simp only [List.length_map] at h1
    have h2 := hsub.length_le
    simp only at h2
    omega

/-- Witness of `run_keeps_every_node`: one `run()` of the line seeded from
`tubeFar`, during which `growth()` inserts nodes. -/
theorem run_keeps_every_node_witness :
    ∃ (line1 : DifferentialLine3D ℚ) (draws1 : Nat),
      (getOrCreateState midHost 1 (fun _ => none) 0 tubeFar 0).1.diffLine.run midHost 1 100 0
        = Except.ok (line1, draws1) ∧
      2 ≤ line1.nodes.length := by
  have hok : Except.toBool
      ((getOrCreateState midHost 1 (fun _ => none) 0 tubeFar 0).1.diffLine.run midHost 1 100 0)
      = true := by decide!
  have h2 : (getOrCreateState midHost 1 (fun _ => none) 0 tubeFar 0).1.diffLine.nodes.length
      = 2 := by decide!
  cases hr : (getOrCreateState midHost 1 (fun _ => none) 0 tubeFar 0).1.diffLine.run
      midHost 1 100 0 with
  | error e => rw [hr] at hok; simp [Except.toBool] at hok
  | ok r =>
    obtain ⟨_, _, _, _, _, hlen⟩ := run_keeps_every_node midHost 1 100
      (getOrCreateState midHost 1 (fun _ => none) 0 tubeFar 0).1.diffLine r.1 0 r.2 hr
    exact ⟨r.1, r.2, rfl, by omega⟩

/-! ### Finishing a stroke -/

/-- C14 (as stated, refuted): switching the drawing method to "arrow" while
drawing stores the stroke but leaves the arrow start position in
`currentTube`; and switching drawing off with the space key stores a copy that
carries no `tubeId`. -/
theorem finishing_counterexample :
    (drawingMethodChanged
        (⟨[], [⟨0, 0, 0⟩, ⟨1, 0, 0⟩], 0, true, "freehand"⟩ : Scene ℚ) "arrow" ⟨0, 0, 0⟩)
      = ⟨[⟨[⟨0, 0, 0⟩, ⟨1, 0, 0⟩], some 0⟩], [⟨0, 0, 0⟩], 1, true, "arrow"⟩ ∧
    (spacePressed (⟨[], [⟨0, 0, 0⟩, ⟨1, 0, 0⟩], 0, true, "arrow"⟩ : Scene ℚ) ⟨0, 0, 0⟩ [])
      = ⟨[⟨[⟨0, 0, 0⟩, ⟨1, 0, 0⟩], none⟩], [], 0, false, "arrow"⟩ := by
  constructor
  · decide!
  · decide!

/-- C14 (amended): a mouse release that finishes a freehand stroke and a switch
of the drawing method with a stroke in progress append a copy of `currentTube`
carrying `tubeId = tubeIdCounter`, which no tube already in `tubes` carries
(every `tubeId` in `tubes` being below the counter, which stays so); the mouse
release leaves `currentTube` empty, the switch leaves it empty or, when
switching to "arrow" while drawing, holding only the arrow start position.
Switching drawing off with the space key appends a copy of `currentTube` and
leaves `currentTube` empty. -/
theorem finishing_assigns_fresh_id {K : Type} (s : Scene K) (hinv : idsBelowCounter s)
    (hlen : s.currentTube.length > 1) :
    (s.isDrawing = true → s.drawingMethod = "freehand" →
      (mouseReleased s true).tubes = s.tubes ++ [⟨s.currentTube, some s.tubeIdCounter⟩] ∧
      (mouseReleased s true).currentTube = [] ∧
      idsBelowCounter (mouseReleased s true)) ∧
    (∀ (value : String) (arrowStart : Vec3 K),
      (drawingMethodChanged s value arrowStart).tubes
        = s.tubes ++ [⟨s.currentTube, some s.tubeIdCounter⟩] ∧
      (drawingMethodChanged s value arrowStart).currentTube
        = (if value = "arrow" ∧ s.isDrawing = true then [arrowStart] else []) ∧
      idsBelowCounter (drawingMethodChanged s value arrowStart)) ∧
    (∀ t ∈ s.tubes, t.tubeId ≠ some s.tubeIdCounter) ∧
    (s.isDrawing = true → ∀ (arrowStart : Vec3 K) (tendrils : List (List (Vec3 K))),
      (∃ t : Tube K, t.points = s.currentTube ∧
        (spacePressed s arrowStart tendrils).tubes
          = s.tubes ++ [t] ++ tendrils.map (fun t => ⟨t, none⟩)) ∧
      (spacePressed s arrowStart tendrils).currentTube = []) := by
  have hfresh : ∀ t ∈ s.tubes, t.tubeId ≠ some s.tubeIdCounter := by
    intro t ht hid
    exact Nat.lt_irrefl _ (hinv t ht _ hid)
  have hinv1 : ∀ t ∈ s.tubes ++ [(⟨s.currentTube, some s.tubeIdCounter⟩ : Tube K)],
      ∀ id, t.tubeId = some id → id < s.tubeIdCounter + 1 := by
    intro t ht id hid
    rcases List.mem_append.1 ht with h1 | h1
    · exact Nat.lt_succ_of_lt (hinv t h1 id hid)
    · simp only [List.mem_singleton] at h1
      subst h1
      simp only [Option.some.injEq] at hid
      omega
  refine ⟨?_, ?_, hfresh, ?_⟩
  · intro hd hm
    have hc : s.isDrawing = true ∧ s.drawingMethod = "freehand" ∧ s.currentTube.length > 1 ∧
        true = true := ⟨hd, hm, hlen, rfl⟩
    unfold mouseReleased
    rw [if_pos hc]
    exact ⟨rfl, rfl, hinv1⟩
  · intro value arrowStart
    have e : drawingMethodChanged s value arrowStart
        = if value = "arrow" ∧ s.isDrawing = true then
            ⟨s.tubes ++ [⟨s.currentTube, some s.tubeIdCounter⟩], [arrowStart],
              s.tubeIdCounter + 1, s.isDrawing, value⟩
          else
            ⟨s.tubes ++ [⟨s.currentTube, some s.tubeIdCounter⟩], [],
              s.tubeIdCounter + 1, s.isDrawing, value⟩ := by
      unfold drawingMethodChanged
      rw [if_pos hlen]
    rw [e]
    by_cases hc : value = "arrow" ∧ s.isDrawing = true
    · rw [if_pos hc, if_pos hc]
      exact ⟨rfl, rfl, hinv1⟩
    · rw [if_neg hc, if_neg hc]
      exact ⟨rfl, rfl, hinv1⟩
  · intro hd arrowStart tendrils
    have e : spacePressed s arrowStart tendrils
        = ⟨s.tubes ++ [⟨s.currentTube, none⟩] ++ tendrils.map (fun t => ⟨t, none⟩), [],
            s.tubeIdCounter, false, s.drawingMethod⟩ := by
      unfold spacePressed
      simp only [hd, Bool.not_true, Bool.false_eq_true, if_false]
      rw [if_pos hlen]
    rw [e]
    exact ⟨⟨⟨s.currentTube, none⟩, rfl, rfl⟩, rfl⟩

/-- Witness of `finishing_assigns_fresh_id`: a second freehand stroke gets the
identifier 1. -/
theorem finishing_assigns_fresh_id_witness :
    (mouseReleased (⟨[⟨[⟨5, 5, 0⟩, ⟨6, 5, 0⟩], some 0⟩], [⟨0, 0, 0⟩, ⟨1, 0, 0⟩], 1, true,
        "freehand"⟩ : Scene ℚ) true).tubes
      = [⟨[⟨5, 5, 0⟩, ⟨6, 5, 0⟩], some 0⟩] ++ [⟨[⟨0, 0, 0⟩, ⟨1, 0, 0⟩], some 1⟩] :=
  ((finishing_assigns_fresh_id
    (⟨[⟨[⟨5, 5, 0⟩, ⟨6, 5, 0⟩], some 0⟩], [⟨0, 0, 0⟩, ⟨1, 0, 0⟩], 1, true, "freehand"⟩ : Scene ℚ)
    (by
      intro t ht id hid
      simp only [List.mem_singleton] at ht
      subst ht
      simp only [Option.some.injEq] at hid
      show id < 1
      omega)
    (by decide)).1 rfl rfl).1

/-! ### Growth-state keys -/

/-- C15 (as stated, refuted): a first tube without `tubeId` and a second tube
with `tubeId = 0` (each tube carries a unique identifier or none) both get the
key 0. -/
theorem growthKeys_collide :
    growthKeys ([⟨[], none⟩, ⟨[], some 0⟩] : List (Tube ℚ)) = [0, 0] ∧
    ¬ (growthKeys ([⟨[], none⟩, ⟨[], some 0⟩] : List (Tube ℚ))).Nodup := by
  have h : growthKeys ([⟨[], none⟩, ⟨[], some 0⟩] : List (Tube ℚ)) = [0, 0] := by decide
  rw [h]
  exact ⟨rfl, by decide⟩

/-- C15 (amended): if no two tubes carry the same `tubeId` and no `tubeId`
equals the list index of a tube without `tubeId`, the growth-state keys of the
tubes are pairwise distinct. -/
theorem growthKeys_nodup {K : Type} (tubes : List (Tube K))
    (hunique : ∀ (i j : Nat) (ti tj : Tube K) (id : Nat), tubes[i]? = some ti →
      tubes[j]? = some tj → ti.tubeId = some id → tj.tubeId = some id → i = j)
    (hindex : ∀ (i j : Nat) (ti tj : Tube K) (id : Nat), tubes[i]? = some ti →
      tubes[j]? = some tj → ti.tubeId = some id → tj.tubeId = none → id ≠ j) :
    (growthKeys tubes).Nodup := by
  unfold growthKeys
  apply List.Nodup.map_on _ (List.nodup_range _)
  intro i hi j hj hij
  rw [List.mem_range] at hi hj
  obtain ⟨ti, hti⟩ : ∃ ti, tubes[i]? = some ti := ⟨tubes[i], List.getElem?_eq_getElem hi⟩
  obtain ⟨tj, htj⟩ : ∃ tj, tubes[j]? = some tj := ⟨tubes[j], List.getElem?_eq_getElem hj⟩
  simp only [hti, htj] at hij
  cases hidi : ti.tubeId with
  | none =>
    cases hidj : tj.tubeId with
    | none => simpa [hidi, hidj] using hij
    | some idj =>
      simp only [hidi, hidj] at hij
      exact absurd hij.symm (hindex j i tj ti idj htj hti hidj hidi)
  | some idi =>
    cases hidj : tj.tubeId with
    | none =>
      simp only [hidi, hidj] at hij
      exact absurd hij (hindex i j ti tj idi hti htj hidi hidj)
    | some idj =>
      simp only [hidi, hidj] at hij
      subst hij
      exact hunique i j ti tj idi hti htj hidi hidj

/-- Witness of `growthKeys_nodup`: a tube with `tubeId = 5` followed by a tube
without `tubeId` get the keys 5 and 1. -/
theorem growthKeys_nodup_witness :
    (growthKeys ([⟨[], some 5⟩, ⟨[], none⟩] : List (Tube ℚ))).Nodup :=
  growthKeys_nodup ([⟨[], some 5⟩, ⟨[], none⟩] : List (Tube ℚ))
    (by
      intro i j ti tj id hi hj h1 h2
      match i, j with
      | 0, 0 => rfl
      | 0, 1 => simp at hj; subst hj; simp at h2
      | 0, j + 2 => simp at hj
      | 1, _ => simp at hi; subst hi; simp at h1
      | i + 2, _ => simp at hi)
    (by
      intro i j ti tj id hi hj h1 h2
      match i, j with
      | 0, 0 => simp at hi hj; subst hi hj; simp at h2
      | 0, 1 => simp at hi; subst hi; simp at h1; omega
      | 0, j + 2 => simp at hj
      | 1, _ => simp at hi; subst hi; simp at h1
      | i + 2, _ => simp at hi)

/-! ### History -/

section HistoryLemmas
variable {K G : Type}

theorem copyTube_points (t : Tube K) : (copyTube t).points = t.points := by
  simp [copyTube]

theorem map_copyTube_points (tubes : List (Tube K)) :
    (tubes.map copyTube).map (fun t => t.points) = tubes.map (fun t => t.points) := by
  simp [List.map_map, Function.comp_def, copyTube_points]

theorem restore_tubes (a a1 : History K G) (h : restore a = Except.ok a1) :
    ∃ entry, a.tubesHistory[a.historyIndex.toNat]? = some entry ∧
      a1.tubes = entry.tubes.map copyTube ∧ a1.historyIndex = a.historyIndex ∧
      a1.tubesHistory = a.tubesHistory := by
  unfold restore at h
  cases he : a.tubesHistory[a.historyIndex.toNat]? with
  | none => simp [he] at h
  | some entry =>
    simp only [he, pure, Except.pure, Except.ok.injEq] at h
    subst h
    exact ⟨entry, rfl, rfl, rfl, rfl⟩

end HistoryLemmas

/-- C16 (as stated, refuted): a tube with `tubeId = 7` is saved, undone and
redone; the tube restored into `tubes` has the same points but no `tubeId`. -/
theorem history_drops_tubeId :
    (do
      let a1 ← pure (saveToHistory historyWithTube)
      let a2 ← undo a1
      let a3 ← redo a2
      pure a3.tubes : Except String (List (Tube ℚ)))
      = Except.ok [⟨[⟨0, 0, 0⟩, ⟨1, 2, 3⟩], none⟩] := by
  decide!

/-- C16 (amended): the snapshot that `saveToHistory` appends holds, for each
tube, a copy of its points in order and no `tubeId`; and every tube that `undo`
or `redo` restores into `tubes` has the points, in the same order, of the tube
in the restored snapshot, and carries no `tubeId`. -/
theorem history_restores_points_only {K G : Type} (a : History K G)
    (hmax : 1 ≤ a.maxHistorySize) :
    (∃ kept, (saveToHistory a).tubesHistory = kept ++ [⟨a.tubes.map copyTube, a.filledCells⟩]) ∧
    (a.tubes.map copyTube).map (fun t => t.points) = a.tubes.map (fun t => t.points) ∧
    (∀ t ∈ a.tubes.map copyTube, t.tubeId = none) ∧
    (∀ a1, (undo a = Except.ok a1 ∧ 0 < a.historyIndex) ∨
        (redo a = Except.ok a1 ∧ a.historyIndex < (a.tubesHistory.length : Int) - 1) →
      ∃ entry, a.tubesHistory[a1.historyIndex.toNat]? = some entry ∧
        a1.tubes.map (fun t => t.points) = entry.tubes.map (fun t => t.points) ∧
        ∀ t ∈ a1.tubes, t.tubeId = none) := by
  refine ⟨?_, map_copyTube_points a.tubes, ?_, ?_⟩
  · unfold saveToHistory
    simp only []
    split_ifs with hlen
    · cases hk : a.tubesHistory.take (a.historyIndex + 1).toNat with
      | nil =>
        rw [hk] at hlen
        simp only [List.nil_append, List.length_singleton] at hlen
        omega
      | cons x rest => exact ⟨rest, by simp⟩
    · exact ⟨_, rfl⟩
  · intro t ht
    obtain ⟨u, _, rfl⟩ := List.mem_map.1 ht
    rfl
  · intro a1 hcase
    have key : ∀ b : History K G, b.tubesHistory = a.tubesHistory → restore b = Except.ok a1 →
        ∃ entry, a.tubesHistory[a1.historyIndex.toNat]? = some entry ∧
          a1.tubes.map (fun t => t.points) = entry.tubes.map (fun t => t.points) ∧
          ∀ t ∈ a1.tubes, t.tubeId = none := by
      intro b hb hr
      obtain ⟨entry, h1, h2, h3, _⟩ := restore_tubes b a1 hr
      refine ⟨entry, by rw [h3, ← hb]; exact h1, by rw [h2]; exact map_copyTube_points _, ?_⟩
      intro t ht
      rw [h2] at ht
      obtain ⟨u, _, rfl⟩ := List.mem_map.1 ht
      rfl
    rcases hcase with ⟨hu, hpos⟩ | ⟨hr, hlt⟩
    · unfold undo at hu
      rw [if_pos hpos] at hu
      exact key { a with historyIndex := a.historyIndex - 1 } rfl hu
    · unfold redo at hr
      rw [if_pos hlt] at hr
      exact key { a with historyIndex := a.historyIndex + 1 } rfl hr

/-- Witness of `history_restores_points_only`: after a save and an undo, `redo`
restores the saved tube with its two points and without `tubeId`. -/
theorem history_restores_points_only_witness :
    ∃ entry, (saveToHistory historyWithTube).tubesHistory[(1 : Int).toNat]? = some entry ∧
      ([⟨[⟨0, 0, 0⟩, ⟨1, 2, 3⟩], none⟩] : List (Tube ℚ)).map (fun t => t.points)
        = entry.tubes.map (fun t => t.points) ∧
      ∀ t ∈ ([⟨[⟨0, 0, 0⟩, ⟨1, 2, 3⟩], none⟩] : List (Tube ℚ)), t.tubeId = none :=
  (history_restores_points_only
      { saveToHistory historyWithTube with tubes := [], historyIndex := 0 }
      (by decide!)).2.2.2
    { saveToHistory historyWithTube with
        tubes := [⟨[⟨0, 0, 0⟩, ⟨1, 2, 3⟩], none⟩], historyIndex := 1 }
    (Or.inr ⟨by decide!, by decide!⟩)

/-! ### The pixel brush -/

section BrushLemmas
variable {K : Type} [LinearOrderedField K] [FloorRing K]

omit [LinearOrderedField K] [FloorRing K] in
theorem boxesOf_append (a b : List (Prim K)) : boxesOf (a ++ b) = boxesOf a ++ boxesOf b := by
  simp [boxesOf, List.filterMap_append]

omit [FloorRing K] in
theorem boxesOf_outlineShapes (env : RenderParams K)
    (l : List (List (Vec3 K) × List (Vec3 K))) :
    boxesOf ((l.map (outlineShapes env)).flatten) = [] := by
  induction l with
  | nil => simp [boxesOf]
  | cons o l ih =>
    rw [List.map_cons, List.flatten_cons, boxesOf_append, ih]
    unfold outlineShapes outlineCurve
    split_ifs <;> simp [boxesOf]

/-- The output of the pixel brush for a non-empty tube. -/
theorem drawSimpleTube_pixel (sin sqrt : K → K) (env : RenderParams K) (bodies : BrushBodies K)
    (tube : List (Vec3 K)) (hne : tube.length ≠ 0) :
    drawSimpleTube sin sqrt env bodies tube "pixel"
      = pixelBoxes sin env tube
        ++ ((pixelOutlines sin sqrt env tube).map (outlineShapes env)).flatten := by
  unfold drawSimpleTube
  simp [hne]

/-- The boxes of the pixel brush without Weingart effect: one per visited
index, at the tube point, of the size given by `pixelWave`. -/
theorem boxesOf_pixel (sin sqrt : K → K) (env : RenderParams K) (bodies : BrushBodies K)
    (tube : List (Vec3 K)) (hw : env.weingartActive = false) :
    boxesOf (drawSimpleTube sin sqrt env bodies tube "pixel")
      = (strideIndices tube.length (max 1 (tube.length / 500))).map
          (fun i => (tube.getD i default, pixelWave sin env i)) := by
  by_cases hne : tube.length = 0
  · have : tube = [] := List.length_eq_zero.1 hne
    subst this
    simp [drawSimpleTube, boxesOf, strideIndices]
  · rw [drawSimpleTube_pixel sin sqrt env bodies tube hne, boxesOf_append,
      boxesOf_outlineShapes, List.append_nil]
    unfold pixelBoxes boxesOf
    simp only [hw, Bool.false_eq_true, if_false, List.filterMap_map]
    rw [← List.filterMap_eq_map]
    rfl

/-- The number of indices visited with `step = max(1, floor(len / 500))` is
`⌈len / step⌉`, which is below 1000. -/
theorem strideIndices_pixel_count (len : Nat) :
    (strideIndices len (max 1 (len / 500))).length
        = (len + max 1 (len / 500) - 1) / max 1 (len / 500) ∧
    (strideIndices len (max 1 (len / 500))).length ≤ 999 := by
  have hpos : 0 < max 1 (len / 500) := by omega
  have hcount : (strideIndices len (max 1 (len / 500))).length
      = (len + max 1 (len / 500) - 1) / max 1 (len / 500) := by
    unfold strideIndices
    rw [filter_multiples _ hpos]
    simp
  refine ⟨hcount, ?_⟩
  rw [hcount]
  apply Nat.le_of_lt_succ
  rw [Nat.div_lt_iff_lt_mul hpos]
  by_cases h500 : len < 500
  · have : max 1 (len / 500) = 1 := by omega
    rw [this]
    omega
  · have : max 1 (len / 500) = len / 500 := by omega
    rw [this]
    omega

end BrushLemmas

/-- C17 (as stated, refuted): with the sketch's initial settings
(`basePixelSize = 8`, `waveAmpAndBlurRadius = 15`), wave animation off, the
pixel brush draws the tube `[(0,0,0), (10,0,0)]` as two boxes of size 15.5,
not 8. -/
theorem pixel_box_size_counterexample :
    drawSimpleTube (fun _ => 0) ratSqrt defaultParams markerBodies straightTube "pixel"
      = [Prim.box ⟨0, 0, 0⟩ (31 / 2), Prim.box ⟨10, 0, 0⟩ (31 / 2)] := by
  decide!

/-- C17 (amended): with wave animation disabled and Weingart mode off, the pixel
brush draws exactly one box per sampled point, at that point, with edge length
`basePixelSize + waveAmpAndBlurRadius / 2`; for the tube `[(0,0,0), (10,0,0)]`
and `basePixelSize = 8` these are exactly 2 boxes, at `(0,0,0)` and `(10,0,0)`,
each of size `8 + waveAmpAndBlurRadius / 2`. -/
theorem pixel_boxes_without_wave {K : Type} [LinearOrderedField K] [FloorRing K]
    (sin sqrt : K → K) (env : RenderParams K) (bodies : BrushBodies K) (tube : List (Vec3 K))
    (hwave : env.waveAnimationEnabled = false) (hw : env.weingartActive = false) :
    boxesOf (drawSimpleTube sin sqrt env bodies tube "pixel")
      = (strideIndices tube.length (max 1 (tube.length / 500))).map
          (fun i => (tube.getD i default,
            env.basePixelSize + env.waveAmpAndBlurRadius * (1 / 2))) ∧
    (env.basePixelSize = 8 →
      boxesOf (drawSimpleTube sin sqrt env bodies [⟨0, 0, 0⟩, ⟨10, 0, 0⟩] "pixel")
        = [(⟨0, 0, 0⟩, 8 + env.waveAmpAndBlurRadius * (1 / 2)),
           (⟨10, 0, 0⟩, 8 + env.waveAmpAndBlurRadius * (1 / 2))]) := by
  constructor
  · rw [boxesOf_pixel sin sqrt env bodies tube hw]
    simp [pixelWave, hwave]
  · intro hbase
    rw [boxesOf_pixel sin sqrt env bodies _ hw]
    simp [pixelWave, hwave, hbase, strideIndices, List.range_succ]

/-- Witness of `pixel_boxes_without_wave`: the initial settings. -/
theorem pixel_boxes_without_wave_witness :
    boxesOf (drawSimpleTube (fun _ => 0) ratSqrt defaultParams markerBodies
        [⟨0, 0, 0⟩, ⟨10, 0, 0⟩] "pixel")
      = [(⟨0, 0, 0⟩, 8 + defaultParams.waveAmpAndBlurRadius * (1 / 2)),
         (⟨10, 0, 0⟩, 8 + defaultParams.waveAmpAndBlurRadius * (1 / 2))] :=
  (pixel_boxes_without_wave (fun _ => 0) ratSqrt defaultParams markerBodies [] rfl rfl).2 rfl

/-- C18 (as stated, refuted): a tube of 999 points is sampled with step 1 and
drawn as 999 boxes. -/
theorem pixel_box_count_counterexample :
    (boxesOf (drawSimpleTube (fun _ => 0) ratSqrt defaultParams markerBodies
        (List.replicate 999 ⟨0, 0, 0⟩) "pixel")).length = 999 := by
  rw [boxesOf_pixel _ _ _ _ _ rfl, List.length_map, List.length_replicate]
  exact (strideIndices_pixel_count 999).1

/-- C18 (amended): for every tube length `len ≥ 1` the pixel brush, sampling
the indices `0, step, 2 step, ...` with `step = max(1, floor(len / 500))`,
draws `⌈len / step⌉` boxes, which is at most 999. -/
theorem pixel_box_count_bound {K : Type} [LinearOrderedField K] [FloorRing K]
    (sin sqrt : K → K) (env : RenderParams K) (bodies : BrushBodies K) (tube : List (Vec3 K))
    (hlen : 1 ≤ tube.length) (hw : env.weingartActive = false) :
    (boxesOf (drawSimpleTube sin sqrt env bodies tube "pixel")).length
      = (tube.length + max 1 (tube.length / 500) - 1) / max 1 (tube.length / 500) ∧
    (boxesOf (drawSimpleTube sin sqrt env bodies tube "pixel")).length ≤ 999 := by
  have _h := hlen
  rw [boxesOf_pixel sin sqrt env bodies tube hw, List.length_map]
  exact strideIndices_pixel_count tube.length

/-- Witness of `pixel_box_count_bound`: the two-point tube gives 2 boxes. -/
theorem pixel_box_count_bound_witness :
    (boxesOf (drawSimpleTube (fun _ => 0) ratSqrt defaultParams markerBodies straightTube
        "pixel")).length ≤ 999 :=
  (pixel_box_count_bound (fun _ => 0) ratSqrt defaultParams markerBodies straightTube
    (by decide) rfl).2

/-! ### Outline levels of the pixel brush -/

section OutlineLemmas
variable {K : Type} [LinearOrderedField K] [FloorRing K]

omit [FloorRing K] in
theorem smoothPasses_short (k : Nat) (l : List (Vec3 K)) (h : l.length < 3) :
    smoothPasses k l = l := by
  induction k with
  | zero => rfl
  | succ k ih =>
    show smoothPasses k (smoothOutlinePoints l) = l
    have : smoothOutlinePoints l = l := by simp [smoothOutlinePoints, h]
    rw [this, ih]

/-- One outline level of the straight tube `[(0,0,0), (10,0,0)]` without wave
animation: the left points lie at `y = -offset`, the right points at
`y = offset`, with `offset = basePixelSize * 1.5 + level * outlineSpacing`. -/
theorem pixelOutline_straight (sin sqrt : K → K) (hs : ExactSqrt sqrt) (env : RenderParams K)
    (hwave : env.waveAnimationEnabled = false) (level : Nat) :
    pixelOutline sin sqrt env [⟨0, 0, 0⟩, ⟨10, 0, 0⟩] level
      = ([⟨0, -(env.basePixelSize * (3 / 2) + (level : K) * env.outlineSpacing), 0⟩,
          ⟨10, -(env.basePixelSize * (3 / 2) + (level : K) * env.outlineSpacing), 0⟩],
         [⟨0, env.basePixelSize * (3 / 2) + (level : K) * env.outlineSpacing, 0⟩,
          ⟨10, env.basePixelSize * (3 / 2) + (level : K) * env.outlineSpacing, 0⟩]) := by
  have h10 : sqrt (10 * 10) = 10 := hs.sqrt_mul_self (by norm_num)
  have hlen : (100 : K)⁻¹ < 10 := by norm_num
  have hpts : (List.range 2).map (outlinePointsAt sin sqrt env [⟨0, 0, 0⟩, ⟨10, 0, 0⟩]
        (env.basePixelSize * (3 / 2) + (level : K) * env.outlineSpacing))
      = [(⟨0, -(env.basePixelSize * (3 / 2) + (level : K) * env.outlineSpacing), 0⟩,
          ⟨0, env.basePixelSize * (3 / 2) + (level : K) * env.outlineSpacing, 0⟩),
         (⟨10, -(env.basePixelSize * (3 / 2) + (level : K) * env.outlineSpacing), 0⟩,
          ⟨10, env.basePixelSize * (3 / 2) + (level : K) * env.outlineSpacing, 0⟩)] := by
    simp [List.range_succ, outlinePointsAt, tangentSum3, hwave, h10, hlen]
  unfold pixelOutline
  simp only [List.length_cons, List.length_nil, hpts, List.map_cons, List.map_nil]
  split_ifs
  · rw [smoothPasses_short _ _ (by simp), smoothPasses_short _ _ (by simp)]
  · rfl

end OutlineLemmas

/-- C19 (as stated, refuted): with `outlineLevels = 3`, `outlineSpacing = 8`,
`basePixelSize = 8` and wave animation off, the three outline levels of the
pixel brush for the tube `[(0,0,0), (10,0,0)]` lie at the distances 20, 28 and
36 from the centreline; none lies at distance 12. -/
theorem outline_levels_counterexample :
    pixelOutlines (fun _ => 0) ratSqrt outlineParams straightTube
      = [([⟨0, -20, 0⟩, ⟨10, -20, 0⟩], [⟨0, 20, 0⟩, ⟨10, 20, 0⟩]),
         ([⟨0, -28, 0⟩, ⟨10, -28, 0⟩], [⟨0, 28, 0⟩, ⟨10, 28, 0⟩]),
         ([⟨0, -36, 0⟩, ⟨10, -36, 0⟩], [⟨0, 36, 0⟩, ⟨10, 36, 0⟩])] := by
  decide!

/-- C19 (amended): with `outlineLevels = 3`, `outlineSpacing = 8`,
`basePixelSize = 8` and wave animation off, the outline ribbons that the pixel
brush of `drawSimpleTube` draws for the straight tube `[(0,0,0), (10,0,0)]` are
exactly 3 left/right pairs, whose points lie at the perpendicular distances
20, 28 and 36 from the centreline (`basePixelSize * 1.5 + level * outlineSpacing`
for level 1, 2, 3). -/
theorem outline_levels_of_pixel_brush {K : Type} [LinearOrderedField K] [FloorRing K]
    (sin sqrt : K → K) (hs : ExactSqrt sqrt) (env : RenderParams K)
    (hwave : env.waveAnimationEnabled = false) (hbase : env.basePixelSize = 8)
    (hlevels : env.outlineLevels = 3) (hspacing : env.outlineSpacing = 8) :
    pixelOutlines sin sqrt env [⟨0, 0, 0⟩, ⟨10, 0, 0⟩]
      = [([⟨0, -20, 0⟩, ⟨10, -20, 0⟩], [⟨0, 20, 0⟩, ⟨10, 20, 0⟩]),
         ([⟨0, -28, 0⟩, ⟨10, -28, 0⟩], [⟨0, 28, 0⟩, ⟨10, 28, 0⟩]),
         ([⟨0, -36, 0⟩, ⟨10, -36, 0⟩], [⟨0, 36, 0⟩, ⟨10, 36, 0⟩])] := by
  unfold pixelOutlines
  rw [if_pos (by rw [hlevels]; simp)]
  rw [hlevels]
  simp only [List.range_succ, List.range_zero, List.nil_append, List.cons_append, List.map_cons,
    List.map_nil, pixelOutline_straight sin sqrt hs env hwave, hbase, hspacing]
  norm_num

/-- Witness of `outline_levels_of_pixel_brush`: over the real numbers, with the
real square root. -/
theorem outline_levels_of_pixel_brush_witness :
    pixelOutlines Real.sin Real.sqrt
        (⟨8, 15, false, 0, 3, 8, 0, false⟩ : RenderParams ℝ) [⟨0, 0, 0⟩, ⟨10, 0, 0⟩]
      = [([⟨0, -20, 0⟩, ⟨10, -20, 0⟩], [⟨0, 20, 0⟩, ⟨10, 20, 0⟩]),
         ([⟨0, -28, 0⟩, ⟨10, -28, 0⟩], [⟨0, 28, 0⟩, ⟨10, 28, 0⟩]),
         ([⟨0, -36, 0⟩, ⟨10, -36, 0⟩], [⟨0, 36, 0⟩, ⟨10, 36, 0⟩])] :=
  outline_levels_of_pixel_brush Real.sin Real.sqrt
    (fun v hv => ⟨Real.sqrt_nonneg v, Real.mul_self_sqrt hv⟩)
    ⟨8, 15, false, 0, 3, 8, 0, false⟩ rfl rfl rfl rfl

/-! ### Tubes below the geometric minimum -/

/-- C20: `drawSimpleTube` draws nothing for an empty tube (any brush), for a
tube of fewer than 3 points with the surface brush, and for a tube of fewer
than 2 points with the smooth, outline or smooth-outline brush;
`drawGrowthBranches` for a tube of fewer than 3 points draws nothing, returns
normally and leaves `growthProgress` as it is. -/
theorem short_tubes_draw_nothing {K : Type} [LinearOrderedField K] [FloorRing K]
    (sin sqrt : K → K) (env : RenderParams K) (bodies : BrushBodies K) (tube : List (Vec3 K)) :
    (∀ type : String, drawSimpleTube sin sqrt env bodies [] type = []) ∧
    (tube.length < 3 → drawSimpleTube sin sqrt env bodies tube "surface" = []) ∧
    (tube.length < 2 →
      drawSimpleTube sin sqrt env bodies tube "smooth" = [] ∧
      drawSimpleTube sin sqrt env bodies tube "outline" = [] ∧
      drawSimpleTube sin sqrt env bodies tube "smooth-outline" = []) ∧
    (tube.length < 3 → ∀ (h : Host K) (growthIntensity : K) (fuel : Nat)
      (growthProgress : Nat → Option (GrowthState K)) (draws tubeId : Nat),
      drawGrowthBranches h growthIntensity fuel growthProgress draws tube tubeId
        = Except.ok ⟨growthProgress, draws, none⟩) := by
  refine ⟨?_, ?_, ?_, ?_⟩
  · intro type
    simp [drawSimpleTube]
  · intro h3
    unfold drawSimpleTube
    simp [h3]
  · intro h2
    refine ⟨?_, ?_, ?_⟩
    · unfold drawSimpleTube
      simp [h2]
    · unfold drawSimpleTube
      simp [h2]
    · unfold drawSimpleTube
      simp [h2]
  · intro h3 h growthIntensity fuel growthProgress draws tubeId
    unfold drawGrowthBranches
    rw [if_pos h3]
    rfl

/-- Witness of `short_tubes_draw_nothing`: a one-point tube with the smooth
brush and a two-point tube with the surface brush draw nothing, although the
bodies of these brushes draw a shape for longer tubes. -/
theorem short_tubes_draw_nothing_witness :
    drawSimpleTube (fun _ => 0) ratSqrt defaultParams markerBodies straightTube "surface" = [] ∧
    drawSimpleTube (fun _ => 0) ratSqrt defaultParams markerBodies [⟨0, 0, 0⟩] "smooth" = [] ∧
    drawGrowthBranches midHost 1 10 (fun _ => none) 0 straightTube 0
      = Except.ok ⟨fun _ => none, 0, none⟩ :=
  ⟨(short_tubes_draw_nothing (fun _ => 0) ratSqrt defaultParams markerBodies straightTube).2.1
      (by decide),
   ((short_tubes_draw_nothing (fun _ => 0) ratSqrt defaultParams markerBodies
      [⟨0, 0, 0⟩]).2.2.1 (by decide)).1,
   (short_tubes_draw_nothing (fun _ => 0) ratSqrt defaultParams markerBodies straightTube).2.2.2
      (by decide) midHost 1 10 (fun _ => none) 0 0⟩

/-! ### Growth: the node cap -/

section OvershootLemmas
variable {K : Type} [LinearOrderedField K]

theorem dist_axis (h : Host K) (hm : MidpointHost h) (x1 x2 : K) :
    Vec3.dist h.sqrt ⟨x1, 0, 0⟩ ⟨x2, 0, 0⟩ = |x2 - x1| := by
  simp only [Vec3.dist, Vec3.mag, Vec3.magSq, Vec3.sub, sub_self, mul_zero, add_zero]
  exact hm.1 _

theorem p5map_noise : p5map (2 / 7 : K) 0 1 (-2) 5 = 0 := by
  norm_num [p5map]

omit [LinearOrderedField K] in
theorem HalvedTimes.pos_of_succ [LinearOrderedField K] {k : Nat} {δ : K}
    (hk : HalvedTimes (k + 1) δ) : 8 < δ := by
  have := hk.2.2 0 (Nat.succ_pos k)
  simpa using this

omit [LinearOrderedField K] in
theorem HalvedTimes.half [LinearOrderedField K] {k : Nat} {δ : K}
    (hk : HalvedTimes (k + 1) δ) : HalvedTimes k (δ / 2) := by
  refine ⟨by have := hk.1; positivity, ?_, ?_⟩
  · have := hk.2.1
    rw [pow_succ] at this
    linarith
  · intro j hj
    have := hk.2.2 (j + 1) (by omega)
    rw [pow_succ] at this
    linarith

/-- One iteration of the loop of `growth()` on an edge between two nodes on
the x axis that is longer than 8: a node on the x axis is inserted at the
midpoint. -/
theorem growthLoop_insert (h : Host K) (hm : MidpointHost h) (growthIntensity : K)
    (fuel i : Nat) (line : DifferentialLine3D K) (draws : Nat) (n1 n2 : Node3D K) (x1 x2 : K)
    (hi : i < line.nodes.length) (h1 : line.nodes[i]? = some n1)
    (h2 : line.nodes[(i + 1) % line.nodes.length]? = some n2)
    (hp1 : n1.position = ⟨x1, 0, 0⟩) (hp2 : n2.position = ⟨x2, 0, 0⟩)
    (hedge : line.maxEdgeLen = 8) (hd : 8 < |x2 - x1|) :
    ∃ m : Node3D K, m.position = ⟨(x1 + x2) / 2, 0, 0⟩ ∧
      DifferentialLine3D.growthLoop h growthIntensity (fuel + 1) i line draws
        = DifferentialLine3D.growthLoop h growthIntensity fuel (i + 1)
            (DifferentialLine3D.addNodeAt line m ((i + 1) % line.nodes.length)) (draws + 7) := by
  have hcond : Vec3.dist h.sqrt n1.position n2.position
      > line.maxEdgeLen + p5map (h.noise draws) 0 1 (-2) 5 := by
    rw [hp1, hp2, dist_axis h hm, hedge, hm.2.2, p5map_noise, add_zero]
    exact hd
  refine ⟨Node3D.new
      ((Vec3.div (Vec3.add n1.position n2.position) 2).x
        + h.random (draws + 2) (-2) 2 * (growthIntensity / 30))
      ((Vec3.div (Vec3.add n1.position n2.position) 2).y
        + h.random (draws + 3) (-2) 2 * (growthIntensity / 30))
      ((Vec3.div (Vec3.add n1.position n2.position) 2).z
        + h.random (draws + 1) (-5) 5 * (growthIntensity / 20))
      (line.maxForce + h.random (draws + 4) (-1 / 10) (1 / 10))
      (line.maxSpeed + h.random (draws + 5) (-1 / 10) (1 / 10))
      (line.desiredSeparation + h.noise (draws + 6) * 5)
      line.separationCohesionRation true, ?_, ?_⟩
  · simp [Node3D.new, hp1, hp2, Vec3.add, Vec3.div, hm.2.1]
  · rw [DifferentialLine3D.growthLoop]
    simp only [hi, if_true, nodeAt, h1, h2, bind, Except.bind, pure, Except.pure]
    rw [if_pos hcond]

/-- One iteration of the loop of `growth()` on an edge between two nodes on
the x axis that is not longer than 8: nothing is inserted. -/
theorem growthLoop_skip (h : Host K) (hm : MidpointHost h) (growthIntensity : K)
    (fuel i : Nat) (line : DifferentialLine3D K) (draws : Nat) (n1 n2 : Node3D K) (x1 x2 : K)
    (hi : i < line.nodes.length) (h1 : line.nodes[i]? = some n1)
    (h2 : line.nodes[(i + 1) % line.nodes.length]? = some n2)
    (hp1 : n1.position = ⟨x1, 0, 0⟩) (hp2 : n2.position = ⟨x2, 0, 0⟩)
    (hedge : line.maxEdgeLen = 8) (hd : |x2 - x1| ≤ 8) :
    DifferentialLine3D.growthLoop h growthIntensity (fuel + 1) i line draws
      = DifferentialLine3D.growthLoop h growthIntensity fuel (i + 1) line (draws + 1) := by
  have hcond : ¬ (Vec3.dist h.sqrt n1.position n2.position
      > line.maxEdgeLen + p5map (h.noise draws) 0 1 (-2) 5) := by
    rw [hp1, hp2, dist_axis h hm, hedge, hm.2.2, p5map_noise, add_zero]
    exact not_lt.2 hd
  rw [DifferentialLine3D.growthLoop]
  simp only [hi, if_true, nodeAt, h1, h2, bind, Except.bind, pure, Except.pure]
  rw [if_neg hcond]

theorem growthLoop_done (h : Host K) (growthIntensity : K) (fuel i : Nat)
    (line : DifferentialLine3D K) (draws : Nat) (hi : ¬ i < line.nodes.length) :
    DifferentialLine3D.growthLoop h growthIntensity fuel i line draws
      = Except.ok (line, draws) := by
  cases fuel with
  | zero => rw [DifferentialLine3D.growthLoop]; simp [hi, pure, Except.pure]
  | succ fuel => rw [DifferentialLine3D.growthLoop]; simp [hi, pure, Except.pure]

/-- The loop of `growth()` on an edge `(a, b)` of nodes on the x axis, `b` to the
right of `a` and not the wrap-around edge: it inserts `k` nodes between `a` and
`b`, each at the midpoint of the previous one and `b`, and goes on at `b`. -/
theorem growthLoop_halve_forward (h : Host K) (hm : MidpointHost h) (growthIntensity : K) :
    ∀ (k fuel : Nat) (line : DifferentialLine3D K) (pre : List (Node3D K)) (a b : Node3D K)
      (post : List (Node3D K)) (xa xb : K) (draws : Nat),
      line.maxEdgeLen = 8 → line.nodes = pre ++ (a :: b :: post) →
      a.position = ⟨xa, 0, 0⟩ → b.position = ⟨xb, 0, 0⟩ → HalvedTimes k (xb - xa) →
      ∃ (ms : List (Node3D K)) (draws1 : Nat), ms.length = k ∧
        DifferentialLine3D.growthLoop h growthIntensity (fuel + k + 1) pre.length line draws
          = DifferentialLine3D.growthLoop h growthIntensity fuel (pre.length + k + 1)
              { line with nodes := pre ++ (a :: ms) ++ (b :: post) } draws1 := by
  intro k
  induction k with
  | zero =>
    intro fuel line pre a b post xa xb draws hedge hn ha hb hk
    have hlen : line.nodes.length = pre.length + (post.length + 2) := by
      rw [hn]; simp
    have hi : pre.length < line.nodes.length := by omega
    have h1 : line.nodes[pre.length]? = some a := by
      rw [hn, List.getElem?_append_right (le_refl _)]
      simp
    have hmod : (pre.length + 1) % line.nodes.length = pre.length + 1 :=
      Nat.mod_eq_of_lt (by omega)
    have h2 : line.nodes[(pre.length + 1) % line.nodes.length]? = some b := by
      rw [hmod, hn, List.getElem?_append_right (by omega)]
      simp
    have hd : |xb - xa| ≤ 8 := by
      rw [abs_of_nonneg hk.1]
      simpa using hk.2.1
    refine ⟨[], draws + 1, rfl, ?_⟩
    rw [growthLoop_skip h hm growthIntensity fuel pre.length line draws a b xa xb hi h1 h2 ha hb
      hedge hd]
    have e : ({ line with nodes := pre ++ [a] ++ (b :: post) } : DifferentialLine3D K) = line := by
      cases line
      simp only [DifferentialLine3D.mk.injEq, and_true] at hn ⊢
      rw [hn]; simp
    rw [e]
  | succ k ih =>
    intro fuel line pre a b post xa xb draws hedge hn ha hb hk
    have hlen : line.nodes.length = pre.length + (post.length + 2) := by
      rw [hn]; simp
    have hi : pre.length < line.nodes.length := by omega
    have h1 : line.nodes[pre.length]? = some a := by
      rw [hn, List.getElem?_append_right (le_refl _)]
      simp
    have hmod : (pre.length + 1) % line.nodes.length = pre.length + 1 :=
      Nat.mod_eq_of_lt (by omega)
    have h2 : line.nodes[(pre.length + 1) % line.nodes.length]? = some b := by
      rw [hmod, hn, List.getElem?_append_right (by omega)]
      simp
    have hd : 8 < |xb - xa| := by
      rw [abs_of_nonneg hk.1]
      exact hk.pos_of_succ
    obtain ⟨m, hmp, hstep⟩ := growthLoop_insert h hm growthIntensity (fuel + k + 1) pre.length
      line draws a b xa xb hi h1 h2 ha hb hedge hd
    have hnodes : (DifferentialLine3D.addNodeAt line m
        ((pre.length + 1) % line.nodes.length)).nodes = (pre ++ [a]) ++ (m :: b :: post) := by
      rw [hmod]
      simp only [DifferentialLine3D.addNodeAt, hn]
      rw [List.take_append_eq_append_take, List.drop_append_eq_append_drop]
      simp [List.take_of_length_le, List.drop_of_length_le]
    have hk2 : HalvedTimes k (xb - (xa + xb) / 2) := by
      have := hk.half
      have e : xb - (xa + xb) / 2 = (xb - xa) / 2 := by ring
      rw [e]
      exact this
    obtain ⟨ms, draws1, hms, hrest⟩ := ih fuel
      (DifferentialLine3D.addNodeAt line m ((pre.length + 1) % line.nodes.length))
      (pre ++ [a]) m b post ((xa + xb) / 2) xb (draws + 7) hedge hnodes hmp hb hk2
    refine ⟨m :: ms, draws1, by simp [hms], ?_⟩
    have e1 : fuel + (k + 1) + 1 = fuel + k + 1 + 1 := rfl
    rw [e1, hstep]
    have e2 : (pre ++ [a]).length = pre.length + 1 := by simp
    rw [e2] at hrest
    rw [hrest]
    have e3 : pre.length + 1 + k + 1 = pre.length + (k + 1) + 1 := by omega
    rw [e3]
    congr 1
    simp [DifferentialLine3D.addNodeAt]

/-- The loop of `growth()` on the wrap-around edge `(b, f)` from the last node
`b` to the first node `f`, both on the x axis: it inserts `k` nodes at index 0,
each at the midpoint of `b` and the previous first node, and then ends. -/
theorem growthLoop_halve_wrap (h : Host K) (hm : MidpointHost h) (growthIntensity : K) :
    ∀ (k fuel : Nat) (line : DifferentialLine3D K) (f : Node3D K) (rest : List (Node3D K))
      (b : Node3D K) (xf xb : K) (draws : Nat),
      line.maxEdgeLen = 8 → line.nodes = (f :: rest) ++ [b] →
      f.position = ⟨xf, 0, 0⟩ → b.position = ⟨xb, 0, 0⟩ → HalvedTimes k (xb - xf) →
      ∃ (fs : List (Node3D K)) (draws1 : Nat), fs.length = k ∧
        DifferentialLine3D.growthLoop h growthIntensity (fuel + k + 1) (rest.length + 1) line draws
          = Except.ok ({ line with nodes := fs ++ (f :: rest) ++ [b] }, draws1) := by
  intro k
  induction k with
  | zero =>
    intro fuel line f rest b xf xb draws hedge hn hf hb hk
    have hlen : line.nodes.length = rest.length + 2 := by
      rw [hn]; simp
    have hi : rest.length + 1 < line.nodes.length := by omega
    have h1 : line.nodes[rest.length + 1]? = some b := by
      rw [hn, List.getElem?_append_right (by simp)]
      simp
    have hmod : (rest.length + 1 + 1) % line.nodes.length = 0 := by
      rw [hlen]; exact Nat.mod_self _
    have h2 : line.nodes[(rest.length + 1 + 1) % line.nodes.length]? = some f := by
      rw [hmod, hn]; simp
    have hd : |xf - xb| ≤ 8 := by
      rw [abs_sub_comm, abs_of_nonneg hk.1]
      simpa using hk.2.1
    refine ⟨[], draws + 1, rfl, ?_⟩
    rw [growthLoop_skip h hm growthIntensity fuel (rest.length + 1) line draws b f xb xf hi h1 h2
      hb hf hedge hd]
    rw [growthLoop_done h growthIntensity fuel _ line _ (by omega)]
    have e : ({ line with nodes := [] ++ (f :: rest) ++ [b] } : DifferentialLine3D K) = line := by
      cases line
      simp only [DifferentialLine3D.mk.injEq, and_true] at hn ⊢
      rw [hn]; simp
    rw [e]
  | succ k ih =>
    intro fuel line f rest b xf xb draws hedge hn hf hb hk
    have hlen : line.nodes.length = rest.length + 2 := by
      rw [hn]; simp
    have hi : rest.length + 1 < line.nodes.length := by omega
    have h1 : line.nodes[rest.length + 1]? = some b := by
      rw [hn, List.getElem?_append_right (by simp)]
      simp
    have hmod : (rest.length + 1 + 1) % line.nodes.length = 0 := by
      rw [hlen]; exact Nat.mod_self _
    have h2 : line.nodes[(rest.length + 1 + 1) % line.nodes.length]? = some f := by
      rw [hmod, hn]; simp
    have hd : 8 < |xf - xb| := by
      rw [abs_sub_comm, abs_of_nonneg hk.1]
      exact hk.pos_of_succ
    obtain ⟨m, hmp, hstep⟩ := growthLoop_insert h hm growthIntensity (fuel + k + 1)
      (rest.length + 1) line draws b f xb xf hi h1 h2 hb hf hedge hd
    have hnodes : (DifferentialLine3D.addNodeAt line m
        ((rest.length + 1 + 1) % line.nodes.length)).nodes = (m :: f :: rest) ++ [b] := by
      rw [hmod]
      simp [DifferentialLine3D.addNodeAt, hn]
    have hk2 : HalvedTimes k (xb - (xb + xf) / 2) := by
      have := hk.half
      have e : xb - (xb + xf) / 2 = (xb - xf) / 2 := by ring
      rw [e]
      exact this
    obtain ⟨fs, draws1, hfs, hrest⟩ := ih fuel
      (DifferentialLine3D.addNodeAt line m ((rest.length + 1 + 1) % line.nodes.length))
      m (f :: rest) b ((xb + xf) / 2) xb (draws + 7) hedge hnodes hmp hb hk2
    refine ⟨fs ++ [m], draws1, by simp [hfs], ?_⟩
    have e1 : fuel + (k + 1) + 1 = fuel + k + 1 + 1 := rfl
    rw [e1, hstep]
    have e2 : (f :: rest).length + 1 = rest.length + 1 + 1 := by simp
    rw [e2] at hrest
    rw [hrest]
    congr 2
    simp [DifferentialLine3D.addNodeAt]

/-- The first tick of a tube without growth state, in full. -/
theorem drawGrowthBranches_fresh_eq (h : Host K) (growthIntensity : K) (fuel : Nat)
    (growthProgress : Nat → Option (GrowthState K)) (draws : Nat) (tube : List (Vec3 K))
    (tubeId : Nat) (ht : 3 ≤ tube.length) (hnone : growthProgress tubeId = none) :
    drawGrowthBranches h growthIntensity fuel growthProgress draws tube tubeId
      = Except.ok ⟨Function.update growthProgress tubeId
          (some { (getOrCreateState h growthIntensity growthProgress draws tube tubeId).1 with
                  framesSinceLastGrowth := 1 }),
          (getOrCreateState h growthIntensity growthProgress draws tube tubeId).2,
          some (getOrCreateState h growthIntensity growthProgress draws tube
            tubeId).1.diffLine.getPoints⟩ := by
  obtain ⟨_, hfr, _⟩ := getOrCreateState_fresh h growthIntensity growthProgress draws tube tubeId
    hnone
  have hnf := seeded_not_frozen h growthIntensity growthProgress draws tube tubeId hnone
  have hnf' : ¬ ((getOrCreateState h growthIntensity growthProgress draws tube
      tubeId).1.diffLine.getPoints.length > MAX_POINTS ∨
      (getOrCreateState h growthIntensity growthProgress draws tube tubeId).1.iteration
        > MAX_ITERATIONS) := hnf
  unfold drawGrowthBranches
  rw [if_neg (by omega)]
  simp only []
  rw [if_neg hnf']
  simp only [hfr]
  simp [pure, Except.pure]

/-- The second tick of a tube without growth state calls `run()` on the seeded
line. -/
theorem ticks_two_fresh (h : Host K) (growthIntensity : K) (fuel : Nat)
    (growthProgress : Nat → Option (GrowthState K)) (draws : Nat) (tube : List (Vec3 K))
    (tubeId : Nat) (ht : 3 ≤ tube.length) (hnone : growthProgress tubeId = none)
    (r : DifferentialLine3D K × Nat)
    (hr : (getOrCreateState h growthIntensity growthProgress draws tube tubeId).1.diffLine.run
        h growthIntensity fuel
        (getOrCreateState h growthIntensity growthProgress draws tube tubeId).2 = Except.ok r) :
    ∃ t : Tick K, ticks h growthIntensity fuel tube tubeId growthProgress draws 2 = Except.ok t ∧
      nodeCount t.progress tubeId = r.1.nodes.length := by
  have e1 := drawGrowthBranches_fresh_eq h growthIntensity fuel growthProgress draws tube tubeId
    ht hnone
  have hnf : ¬ frozen ({ (getOrCreateState h growthIntensity growthProgress draws tube tubeId).1
      with framesSinceLastGrowth := 1 } : GrowthState K) :=
    seeded_not_frozen h growthIntensity growthProgress draws tube tubeId hnone
  have e2 := drawGrowthBranches_run h growthIntensity fuel
    (Function.update growthProgress tubeId
      (some { (getOrCreateState h growthIntensity growthProgress draws tube tubeId).1 with
              framesSinceLastGrowth := 1 }))
    (getOrCreateState h growthIntensity growthProgress draws tube tubeId).2 tube tubeId
    { (getOrCreateState h growthIntensity growthProgress draws tube tubeId).1 with
      framesSinceLastGrowth := 1 } ht (by simp) hnf (le_refl 1)
  simp only [hr, Except.map] at e2
  simp only [ticks, bind, Except.bind, pure, Except.pure, e1, e2]
  refine ⟨_, rfl, ?_⟩
  simp [nodeCount]

end OvershootLemmas

section ChainLemmas
variable {K : Type} [LinearOrderedField K]

theorem AxisChain.head (k : Nat) (p q : Vec3 K) (rest : List (Vec3 K))
    (hc : AxisChain k (p :: q :: rest)) :
    p.y = 0 ∧ p.z = 0 ∧ q.y = 0 ∧ q.z = 0 ∧ HalvedTimes k (q.x - p.x) := by
  have := hc 0 (by simp)
  simpa using this

theorem AxisChain.tail (k : Nat) (p q : Vec3 K) (rest : List (Vec3 K))
    (hc : AxisChain k (p :: q :: rest)) : AxisChain k (q :: rest) := by
  intro j hj
  have := hc (j + 1) (by simp at hj ⊢; omega)
  simpa using this

theorem position_of_axis (n : Node3D K) (hy : n.position.y = 0) (hz : n.position.z = 0) :
    n.position = ⟨n.position.x, 0, 0⟩ := by
  cases hp : n.position with
  | mk x y z =>
    rw [hp] at hy hz
    simp only at hy hz
    rw [hy, hz]

/-- The loop of `growth()` along a chain of nodes on the x axis: on each of the
edges of the chain it inserts `k` nodes, and it arrives at the last node of the
chain. -/
theorem growthLoop_chain (h : Host K) (hm : MidpointHost h) (growthIntensity : K) (k : Nat) :
    ∀ (tail : List (Node3D K)) (fuel : Nat) (line : DifferentialLine3D K)
      (pre : List (Node3D K)) (a b : Node3D K) (draws : Nat),
      line.maxEdgeLen = 8 → line.nodes = pre ++ (a :: b :: tail) →
      AxisChain k ((a :: b :: tail).map fun n => n.position) →
      ∃ (mid : List (Node3D K)) (last : Node3D K) (draws1 : Nat),
        mid.length + 1 = (tail.length + 1) * (k + 1) ∧ (b :: tail).getLast? = some last ∧
        DifferentialLine3D.growthLoop h growthIntensity (fuel + (tail.length + 1) * (k + 1))
            pre.length line draws
          = DifferentialLine3D.growthLoop h growthIntensity fuel (pre.length + 1 + mid.length)
              { line with nodes := pre ++ (a :: mid) ++ [last] } draws1 := by
  intro tail
  induction tail with
  | nil =>
    intro fuel line pre a b draws hedge hn hc
    obtain ⟨hay, haz, hby, hbz, hk⟩ := AxisChain.head k a.position b.position [] hc
    obtain ⟨ms, d1, hms, e⟩ := growthLoop_halve_forward h hm growthIntensity k fuel line pre a b []
      a.position.x b.position.x draws hedge hn (position_of_axis a hay haz)
      (position_of_axis b hby hbz) hk
    refine ⟨ms, b, d1, by simp [hms], rfl, ?_⟩
    have e1 : fuel + (([] : List (Node3D K)).length + 1) * (k + 1) = fuel + k + 1 := by
      simp only [List.length_nil]
      omega
    have e2 : pre.length + 1 + ms.length = pre.length + k + 1 := by omega
    rw [e1, e2]
    exact e
  | cons c tail ih =>
    intro fuel line pre a b draws hedge hn hc
    obtain ⟨hay, haz, hby, hbz, hk⟩ := AxisChain.head k a.position b.position _ hc
    have hc2 := AxisChain.tail k a.position b.position _ hc
    obtain ⟨ms, d1, hms, e⟩ := growthLoop_halve_forward h hm growthIntensity k
      (fuel + (tail.length + 1) * (k + 1)) line pre a b (c :: tail)
      a.position.x b.position.x draws hedge hn (position_of_axis a hay haz)
      (position_of_axis b hby hbz) hk
    obtain ⟨mid, last, d2, hmid, hlast, e2⟩ := ih fuel
      { line with nodes := pre ++ (a :: ms) ++ (b :: c :: tail) } (pre ++ (a :: ms)) b c d1
      hedge rfl hc2
    refine ⟨ms ++ b :: mid, last, d2, ?_, ?_, ?_⟩
    · have e3 : ((c :: tail).length + 1) * (k + 1) = (tail.length + 1) * (k + 1) + (k + 1) := by
        simp only [List.length_cons]
        ring
      rw [e3]
      simp only [List.length_append, List.length_cons, hms]
      omega
    · rw [List.getLast?_cons_cons]
      exact hlast
    · have e3 : fuel + ((c :: tail).length + 1) * (k + 1)
          = fuel + (tail.length + 1) * (k + 1) + k + 1 := by
        simp only [List.length_cons]
        ring
      rw [e3, e]
      have e4 : (pre ++ (a :: ms)).length = pre.length + k + 1 := by
        simp only [List.length_append, List.length_cons, hms]
        omega
      rw [e4] at e2
      rw [e2]
      have e5 : pre.length + k + 1 + 1 + mid.length = pre.length + 1 + (ms ++ b :: mid).length := by
        simp only [List.length_append, List.length_cons, hms]
        omega
      rw [e5]
      congr 1
      simp

omit [LinearOrderedField K] in
theorem getLast?_map_position (l : List (Node3D K)) :
    (l.map fun n => n.position).getLast? = l.getLast?.map fun n => n.position := by
  induction l with
  | nil => rfl
  | cons a l ih =>
    cases l with
    | nil => rfl
    | cons b l =>
      rw [List.map_cons, List.map_cons, List.getLast?_cons_cons, List.getLast?_cons_cons,
        ← List.map_cons]
      exact ih

/-- One `run()` on a line whose force step leaves a chain of nodes on the x
axis: `growth()` inserts `k` nodes on each edge of the chain and `kw` nodes on
the wrap-around edge from the last node to the first. -/
theorem run_halves_chain (h : Host K) (hm : MidpointHost h) (growthIntensity : K) (k kw : Nat)
    (line : DifferentialLine3D K) (draws draws1 : Nat) (a b : Node3D K)
    (tail : List (Node3D K)) (pl : Vec3 K) (hedge : line.maxEdgeLen = 8)
    (hrun : DifferentialLine3D.runNodes h line.nodes draws = Except.ok (a :: b :: tail, draws1))
    (hc : AxisChain k ((a :: b :: tail).map fun n => n.position))
    (hl : ((b :: tail).map fun n => n.position).getLast? = some pl)
    (hly : pl.y = 0) (hlz : pl.z = 0) (hw : HalvedTimes kw (pl.x - a.position.x)) :
    ∃ r, DifferentialLine3D.run h growthIntensity (kw + 1 + (tail.length + 1) * (k + 1)) line draws
        = Except.ok r ∧
      r.1.nodes.length = kw + 1 + (tail.length + 1) * (k + 1) := by
  obtain ⟨hay, haz, _⟩ := AxisChain.head k a.position b.position _ hc
  obtain ⟨mid, last, d1, hmid, hlast, e1⟩ := growthLoop_chain h hm growthIntensity k tail (kw + 1)
    { line with nodes := a :: b :: tail } [] a b draws1 hedge rfl hc
  have hlp : last.position = pl := by
    rw [getLast?_map_position, hlast] at hl
    exact Option.some.inj hl
  have hlp2 : last.position = ⟨pl.x, 0, 0⟩ := by
    rw [hlp]
    cases pl with
    | mk x y z =>
      simp only at hly hlz
      rw [hly, hlz]
  obtain ⟨fs, d2, hfs, e2⟩ := growthLoop_halve_wrap h hm growthIntensity kw 0
    { line with nodes := [] ++ (a :: mid) ++ [last] } a mid last a.position.x pl.x d1 hedge
    (by simp) (position_of_axis a hay haz) hlp2 hw
  simp only [List.length_nil, Nat.zero_add, List.nil_append] at e1 e2
  have e3 : 1 + mid.length = mid.length + 1 := by omega
  rw [e3] at e1
  refine ⟨({ line with nodes := fs ++ (a :: mid) ++ [last] }, d2), ?_, ?_⟩
  · unfold DifferentialLine3D.run DifferentialLine3D.growth
    rw [hrun]
    simp only [bind, Except.bind]
    exact e1.trans e2
  · simp only [List.length_append, List.length_cons, List.length_singleton, List.length_nil, hfs]
    omega

end ChainLemmas

/-- C8 (the code at the failing input): the tube `spreadTube` (120 points
`2^22` apart on the x axis) is seeded with 40 nodes `3 * 2^22` apart.  With
every `random(lo, hi)` at the midpoint of its range and `noise` at `2/7`, the
first tick leaves the 40 nodes, and the second tick, which finds 40 nodes,
calls `run()`: `growth()` halves each of the 39 edges 21 times and the
wrap-around edge 26 times, and the state has `40 + 39 * 21 + 26 = 885` nodes,
more than 800. -/
theorem node_count_exceeds_800 :
    (∃ t : Tick ℚ, ticks midHost 1 885 spreadTube 0 (fun _ => none) 0 1 = Except.ok t ∧
      nodeCount t.progress 0 = 40) ∧
    ∃ t : Tick ℚ, ticks midHost 1 885 spreadTube 0 (fun _ => none) 0 2 = Except.ok t ∧
      nodeCount t.progress 0 = 885 := by
  have hm : MidpointHost midHost := ⟨ratSqrt_mul_self, fun _ _ _ => rfl, fun _ => rfl⟩
  have hd : (getOrCreateState midHost 1 (fun _ => none) 0 spreadTube 0).2 = 120 := by decide!
  have hedge : (getOrCreateState midHost 1 (fun _ => none) 0 spreadTube 0).1.diffLine.maxEdgeLen
      = 8 := by decide!
  have hseed : (getOrCreateState midHost 1 (fun _ => none) 0 spreadTube
      0).1.diffLine.nodes.length = 40 := by decide!
  have hc : (DifferentialLine3D.runNodes midHost
      (getOrCreateState midHost 1 (fun _ => none) 0 spreadTube 0).1.diffLine.nodes 120).map
        (fun r => (r.1.map (fun n => n.position), r.2))
      = Except.ok (spreadMoved, 120) := by decide!
  have hchain : AxisChain 21 spreadMoved := by decide!
  have hlen : spreadMoved.length = 40 := by
    unfold spreadMoved
    rw [List.length_map, List.length_range]
  have ht3 : 3 ≤ spreadTube.length := by
    unfold spreadTube
    rw [List.length_map, List.length_range]
    omega
  have hhead : spreadMoved.head? = some ⟨4 / 5, 0, 0⟩ := by decide!
  have hlast : spreadMoved.getLast? = some ⟨117 * 4194304 - 4 / 5, 0, 0⟩ := by decide!
  have hw : HalvedTimes 26 ((117 * 4194304 - 4 / 5 : ℚ) - 4 / 5) := by decide!
  constructor
  · have e1 := drawGrowthBranches_fresh_eq midHost 1 885 (fun _ => none) 0 spreadTube 0
      ht3 rfl
    have e0 : ticks midHost 1 885 spreadTube 0 (fun _ => none) 0 1
        = drawGrowthBranches midHost 1 885 (fun _ => none) 0 spreadTube 0 := by
      simp only [ticks, bind, Except.bind, pure, Except.pure]
    rw [e0, e1]
    refine ⟨_, rfl, ?_⟩
    simp only [nodeCount, Function.update_same]
    exact hseed
  · cases hr : DifferentialLine3D.runNodes midHost
        (getOrCreateState midHost 1 (fun _ => none) 0 spreadTube 0).1.diffLine.nodes 120 with
    | error e => rw [hr] at hc; simp [Except.map] at hc
    | ok st =>
      obtain ⟨nodes, d⟩ := st
      rw [hr] at hc
      simp only [Except.map, Except.ok.injEq, Prod.mk.injEq] at hc
      obtain ⟨hpos, hd1⟩ := hc
      have hnl : nodes.length = 40 := by
        have := congrArg List.length hpos
        rw [List.length_map, hlen] at this
        exact this
      match nodes, hpos, hr, hnl with
      | a :: b :: tail, hpos, hr, hnl =>
        have htl : tail.length = 38 := by
          simp only [List.length_cons] at hnl
          omega
        have ha : a.position = ⟨4 / 5, 0, 0⟩ := by
          have := congrArg List.head? hpos
          rw [hhead] at this
          simpa using this
        have hl2 : ((b :: tail).map fun n => n.position).getLast?
            = some ⟨117 * 4194304 - 4 / 5, 0, 0⟩ := by
          have := congrArg List.getLast? hpos
          rw [hlast, List.map_cons, List.map_cons, List.getLast?_cons_cons,
            ← List.map_cons] at this
          exact this
        rw [← hpos] at hchain
        have hw2 : HalvedTimes 26 ((⟨117 * 4194304 - 4 / 5, 0, 0⟩ : Vec3 ℚ).x - a.position.x) := by
          rw [ha]
          exact hw
        obtain ⟨r, hrun, hrl⟩ := run_halves_chain midHost hm 1 21 26
          (getOrCreateState midHost 1 (fun _ => none) 0 spreadTube 0).1.diffLine 120 d a b tail
          ⟨117 * 4194304 - 4 / 5, 0, 0⟩ hedge hr hchain hl2 rfl rfl hw2
        have hfuel : 26 + 1 + (tail.length + 1) * (21 + 1) = 885 := by
          rw [htl]
        rw [hfuel] at hrun hrl
        rw [← hd] at hrun
        obtain ⟨t, ht, hn⟩ := ticks_two_fresh midHost 1 885 (fun _ => none) 0 spreadTube 0
          ht3 rfl r hrun
        exact ⟨t, ht, by rw [hn, hrl]⟩
      | [], _, _, hnl => simp at hnl
      | [_], _, _, hnl => simp at hnl

/-! ### Outline ribbons at a degenerate tangent -/

section DegenerateLemmas
variable {K : Type} [LinearOrderedField K] [FloorRing K]

omit [FloorRing K] in
/-- The points pushed for an index whose tangent is not longer than 0.01. -/
theorem outlinePointsAt_degenerate (sin sqrt : K → K) (env : RenderParams K)
    (effectTube : List (Vec3 K)) (outlineOffset : K) (i : Nat)
    (hlen : outlineTangentLen sqrt effectTube i ≤ 1 / 100) :
    outlinePointsAt sin sqrt env effectTube outlineOffset i
      = (⟨(effectTube.getD i default).x - outlineOffset * outlineWave sin env i,
          (effectTube.getD i default).y, (effectTube.getD i default).z⟩,
         ⟨(effectTube.getD i default).x + outlineOffset * outlineWave sin env i,
          (effectTube.getD i default).y, (effectTube.getD i default).z⟩) := by
  have h : ¬ sqrt ((tangentSum3 effectTube i).1 * (tangentSum3 effectTube i).1 +
      (tangentSum3 effectTube i).2 * (tangentSum3 effectTube i).2) > 1 / 100 := not_lt.2 hlen
  unfold outlinePointsAt outlineWave
  simp only [h, if_false, zero_mul, sub_zero, add_zero]

end DegenerateLemmas

/-- C21 (counterexample): the tube `[(5,5,0), (5,5,0)]` has tangent length 0 at
both points, and the level-1 outline of the pixel brush and of the smooth brush
(`basePixelSize = 8`, `outlineSpacing = 8`, no wave, no smoothing) puts the left
points at `x = 5 - 20` and the right points at `x = 5 + 20`, not on the tube
points. -/
theorem degenerate_tangent_is_offset :
    outlineTangentLen ratSqrt stackedTube 0 = 0 ∧ outlineTangentLen ratSqrt stackedTube 1 = 0 ∧
    pixelOutline (fun _ => 0) ratSqrt outlineParams stackedTube 1
      = ([⟨-15, 5, 0⟩, ⟨-15, 5, 0⟩], [⟨25, 5, 0⟩, ⟨25, 5, 0⟩]) ∧
    smoothBrushOutline (fun _ => 0) ratSqrt outlineParams stackedTube 1
      = ([⟨-15, 5, 0⟩, ⟨-15, 5, 0⟩], [⟨25, 5, 0⟩, ⟨25, 5, 0⟩]) := by
  refine ⟨?_, ?_, ?_, ?_⟩ <;> decide!

/-- C21 (amended): in the outline loops of the pixel and the smooth brush, a
tube point whose summed-neighbour tangent is not longer than 0.01 gets the
offset `(outlineOffset * wave, 0)` with
`outlineOffset = basePixelSize * 1.5 + level * outlineSpacing`: the left point
is the tube point moved by `-outlineOffset * wave` along x, the right point the
tube point moved by `+outlineOffset * wave` along x; y and z are those of the
tube point.  Stated for the arrays before smoothing (`outlineSmoothness <= 0`),
for every outline level. -/
theorem degenerate_tangent_offsets_along_x {K : Type} [LinearOrderedField K] [FloorRing K]
    (sin sqrt : K → K) (env : RenderParams K) (effectTube : List (Vec3 K)) (level i : Nat)
    (hi : i < effectTube.length) (hsmooth : env.outlineSmoothness ≤ 0)
    (hlen : outlineTangentLen sqrt effectTube i ≤ 1 / 100) :
    (pixelOutline sin sqrt env effectTube level).1[i]?
      = some ⟨(effectTube.getD i default).x
            - (env.basePixelSize * (3 / 2) + (level : K) * env.outlineSpacing)
              * outlineWave sin env i,
          (effectTube.getD i default).y, (effectTube.getD i default).z⟩ ∧
    (pixelOutline sin sqrt env effectTube level).2[i]?
      = some ⟨(effectTube.getD i default).x
            + (env.basePixelSize * (3 / 2) + (level : K) * env.outlineSpacing)
              * outlineWave sin env i,
          (effectTube.getD i default).y, (effectTube.getD i default).z⟩ ∧
    smoothBrushOutline sin sqrt env effectTube level = pixelOutline sin sqrt env effectTube level := by
  have hs : ¬ env.outlineSmoothness > 0 := not_lt.2 hsmooth
  refine ⟨?_, ?_, rfl⟩
  · unfold pixelOutline
    simp only [hs, if_false, List.map_map, List.getElem?_map, List.getElem?_range hi,
      Option.map_some', Function.comp,
      outlinePointsAt_degenerate sin sqrt env effectTube _ i hlen]
  · unfold pixelOutline
    simp only [hs, if_false, List.map_map, List.getElem?_map, List.getElem?_range hi,
      Option.map_some', Function.comp,
      outlinePointsAt_degenerate sin sqrt env effectTube _ i hlen]

/-- Witness of `degenerate_tangent_offsets_along_x`: the first point of
`stackedTube`, level 2 (offset 28). -/
theorem degenerate_tangent_offsets_along_x_witness :
    (pixelOutline (fun _ => 0) ratSqrt outlineParams stackedTube 2).1[0]?
      = some ⟨5 - (8 * (3 / 2) + ((2 : Nat) : ℚ) * 8) * outlineWave (fun _ => 0) outlineParams 0,
          5, 0⟩ :=
  (degenerate_tangent_offsets_along_x (fun _ => 0) ratSqrt outlineParams stackedTube 2 0
    (by decide) (by decide!) (by decide!)).1

/-! ### Depth reconstruction -/

section ReconstructLemmas
variable {K : Type} [LinearOrderedField K]

/-- The update of `(minDist, nearestZ)` for a source point with both
coordinates defined. -/
theorem nearestStep_defined (sqrt : K → K) (x y : K) (st : Option K × K) (c : Source K) :
    nearestStep sqrt x y st ⟨some c.sourceX, some c.sourceY, c.z⟩
      = match st.1 with
        | none => (some (xyDist sqrt x y c.sourceX c.sourceY), c.z)
        | some minDist =>
          if xyDist sqrt x y c.sourceX c.sourceY < minDist then
            (some (xyDist sqrt x y c.sourceX c.sourceY), c.z)
          else st := rfl

theorem foldl_nearestStep_filter (sqrt : K → K) (x y : K) (pts : List (SourcePoint K))
    (st : Option K × K) :
    pts.foldl (nearestStep sqrt x y) st
      = (pts.filterMap fun p =>
          match p.sourceX, p.sourceY with
          | some sourceX, some sourceY => some (⟨sourceX, sourceY, p.z⟩ : Source K)
          | _, _ => none).foldl
          (fun st c => nearestStep sqrt x y st ⟨some c.sourceX, some c.sourceY, c.z⟩) st := by
  induction pts generalizing st with
  | nil => rfl
  | cons p pts ih =>
    obtain ⟨sx, sy, z⟩ := p
    cases sx with
    | none => simpa [nearestStep] using ih st
    | some sx =>
      cases sy with
      | none => simpa [nearestStep] using ih st
      | some sy => simpa using ih _

theorem foldl_polygons (sqrt : K → K) (x y : K) (polys : List (PolyData K))
    (st : Option K × K) :
    polys.foldl (fun st polyData => polyData.pointsWithZ.foldl (nearestStep sqrt x y) st) st
      = (polys.flatMap fun polyData => polyData.pointsWithZ).foldl (nearestStep sqrt x y) st := by
  induction polys generalizing st with
  | nil => rfl
  | cons p polys ih => simp [List.flatMap_cons, List.foldl_append, ih]

/-- The loop over the source points keeps the first point of minimal
distance. -/
theorem foldl_nearest_spec (sqrt : K → K) (x y : K) (l : List (Source K)) :
    (l = [] → l.foldl
        (fun st c => nearestStep sqrt x y st ⟨some c.sourceX, some c.sourceY, c.z⟩) (none, 0)
      = (none, 0)) ∧
    (l ≠ [] → ∃ (j : Nat) (cj : Source K), l[j]? = some cj ∧
      l.foldl (fun st c => nearestStep sqrt x y st ⟨some c.sourceX, some c.sourceY, c.z⟩)
          (none, 0)
        = (some (xyDist sqrt x y cj.sourceX cj.sourceY), cj.z) ∧
      (∀ ck ∈ l, xyDist sqrt x y cj.sourceX cj.sourceY ≤ xyDist sqrt x y ck.sourceX ck.sourceY) ∧
      ∀ (k : Nat) (ck : Source K), k < j → l[k]? = some ck →
        xyDist sqrt x y cj.sourceX cj.sourceY < xyDist sqrt x y ck.sourceX ck.sourceY) := by
  induction l using List.reverseRecOn with
  | nil => exact ⟨fun _ => rfl, fun h => absurd rfl h⟩
  | append_singleton l c ih =>
    refine ⟨fun h => absurd h (by simp), fun _ => ?_⟩
    rw [List.foldl_append]
    by_cases hl : l = []
    · subst hl
      refine ⟨0, c, by simp, ?_, ?_, ?_⟩
      · simp [nearestStep_defined]
      · intro ck hck
        simp at hck
        rw [hck]
      · intro k ck hk
        omega
    · obtain ⟨j, cj, hj, hfold, hmin, hfirst⟩ := ih.2 hl
      have hjlt : j < l.length := by
        by_contra hge
        rw [List.getElem?_eq_none (by omega)] at hj
        exact Option.noConfusion hj
      rw [hfold]
      simp only [List.foldl_cons, List.foldl_nil, nearestStep_defined]
      by_cases hc : xyDist sqrt x y c.sourceX c.sourceY < xyDist sqrt x y cj.sourceX cj.sourceY
      · refine ⟨l.length, c, by simp, by simp [hc], ?_, ?_⟩
        · intro ck hck
          rcases List.mem_append.1 hck with h | h
          · exact le_of_lt (lt_of_lt_of_le hc (hmin ck h))
          · simp at h
            rw [h]
        · intro k ck hk hck
          rw [List.getElem?_append_left hk] at hck
          exact lt_of_lt_of_le hc (hmin ck (List.mem_iff_getElem?.2 ⟨k, hck⟩))
      · refine ⟨j, cj, by rw [List.getElem?_append_left hjlt]; exact hj, by simp [hc], ?_, ?_⟩
        · intro ck hck
          rcases List.mem_append.1 hck with h | h
          · exact hmin ck h
          · simp at h
            rw [h]
            exact not_lt.1 hc
        · intro k ck hk hck
          rw [List.getElem?_append_left (by omega)] at hck
          exact hfirst k ck hk hck

end ReconstructLemmas

/-- C22: `reconstructZValues` returns a list of the length of `merged2D`; its
entry `i` keeps `X` and `Y` of `merged2D[i]`, and its `z` is 0 when no point of
`originalPolygons` has both source coordinates defined, and otherwise the `z` of
the first source point (in iteration order) whose distance
`sqrt((X/1000 - sourceX)^2 + (Y/1000 - sourceY)^2)` is minimal among all source
points. -/
theorem reconstructZValues_nearest {K : Type} [LinearOrderedField K] (sqrt : K → K)
    (merged2D : List (IntPoint K)) (originalPolygons : List (PolyData K)) :
    (reconstructZValues sqrt merged2D originalPolygons).length = merged2D.length ∧
    ∀ (i : Nat) (pt : IntPoint K), merged2D[i]? = some pt →
      ∃ r : ZPoint K, (reconstructZValues sqrt merged2D originalPolygons)[i]? = some r ∧
        r.X = pt.X ∧ r.Y = pt.Y ∧
        (definedSources originalPolygons = [] → r.z = 0) ∧
        (definedSources originalPolygons ≠ [] →
          ∃ (j : Nat) (cj : Source K), (definedSources originalPolygons)[j]? = some cj ∧
            r.z = cj.z ∧
            (∀ ck ∈ definedSources originalPolygons,
              xyDist sqrt (pt.X / 1000) (pt.Y / 1000) cj.sourceX cj.sourceY
                ≤ xyDist sqrt (pt.X / 1000) (pt.Y / 1000) ck.sourceX ck.sourceY) ∧
            ∀ (k : Nat) (ck : Source K), k < j →
              (definedSources originalPolygons)[k]? = some ck →
              xyDist sqrt (pt.X / 1000) (pt.Y / 1000) cj.sourceX cj.sourceY
                < xyDist sqrt (pt.X / 1000) (pt.Y / 1000) ck.sourceX ck.sourceY) := by
  refine ⟨by simp [reconstructZValues], ?_⟩
  intro i pt hpt
  have hspec := foldl_nearest_spec sqrt (pt.X / 1000) (pt.Y / 1000)
    (definedSources originalPolygons)
  have hfold : originalPolygons.foldl
      (fun st polyData => polyData.pointsWithZ.foldl
        (nearestStep sqrt (pt.X / 1000) (pt.Y / 1000)) st) (none, 0)
      = (definedSources originalPolygons).foldl
          (fun st c => nearestStep sqrt (pt.X / 1000) (pt.Y / 1000) st
            ⟨some c.sourceX, some c.sourceY, c.z⟩) (none, 0) := by
    rw [foldl_polygons, foldl_nearestStep_filter]
    rfl
  have hget : (reconstructZValues sqrt merged2D originalPolygons)[i]?
      = some ⟨pt.X, pt.Y, (originalPolygons.foldl
          (fun st polyData => polyData.pointsWithZ.foldl
            (nearestStep sqrt (pt.X / 1000) (pt.Y / 1000)) st) (none, 0)).2⟩ := by
    simp only [reconstructZValues, List.getElem?_map, hpt, Option.map_some']
  rw [hfold] at hget
  refine ⟨_, hget, rfl, rfl, ?_, ?_⟩
  · intro hnil
    have e := hspec.1 hnil
    exact congrArg Prod.snd e
  · intro hne
    obtain ⟨j, cj, hj, hres, hmin, hfirst⟩ := hspec.2 hne
    exact ⟨j, cj, hj, congrArg Prod.snd hres, hmin, hfirst⟩

/-- Witness of `reconstructZValues_nearest`: the merged point `(3000, 3000)` with
the sources of `sampleSources` (squared distances 18, 1 and 34 from `(3, 3)`)
receives `z = 2` of the source `(3, 4)`, and `X`, `Y` are kept. -/
theorem reconstructZValues_nearest_witness :
    ∃ r : ZPoint ℚ,
      (reconstructZValues ratSqrt [⟨3000, 3000⟩] sampleSources)[0]? = some r ∧
      r.X = 3000 ∧ r.Y = 3000 ∧ r.z = 2 := by
  obtain ⟨r, hr, hX, hY, _, _⟩ :=
    (reconstructZValues_nearest ratSqrt [⟨3000, 3000⟩] sampleSources).2 0 ⟨3000, 3000⟩ rfl
  refine ⟨r, hr, hX, hY, ?_⟩
  have e : (reconstructZValues ratSqrt [⟨3000, 3000⟩] sampleSources)[0]?
      = some ⟨3000, 3000, 2⟩ := by decide!
  rw [e] at hr
  rw [← Option.some.inj hr]

/-! ### Growth: the forces of one node -/

section ForceLemmas
variable {K : Type} [LinearOrderedField K]

theorem magSq_nonneg (a : Vec3 K) : 0 ≤ Vec3.magSq a := by
  unfold Vec3.magSq
  nlinarith [mul_self_nonneg a.x, mul_self_nonneg a.y, mul_self_nonneg a.z]

theorem magSq_mult (a : Vec3 K) (c : K) : Vec3.magSq (Vec3.mult a c) = c * c * Vec3.magSq a := by
  simp only [Vec3.magSq, Vec3.mult]
  ring

/-- The vector that `limit(max)` leaves is not longer than `|max|`. -/
theorem magSq_limit_le (sqrt : K → K) (hs : ExactSqrt sqrt) (a : Vec3 K) (max : K) :
    Vec3.magSq (Vec3.limit sqrt a max) ≤ max * max := by
  unfold Vec3.limit
  by_cases h : Vec3.magSq a > max * max
  · simp only [h, if_true]
    obtain ⟨h0, h1⟩ := hs (Vec3.magSq a) (magSq_nonneg a)
    have hpos : 0 < Vec3.magSq a := lt_of_le_of_lt (mul_self_nonneg max) h
    have hne : sqrt (Vec3.magSq a) ≠ 0 := by
      intro h2
      rw [h2, mul_zero] at h1
      exact absurd h1.symm (ne_of_gt hpos)
    have hdiv : Vec3.magSq (Vec3.div a (sqrt (Vec3.magSq a))) = 1 := by
      simp only [Vec3.div, hne, if_false]
      have e : Vec3.magSq (⟨a.x / sqrt (Vec3.magSq a), a.y / sqrt (Vec3.magSq a),
          a.z / sqrt (Vec3.magSq a)⟩ : Vec3 K)
          = Vec3.magSq a / (sqrt (Vec3.magSq a) * sqrt (Vec3.magSq a)) := by
        simp only [Vec3.magSq]
        field_simp
      rw [e, h1]
      exact div_self (ne_of_gt hpos)
    rw [magSq_mult, hdiv, mul_one]
  · simp only [h, if_false]
    exact not_lt.1 h

/-- The Cauchy-Schwarz bound on the sum of two vectors. -/
theorem magSq_add_le (u v : Vec3 K) (p q : K) (hp : 0 ≤ p) (hq : 0 ≤ q)
    (hu : Vec3.magSq u ≤ p * p) (hv : Vec3.magSq v ≤ q * q) :
    Vec3.magSq (Vec3.add u v) ≤ (p + q) * (p + q) := by
  have hu0 := magSq_nonneg u
  have hv0 := magSq_nonneg v
  have hcs : (u.x * v.x + u.y * v.y + u.z * v.z) * (u.x * v.x + u.y * v.y + u.z * v.z)
      ≤ Vec3.magSq u * Vec3.magSq v := by
    simp only [Vec3.magSq]
    nlinarith [mul_self_nonneg (u.x * v.y - u.y * v.x), mul_self_nonneg (u.x * v.z - u.z * v.x),
      mul_self_nonneg (u.y * v.z - u.z * v.y)]
  have hprod : Vec3.magSq u * Vec3.magSq v ≤ (p * q) * (p * q) := by
    calc Vec3.magSq u * Vec3.magSq v ≤ (p * p) * (q * q) :=
          mul_le_mul hu hv hv0 (mul_self_nonneg p)
      _ = (p * q) * (p * q) := by ring
  have hdot : u.x * v.x + u.y * v.y + u.z * v.z ≤ p * q := by
    by_contra hlt
    have hlt := not_le.1 hlt
    have hpq : 0 ≤ p * q := mul_nonneg hp hq
    have := mul_lt_mul'' hlt hlt hpq hpq
    linarith
  have e : Vec3.magSq (Vec3.add u v)
      = Vec3.magSq u + Vec3.magSq v + 2 * (u.x * v.x + u.y * v.y + u.z * v.z) := by
    simp only [Vec3.magSq, Vec3.add]
    ring
  rw [e]
  nlinarith

/-- The force that `seek` returns is not longer than `|maxForce|`. -/
theorem magSq_seek_le (h : Host K) (hs : ExactSqrt h.sqrt) (self : Node3D K) (target : Vec3 K) :
    Vec3.magSq (Node3D.seek h self target) ≤ self.maxForce * self.maxForce :=
  magSq_limit_le h.sqrt hs _ _

/-- The force that `separate` returns is not longer than `|maxForce|`. -/
theorem magSq_separate_le (h : Host K) (hs : ExactSqrt h.sqrt) (self : Node3D K)
    (nodes : List (Node3D K)) (draws : Nat) :
    Vec3.magSq (Node3D.separate h self nodes draws).1 ≤ self.maxForce * self.maxForce := by
  unfold Node3D.separate
  simp only []
  split_ifs with hc hm hm
  · exact magSq_limit_le h.sqrt hs _ _
  · obtain ⟨h0, h1⟩ := hs _ (magSq_nonneg
      (Vec3.div (nodes.foldl (Node3D.separateStep h self) (⟨0, 0, 0⟩, 0, draws)).1
        ((nodes.foldl (Node3D.separateStep h self) (⟨0, 0, 0⟩, 0, draws)).2.1 : K)))
    have hz : h.sqrt (Vec3.magSq
        (Vec3.div (nodes.foldl (Node3D.separateStep h self) (⟨0, 0, 0⟩, 0, draws)).1
          ((nodes.foldl (Node3D.separateStep h self) (⟨0, 0, 0⟩, 0, draws)).2.1 : K))) = 0 :=
      le_antisymm (not_lt.1 hm) h0
    rw [hz, mul_zero] at h1
    rw [← h1]
    exact mul_self_nonneg _
  · exact magSq_limit_le h.sqrt hs _ _
  · obtain ⟨h0, h1⟩ := hs _ (magSq_nonneg
      (nodes.foldl (Node3D.separateStep h self) (⟨0, 0, 0⟩, 0, draws)).1)
    have hz : h.sqrt (Vec3.magSq
        (nodes.foldl (Node3D.separateStep h self) (⟨0, 0, 0⟩, 0, draws)).1) = 0 :=
      le_antisymm (not_lt.1 hm) h0
    rw [hz, mul_zero] at h1
    rw [← h1]
    exact mul_self_nonneg _

omit [LinearOrderedField K] in
theorem nodeAt_of_lt (nodes : List (Node3D K)) (i : Nat) (hi : i < nodes.length) :
    ∃ n, nodeAt nodes i = Except.ok n := by
  unfold nodeAt
  rw [List.getElem?_eq_getElem hi]
  exact ⟨_, rfl⟩

/-- With at least two nodes, `edgeCohesion` of a node of the list returns a
force that `seek` computed. -/
theorem edgeCohesion_returns (h : Host K) (self : Node3D K) (nodes : List (Node3D K))
    (thisIndex : Nat) (hidx : thisIndex < nodes.length) (hlen : 2 ≤ nodes.length) :
    ∃ target, Node3D.edgeCohesion h self nodes thisIndex
      = Except.ok (Node3D.seek h self target) := by
  unfold Node3D.edgeCohesion
  by_cases h1 : thisIndex ≠ 0 ∧ thisIndex ≠ nodes.length - 1
  · obtain ⟨a, ha⟩ := nodeAt_of_lt nodes (thisIndex - 1) (by omega)
    obtain ⟨b, hb⟩ := nodeAt_of_lt nodes (thisIndex + 1) (by omega)
    rw [if_pos h1]
    simp only [ha, hb, bind, Except.bind, pure, Except.pure]
    exact ⟨_, rfl⟩
  · rw [if_neg h1]
    by_cases h2 : thisIndex = 0
    · obtain ⟨a, ha⟩ := nodeAt_of_lt nodes (nodes.length - 1) (by omega)
      obtain ⟨m, hm⟩ := nodeAt_of_lt nodes thisIndex hidx
      obtain ⟨b, hb⟩ := nodeAt_of_lt nodes (thisIndex + 1) (by omega)
      rw [if_pos h2]
      simp only [ha, hm, hb, bind, Except.bind, pure, Except.pure]
      exact ⟨_, rfl⟩
    · have h3 : thisIndex = nodes.length - 1 := by
        by_contra h3
        exact h1 ⟨h2, h3⟩
      obtain ⟨a, ha⟩ := nodeAt_of_lt nodes (thisIndex - 1) (by omega)
      obtain ⟨f, hf⟩ := nodeAt_of_lt nodes 0 (by omega)
      obtain ⟨m, hm⟩ := nodeAt_of_lt nodes thisIndex hidx
      rw [if_neg h2, if_pos h3]
      simp only [ha, hf, hm, bind, Except.bind, pure, Except.pure]
      exact ⟨_, rfl⟩

end ForceLemmas

/-- C23 (counterexample): `pushedNode` (zero acceleration, `maxForce = 1/2`) sits
between neighbours at `x = 20` and `x = 40` with a fourth node at `x = -1`:
`separate` returns `(1/2, 0, 0)`, `edgeCohesion` returns `(1/2, 0, 0)`, and after
`differentiate` the acceleration is `1/2 * 6/5 + 1/2 = (11/10, 0, 0)`, of
magnitude `11/10 > 1/2`. -/
theorem acceleration_exceeds_maxForce :
    pushedNode.acceleration = ⟨0, 0, 0⟩ ∧ pushedNode.maxForce = 1 / 2 ∧
    (Node3D.differentiate midHost pushedNode pushedNodes 1 0).map
        (fun r => (r.1.acceleration, Vec3.mag midHost.sqrt r.1.acceleration))
      = Except.ok (⟨11 / 10, 0, 0⟩, 11 / 10) := by
  refine ⟨?_, ?_, ?_⟩ <;> decide!

/-- C23 (amended): for a node of a list of at least two nodes with zero
acceleration before the call, `differentiate` returns, and the acceleration it
leaves is `separation * separationCohesionRation + cohesion` for two forces each
of magnitude at most `|maxForce|`; its magnitude is at most
`(|separationCohesionRation| + 1) * |maxForce|`.  The square root is exact. -/
theorem acceleration_bound {K : Type} [LinearOrderedField K] (h : Host K)
    (hs : ExactSqrt h.sqrt) (self : Node3D K) (nodes : List (Node3D K)) (thisIndex draws : Nat)
    (hidx : thisIndex < nodes.length) (hlen : 2 ≤ nodes.length)
    (hacc : self.acceleration = ⟨0, 0, 0⟩) :
    ∃ (r : Node3D K × Nat) (separation cohesion : Vec3 K),
      Node3D.differentiate h self nodes thisIndex draws = Except.ok r ∧
      r.1.acceleration
        = Vec3.add (Vec3.mult separation self.separationCohesionRation) cohesion ∧
      Vec3.magSq separation ≤ self.maxForce * self.maxForce ∧
      Vec3.magSq cohesion ≤ self.maxForce * self.maxForce ∧
      Vec3.mag h.sqrt r.1.acceleration
        ≤ (|self.separationCohesionRation| + 1) * |self.maxForce| := by
  obtain ⟨target, hcoh⟩ := edgeCohesion_returns h self nodes thisIndex hidx hlen
  have hsep := magSq_separate_le h hs self nodes draws
  have hseek := magSq_seek_le h hs self target
  unfold Node3D.differentiate
  generalize Node3D.separate h self nodes draws = S at hsep ⊢
  obtain ⟨sep, d⟩ := S
  generalize Node3D.seek h self target = coh at hseek hcoh ⊢
  simp only [hcoh, bind, Except.bind, pure, Except.pure, hacc] at hsep ⊢
  have e : Vec3.add (Vec3.add (⟨0, 0, 0⟩ : Vec3 K) (Vec3.mult sep self.separationCohesionRation))
      coh = Vec3.add (Vec3.mult sep self.separationCohesionRation) coh := by
    simp only [Vec3.add, Vec3.mult, zero_add]
  refine ⟨_, sep, coh, rfl, e, hsep, hseek, ?_⟩
  rw [e]
  have hp : 0 ≤ |self.separationCohesionRation| * |self.maxForce| :=
    mul_nonneg (abs_nonneg _) (abs_nonneg _)
  have hu : Vec3.magSq (Vec3.mult sep self.separationCohesionRation)
      ≤ (|self.separationCohesionRation| * |self.maxForce|)
        * (|self.separationCohesionRation| * |self.maxForce|) := by
    rw [magSq_mult]
    have e1 : (|self.separationCohesionRation| * |self.maxForce|)
        * (|self.separationCohesionRation| * |self.maxForce|)
        = self.separationCohesionRation * self.separationCohesionRation
          * (self.maxForce * self.maxForce) := by
      rw [mul_mul_mul_comm, abs_mul_abs_self, abs_mul_abs_self]
    rw [e1]
    exact mul_le_mul_of_nonneg_left hsep (mul_self_nonneg _)
  have hv : Vec3.magSq coh ≤ |self.maxForce| * |self.maxForce| := by
    rw [abs_mul_abs_self]
    exact hseek
  have hsum := magSq_add_le _ _ _ _ hp (abs_nonneg self.maxForce) hu hv
  obtain ⟨h0, h1⟩ := hs _ (magSq_nonneg
    (Vec3.add (Vec3.mult sep self.separationCohesionRation) coh))
  unfold Vec3.mag
  have hB : 0 ≤ (|self.separationCohesionRation| + 1) * |self.maxForce| :=
    mul_nonneg (by positivity) (abs_nonneg _)
  by_contra hgt
  have hgt := not_le.1 hgt
  have := mul_lt_mul'' hgt hgt hB hB
  rw [h1] at this
  have e2 : (|self.separationCohesionRation| + 1) * |self.maxForce|
      = |self.separationCohesionRation| * |self.maxForce| + |self.maxForce| := by ring
  rw [e2] at this
  exact absurd hsum (not_le.2 this)

/-- Witness of `acceleration_bound`: over the real numbers with the real square
root, the node at index 1 of three nodes on the x axis. -/
theorem acceleration_bound_witness :
    ∃ (r : Node3D ℝ × Nat),
      Node3D.differentiate (⟨Real.sqrt, fun _ lo hi => (lo + hi) / 2, fun _ => 2 / 7⟩ : Host ℝ)
          (Node3D.new 0 0 0 (1 / 2) 1 2 (6 / 5) true)
          [Node3D.new 20 0 0 (1 / 2) 1 2 (6 / 5) true, Node3D.new 0 0 0 (1 / 2) 1 2 (6 / 5) true,
           Node3D.new 40 0 0 (1 / 2) 1 2 (6 / 5) true] 1 0 = Except.ok r ∧
      Vec3.mag Real.sqrt r.1.acceleration ≤ (|(6 / 5 : ℝ)| + 1) * |(1 / 2 : ℝ)| := by
  obtain ⟨r, _, _, hr, _, _, _, hb⟩ := acceleration_bound
    (⟨Real.sqrt, fun _ lo hi => (lo + hi) / 2, fun _ => 2 / 7⟩ : Host ℝ)
    (fun v hv => ⟨Real.sqrt_nonneg v, Real.mul_self_sqrt hv⟩)
    (Node3D.new 0 0 0 (1 / 2) 1 2 (6 / 5) true)
    [Node3D.new 20 0 0 (1 / 2) 1 2 (6 / 5) true, Node3D.new 0 0 0 (1 / 2) 1 2 (6 / 5) true,
     Node3D.new 40 0 0 (1 / 2) 1 2 (6 / 5) true] 1 0 (by simp) (by simp) rfl
  exact ⟨r, hr, hb⟩

/-! ### Growth: where a node is inserted -/

section InsertLemmas
variable {K : Type} [LinearOrderedField K]

omit [LinearOrderedField K] in
/-- The array after `splice(idx, 0, m)` with `idx = (i + 1) % length`: the new
element follows `nodes[i]` and precedes `nodes[(i + 1) % length]` in cyclic
order, and it is at index 0 for the wrap-around pair. -/
theorem splice_between (nodes : List (Node3D K)) (m n1 n2 : Node3D K) (i : Nat)
    (hi : i < nodes.length) (h1 : nodes[i]? = some n1)
    (h2 : nodes[(i + 1) % nodes.length]? = some n2) :
    (nodes.take ((i + 1) % nodes.length) ++ m :: nodes.drop ((i + 1) % nodes.length)).length
      = nodes.length + 1 ∧
    (i + 1 < nodes.length →
      (nodes.take ((i + 1) % nodes.length) ++ m :: nodes.drop ((i + 1) % nodes.length))[i]?
        = some n1 ∧
      (nodes.take ((i + 1) % nodes.length) ++ m :: nodes.drop ((i + 1) % nodes.length))[i + 1]?
        = some m ∧
      (nodes.take ((i + 1) % nodes.length) ++ m :: nodes.drop ((i + 1) % nodes.length))[i + 2]?
        = some n2) ∧
    (i + 1 = nodes.length →
      (nodes.take ((i + 1) % nodes.length) ++ m :: nodes.drop ((i + 1) % nodes.length))[0]?
        = some m ∧
      (nodes.take ((i + 1) % nodes.length) ++ m :: nodes.drop ((i + 1) % nodes.length))[1]?
        = some n2 ∧
      (nodes.take ((i + 1) % nodes.length) ++ m :: nodes.drop ((i + 1) % nodes.length))[
          nodes.length]? = some n1) := by
  refine ⟨?_, ?_, ?_⟩
  · have : (i + 1) % nodes.length ≤ nodes.length := le_of_lt (Nat.mod_lt _ (by omega))
    simp only [List.length_append, List.length_take, List.length_cons, List.length_drop]
    omega
  · intro hlt
    have hmod : (i + 1) % nodes.length = i + 1 := Nat.mod_eq_of_lt hlt
    rw [hmod] at h2 ⊢
    have htl : (nodes.take (i + 1)).length = i + 1 := by
      rw [List.length_take]
      omega
    refine ⟨?_, ?_, ?_⟩
    · rw [List.getElem?_append_left (by omega), List.getElem?_take_of_lt (by omega)]
      exact h1
    · rw [List.getElem?_append_right (by omega), htl]
      simp
    · rw [List.getElem?_append_right (by omega), htl]
      have e : i + 2 - (i + 1) = 0 + 1 := by omega
      rw [e, List.getElem?_cons_succ, List.getElem?_drop]
      exact h2
  · intro heq
    have hmod : (i + 1) % nodes.length = 0 := by
      rw [heq]
      exact Nat.mod_self _
    rw [hmod] at h2 ⊢
    simp only [List.take_zero, List.drop_zero, List.nil_append]
    refine ⟨List.getElem?_cons_zero, ?_, ?_⟩
    · rw [List.getElem?_cons_succ]
      exact h2
    · have e : nodes.length = i + 1 := heq.symm
      rw [e, List.getElem?_cons_succ]
      exact h1

end InsertLemmas

/-- C24: with `growthIntensity = 0`, an iteration of the loop of `growth()` that
finds the pair `(n1, n2) = (nodes[i], nodes[(i + 1) % length])` longer than the
threshold inserts one node `m`; `m.position` is exactly the midpoint of
`n1.position` and `n2.position`; in the new array `m` follows `n1` and precedes
`n2` (indices `i, i + 1, i + 2`), and for the wrap-around pair (`n1` the last
node, `n2` the first) `m` is at index 0, before `n2` at index 1, with `n1` at the
last index.  The loop goes on at index `i + 1`. -/
theorem growth_inserts_midpoint {K : Type} [LinearOrderedField K] (h : Host K)
    (fuel i : Nat) (line : DifferentialLine3D K) (draws : Nat) (n1 n2 : Node3D K)
    (hi : i < line.nodes.length) (h1 : line.nodes[i]? = some n1)
    (h2 : line.nodes[(i + 1) % line.nodes.length]? = some n2)
    (hd : Vec3.dist h.sqrt n1.position n2.position
      > line.maxEdgeLen + p5map (h.noise draws) 0 1 (-2) 5) :
    ∃ m : Node3D K,
      m.position = ⟨(n1.position.x + n2.position.x) / 2, (n1.position.y + n2.position.y) / 2,
        (n1.position.z + n2.position.z) / 2⟩ ∧
      DifferentialLine3D.growthLoop h 0 (fuel + 1) i line draws
        = DifferentialLine3D.growthLoop h 0 fuel (i + 1)
            (DifferentialLine3D.addNodeAt line m ((i + 1) % line.nodes.length)) (draws + 7) ∧
      (DifferentialLine3D.addNodeAt line m ((i + 1) % line.nodes.length)).nodes.length
        = line.nodes.length + 1 ∧
      (i + 1 < line.nodes.length →
        (DifferentialLine3D.addNodeAt line m ((i + 1) % line.nodes.length)).nodes[i]?
          = some n1 ∧
        (DifferentialLine3D.addNodeAt line m ((i + 1) % line.nodes.length)).nodes[i + 1]?
          = some m ∧
        (DifferentialLine3D.addNodeAt line m ((i + 1) % line.nodes.length)).nodes[i + 2]?
          = some n2) ∧
      (i + 1 = line.nodes.length →
        (DifferentialLine3D.addNodeAt line m ((i + 1) % line.nodes.length)).nodes[0]?
          = some m ∧
        (DifferentialLine3D.addNodeAt line m ((i + 1) % line.nodes.length)).nodes[1]?
          = some n2 ∧
        (DifferentialLine3D.addNodeAt line m ((i + 1) % line.nodes.length)).nodes[
            line.nodes.length]? = some n1) := by
  refine ⟨Node3D.new
      ((Vec3.div (Vec3.add n1.position n2.position) 2).x + h.random (draws + 2) (-2) 2 * (0 / 30))
      ((Vec3.div (Vec3.add n1.position n2.position) 2).y + h.random (draws + 3) (-2) 2 * (0 / 30))
      ((Vec3.div (Vec3.add n1.position n2.position) 2).z + h.random (draws + 1) (-5) 5 * (0 / 20))
      (line.maxForce + h.random (draws + 4) (-1 / 10) (1 / 10))
      (line.maxSpeed + h.random (draws + 5) (-1 / 10) (1 / 10))
      (line.desiredSeparation + h.noise (draws + 6) * 5)
      line.separationCohesionRation true, ?_, ?_, ?_⟩
  · simp [Node3D.new, Vec3.add, Vec3.div]
  · rw [DifferentialLine3D.growthLoop]
    simp only [hi, if_true, nodeAt, h1, h2, bind, Except.bind, pure, Except.pure]
    rw [if_pos hd]
  · exact splice_between line.nodes _ n1 n2 i hi h1 h2

/-- Witness of `growth_inserts_midpoint`: the wrap-around pair of `twoNodeLine`
(`(40, 6, 2)` and `(0, 0, 0)`, distance above 8): the new node is at
`(20, 3, 1)` and at index 0. -/
theorem growth_inserts_midpoint_witness :
    ∃ m : Node3D ℚ, m.position = ⟨20, 3, 1⟩ ∧
      (DifferentialLine3D.addNodeAt twoNodeLine m 0).nodes[0]? = some m ∧
      DifferentialLine3D.growthLoop midHost 0 (5 + 1) 1 twoNodeLine 0
        = DifferentialLine3D.growthLoop midHost 0 5 2
            (DifferentialLine3D.addNodeAt twoNodeLine m 0) 7 := by
  obtain ⟨m, hp, hloop, _, _, hwrap⟩ := growth_inserts_midpoint midHost 5 1 twoNodeLine 0
    (Node3D.new 40 6 2 (4 / 5) (4 / 5) 12 (6 / 5) true)
    (Node3D.new 0 0 0 (4 / 5) (4 / 5) 12 (6 / 5) true) (by decide) rfl rfl (by decide!)
  refine ⟨m, ?_, (hwrap rfl).1, hloop⟩
  rw [hp]
  decide!

/-! ### Smooth brush: the taper -/

section TaperLemmas
variable {K : Type} [LinearOrderedField K] [FloorRing K]

omit [FloorRing K] in
theorem taperLength_pos (len : Nat) (hlen : 2 ≤ len) : (0 : K) < taperLength len := by
  unfold taperLength
  have h2 : (2 : K) ≤ (len : K) := by exact_mod_cast hlen
  exact lt_min (by norm_num) (by linarith)

omit [FloorRing K] in
theorem taperLength_le (len : Nat) : (taperLength len : K) ≤ (len : K) / 4 :=
  min_le_right _ _

omit [FloorRing K] in
/-- The taper factor of an index between 0 and `len - 1` lies in `[0, 1]`. -/
theorem taperFactor_mem (len : Nat) (hlen : 2 ≤ len) (idx : K) (h0 : 0 ≤ idx)
    (h1 : idx ≤ (len : K) - 1) : 0 ≤ taperFactor len idx ∧ taperFactor len idx ≤ 1 := by
  have hpos := taperLength_pos (K := K) len hlen
  unfold taperFactor
  split_ifs with ha hb
  · exact ⟨div_nonneg h0 (le_of_lt hpos), (div_le_one hpos).2 (le_of_lt ha)⟩
  · refine ⟨div_nonneg (by linarith) (le_of_lt hpos), (div_le_one hpos).2 ?_⟩
    linarith
  · exact ⟨zero_le_one, le_refl _⟩

omit [FloorRing K] in
theorem taperFactor_zero (len : Nat) (hlen : 2 ≤ len) : taperFactor len (0 : K) = 0 := by
  unfold taperFactor
  rw [if_pos (taperLength_pos len hlen), zero_div]

omit [FloorRing K] in
theorem taperFactor_last (len : Nat) (hlen : 2 ≤ len) :
    taperFactor len ((len : K) - 1) = 0 := by
  have hpos := taperLength_pos (K := K) len hlen
  have hle := taperLength_le (K := K) len
  have h2 : (2 : K) ≤ (len : K) := by exact_mod_cast hlen
  unfold taperFactor
  rw [if_neg (by linarith), if_pos (by linarith), sub_self, zero_div]

theorem smoothSteps_pos (sqrt : K → K) (env : RenderParams K) (effectTube : List (Vec3 K))
    (i : Nat) : 3 ≤ smoothSteps sqrt env effectTube i :=
  le_max_left _ _

theorem smoothSample_index (sin sqrt : K → K) (pow : K → K → K) (env : RenderParams K)
    (effectTube : List (Vec3 K)) (i step : Nat) :
    (smoothSample sin sqrt pow env effectTube i step).interpolatedIndex
      = (i : K) + (step : K) / (smoothSteps sqrt env effectTube i : K) ∧
    (smoothSample sin sqrt pow env effectTube i step).taperFactor
      = taperFactor effectTube.length
          (smoothSample sin sqrt pow env effectTube i step).interpolatedIndex := ⟨rfl, rfl⟩

theorem smoothSample_radius_zero (sin sqrt : K → K) (pow : K → K → K) (env : RenderParams K)
    (effectTube : List (Vec3 K)) (i step : Nat)
    (h : (smoothSample sin sqrt pow env effectTube i step).taperFactor = 0) :
    (smoothSample sin sqrt pow env effectTube i step).finalRadius = 0 := by
  simp only [smoothSample] at h ⊢
  rw [h]
  simp

theorem smoothSpheres_mem (sin sqrt : K → K) (pow : K → K → K) (env : RenderParams K)
    (effectTube : List (Vec3 K)) (s : SmoothSample K)
    (hs : s ∈ smoothSpheres sin sqrt pow env effectTube) :
    ∃ i step, i < effectTube.length - 1 ∧ step ≤ smoothSteps sqrt env effectTube i ∧
      s = smoothSample sin sqrt pow env effectTube i step := by
  unfold smoothSpheres at hs
  rw [List.mem_flatMap] at hs
  obtain ⟨i, hi, hs⟩ := hs
  rw [List.mem_map] at hs
  obtain ⟨step, hstep, rfl⟩ := hs
  exact ⟨i, step, List.mem_range.1 hi, Nat.lt_succ_iff.1 (List.mem_range.1 hstep), rfl⟩

theorem smoothSpheres_head (sin sqrt : K → K) (pow : K → K → K) (env : RenderParams K)
    (effectTube : List (Vec3 K)) (hlen : 2 ≤ effectTube.length) :
    (smoothSpheres sin sqrt pow env effectTube).head?
      = some (smoothSample sin sqrt pow env effectTube 0 0) := by
  unfold smoothSpheres
  obtain ⟨n, hn⟩ : ∃ n, effectTube.length - 1 = n + 1 := ⟨effectTube.length - 2, by omega⟩
  rw [hn, List.range_succ_eq_map, List.flatMap_cons, List.range_succ_eq_map, List.map_cons,
    List.cons_append, List.head?_cons]

theorem smoothSpheres_getLast (sin sqrt : K → K) (pow : K → K → K) (env : RenderParams K)
    (effectTube : List (Vec3 K)) (hlen : 2 ≤ effectTube.length) :
    (smoothSpheres sin sqrt pow env effectTube).getLast?
      = some (smoothSample sin sqrt pow env effectTube (effectTube.length - 2)
          (smoothSteps sqrt env effectTube (effectTube.length - 2))) := by
  unfold smoothSpheres
  have hn : effectTube.length - 1 = (effectTube.length - 2) + 1 := by omega
  rw [hn, List.range_succ, List.flatMap_append, List.flatMap_singleton, List.range_succ,
    List.map_append, List.map_singleton, ← List.append_assoc, List.getLast?_append]
  simp

end TaperLemmas

/-- C25: in the smooth brush of `drawSimpleTube`, for a tube of `len >= 2`
points (and `basePixelSize` other than 0, so that the number of steps of a
segment is a number), the taper length is `min(10, len / 4)`; the taper factor
of every sphere lies in `[0, 1]`; the first sphere has interpolated index 0, the
last sphere has interpolated index `len - 1`, and both have taper factor 0 and
radius 0. -/
theorem smooth_taper_ends {K : Type} [LinearOrderedField K] [FloorRing K]
    (sin sqrt : K → K) (pow : K → K → K) (env : RenderParams K) (effectTube : List (Vec3 K))
    (hlen : 2 ≤ effectTube.length) (_hbase : env.basePixelSize ≠ 0) :
    (taperLength effectTube.length : K) = min 10 ((effectTube.length : K) / 4) ∧
    (∀ s ∈ smoothSpheres sin sqrt pow env effectTube,
      s.taperFactor = taperFactor effectTube.length s.interpolatedIndex ∧
      0 ≤ s.taperFactor ∧ s.taperFactor ≤ 1) ∧
    (∃ first, (smoothSpheres sin sqrt pow env effectTube).head? = some first ∧
      first.interpolatedIndex = 0 ∧ first.taperFactor = 0 ∧ first.finalRadius = 0) ∧
    (∃ last, (smoothSpheres sin sqrt pow env effectTube).getLast? = some last ∧
      last.interpolatedIndex = (effectTube.length : K) - 1 ∧ last.taperFactor = 0 ∧
      last.finalRadius = 0) := by
  refine ⟨rfl, ?_, ?_, ?_⟩
  · intro s hs
    obtain ⟨i, step, hi, hstep, rfl⟩ := smoothSpheres_mem sin sqrt pow env effectTube s hs
    obtain ⟨hidx, htf⟩ := smoothSample_index sin sqrt pow env effectTube i step
    have hsteps : (0 : K) < (smoothSteps sqrt env effectTube i : K) := by
      have := smoothSteps_pos sqrt env effectTube i
      exact_mod_cast (by omega : 0 < smoothSteps sqrt env effectTube i)
    have ht0 : (0 : K) ≤ (step : K) / (smoothSteps sqrt env effectTube i : K) :=
      div_nonneg (Nat.cast_nonneg _) (le_of_lt hsteps)
    have ht1 : (step : K) / (smoothSteps sqrt env effectTube i : K) ≤ 1 :=
      (div_le_one hsteps).2 (by exact_mod_cast hstep)
    have hi2 : ((i : K) + 1) + 1 ≤ (effectTube.length : K) := by
      exact_mod_cast (by omega : i + 1 + 1 ≤ effectTube.length)
    have hmem := taperFactor_mem effectTube.length hlen
      ((i : K) + (step : K) / (smoothSteps sqrt env effectTube i : K))
      (add_nonneg (Nat.cast_nonneg _) ht0) (by linarith)
    rw [htf, hidx]
    exact ⟨rfl, hmem⟩
  · refine ⟨_, smoothSpheres_head sin sqrt pow env effectTube hlen, ?_⟩
    obtain ⟨hidx, htf⟩ := smoothSample_index sin sqrt pow env effectTube 0 0
    have h0 : (smoothSample sin sqrt pow env effectTube 0 0).interpolatedIndex = 0 := by
      rw [hidx]
      simp
    have ht : (smoothSample sin sqrt pow env effectTube 0 0).taperFactor = 0 := by
      rw [htf, h0]
      exact taperFactor_zero _ hlen
    exact ⟨h0, ht, smoothSample_radius_zero sin sqrt pow env effectTube 0 0 ht⟩
  · refine ⟨_, smoothSpheres_getLast sin sqrt pow env effectTube hlen, ?_⟩
    obtain ⟨hidx, htf⟩ := smoothSample_index sin sqrt pow env effectTube (effectTube.length - 2)
      (smoothSteps sqrt env effectTube (effectTube.length - 2))
    have hsteps : (smoothSteps sqrt env effectTube (effectTube.length - 2) : K) ≠ 0 := by
      have := smoothSteps_pos sqrt env effectTube (effectTube.length - 2)
      exact_mod_cast (by omega : smoothSteps sqrt env effectTube (effectTube.length - 2) ≠ 0)
    have h0 : (smoothSample sin sqrt pow env effectTube (effectTube.length - 2)
        (smoothSteps sqrt env effectTube (effectTube.length - 2))).interpolatedIndex
        = (effectTube.length : K) - 1 := by
      rw [hidx, div_self hsteps, Nat.cast_sub hlen]
      push_cast
      ring
    have ht : (smoothSample sin sqrt pow env effectTube (effectTube.length - 2)
        (smoothSteps sqrt env effectTube (effectTube.length - 2))).taperFactor = 0 := by
      rw [htf, h0]
      exact taperFactor_last _ hlen
    exact ⟨h0, ht, smoothSample_radius_zero sin sqrt pow env effectTube _ _ ht⟩

/-- Witness of `smooth_taper_ends`: the straight two-point tube with the default
settings; `Math.pow` is replaced by the identity in its first argument. -/
theorem smooth_taper_ends_witness :
    (taperLength straightTube.length : ℚ) = min 10 ((straightTube.length : ℚ) / 4) ∧
    (∃ first, (smoothSpheres (fun _ => 0) ratSqrt (fun a _ => a) defaultParams
        straightTube).head? = some first ∧
      first.interpolatedIndex = 0 ∧ first.taperFactor = 0 ∧ first.finalRadius = 0) ∧
    (∃ last, (smoothSpheres (fun _ => 0) ratSqrt (fun a _ => a) defaultParams
        straightTube).getLast? = some last ∧
      last.interpolatedIndex = (straightTube.length : ℚ) - 1 ∧ last.taperFactor = 0 ∧
      last.finalRadius = 0) :=
  have h := smooth_taper_ends (fun _ => 0) ratSqrt (fun a _ => a) defaultParams straightTube
    (by decide) (by decide!)
  ⟨h.1, h.2.2.1, h.2.2.2⟩

/-! ### Export and renderer agree on the box size -/

/-- C26: for every point index, frame count, `basePixelSize` and wave
amplitude, the box size of `createSVGFromStrokes` equals the box size `wave` of
the pixel brush of `drawSimpleTube`: the p5 `map` of
`sin(i * 0.3 - frameCount * 0.1)` from `[-1, 1]` to
`[basePixelSize * 0.5, basePixelSize + waveAmp]` with the wave animation on,
`basePixelSize + waveAmp * 0.5` with the wave animation off. -/
theorem exportBoxSize_eq_pixelWave {K : Type} [LinearOrderedField K] (sin : K → K)
    (env : RenderParams K) (i : Nat) :
    exportBoxSize sin env i = pixelWave sin env i ∧
    pixelWave sin env i
      = (if env.waveAnimationEnabled then
          p5map (sin ((i : K) * (3 / 10) - env.frameCount * (1 / 10))) (-1) 1
            (env.basePixelSize * (1 / 2)) (env.basePixelSize + env.waveAmpAndBlurRadius)
        else env.basePixelSize + env.waveAmpAndBlurRadius * (1 / 2)) := by
  refine ⟨?_, rfl⟩
  unfold exportBoxSize pixelWave p5map
  by_cases hw : env.waveAnimationEnabled = true
  · simp only [hw, if_true]
    ring
  · simp only [hw, if_false, Bool.false_eq_true]

/-! ### History: the invariant of a session -/

section SessionLemmas
variable {K G : Type}

/-- The assignment of `undo()` and `redo()` succeeds when `historyIndex` is the
index of an entry. -/
theorem restore_of_lt (a : History K G) (h0 : 0 ≤ a.historyIndex)
    (h1 : a.historyIndex < (a.tubesHistory.length : Int)) :
    ∃ entry, a.tubesHistory[a.historyIndex.toNat]? = some entry ∧
      restore a = Except.ok { a with tubes := entry.tubes.map copyTube,
                                     filledCells := entry.gridCells } := by
  have hlt : a.historyIndex.toNat < a.tubesHistory.length := by omega
  refine ⟨a.tubesHistory[a.historyIndex.toNat], List.getElem?_eq_getElem hlt, ?_⟩
  unfold restore
  rw [List.getElem?_eq_getElem hlt]
  rfl

theorem saveToHistory_inv (a : History K G) (hmax : a.maxHistorySize = 50)
    (hlen : a.tubesHistory.length ≤ 50) (hlo : -1 ≤ a.historyIndex)
    (hhi : a.historyIndex < (a.tubesHistory.length : Int)) :
    (saveToHistory a).maxHistorySize = 50 ∧ (saveToHistory a).tubesHistory.length ≤ 50 ∧
    0 ≤ (saveToHistory a).historyIndex ∧
    (saveToHistory a).historyIndex = ((saveToHistory a).tubesHistory.length : Int) - 1 ∧
    (saveToHistory a).tubesHistory.getLast? = some ⟨a.tubes.map copyTube, a.filledCells⟩ ∧
    (saveToHistory a).tubes = a.tubes ∧ (saveToHistory a).filledCells = a.filledCells := by
  have htake : (a.tubesHistory.take (a.historyIndex + 1).toNat).length
      = (a.historyIndex + 1).toNat := by
    rw [List.length_take]
    omega
  have hT : (a.tubesHistory.take (a.historyIndex + 1).toNat
      ++ [(⟨a.tubes.map copyTube, a.filledCells⟩ : HistoryState K G)]).length
      = (a.historyIndex + 1).toNat + 1 := by
    rw [List.length_append, htake, List.length_singleton]
  by_cases hc : (a.tubesHistory.take (a.historyIndex + 1).toNat
      ++ [(⟨a.tubes.map copyTube, a.filledCells⟩ : HistoryState K G)]).length
      > a.maxHistorySize
  · have e : saveToHistory a = { a with tubesHistory :=
        (a.tubesHistory.take (a.historyIndex + 1).toNat
          ++ [(⟨a.tubes.map copyTube, a.filledCells⟩ : HistoryState K G)]).drop 1 } := by
      unfold saveToHistory
      simp only []
      rw [if_pos hc]
    rw [e]
    dsimp only
    rw [List.length_drop, hT]
    rw [hT] at hc
    refine ⟨hmax, by omega, by omega, by omega, ?_, rfl, rfl⟩
    cases ht : a.tubesHistory.take (a.historyIndex + 1).toNat with
    | nil =>
      rw [ht] at htake
      simp only [List.length_nil] at htake
      omega
    | cons x rest => simp
  · have e : saveToHistory a = { a with
        tubesHistory := a.tubesHistory.take (a.historyIndex + 1).toNat
          ++ [(⟨a.tubes.map copyTube, a.filledCells⟩ : HistoryState K G)],
        historyIndex := a.historyIndex + 1 } := by
      unfold saveToHistory
      simp only []
      rw [if_neg hc]
    rw [e]
    dsimp only
    rw [hT]
    rw [hT] at hc
    refine ⟨hmax, by omega, by omega, by omega, by simp, rfl, rfl⟩

/-- Every step keeps the invariant and returns; once `historyIndex >= 0` it
stays so. -/
theorem applyOp_inv (a : History K G) (op : HistoryOp K G) (hmax : a.maxHistorySize = 50)
    (hlen : a.tubesHistory.length ≤ 50) (hlo : -1 ≤ a.historyIndex)
    (hhi : a.historyIndex < (a.tubesHistory.length : Int)) :
    ∃ b, applyOp a op = Except.ok b ∧ b.maxHistorySize = 50 ∧ b.tubesHistory.length ≤ 50 ∧
      -1 ≤ b.historyIndex ∧ b.historyIndex < (b.tubesHistory.length : Int) ∧
      (0 ≤ a.historyIndex → 0 ≤ b.historyIndex) := by
  cases op with
  | save =>
    obtain ⟨h1, h2, h3, h4, _⟩ := saveToHistory_inv a hmax hlen hlo hhi
    exact ⟨saveToHistory a, rfl, h1, h2, by omega, by omega, fun _ => h3⟩
  | undo =>
    by_cases hc : a.historyIndex > 0
    · have g0 : 0 ≤ ({ a with historyIndex := a.historyIndex - 1 } : History K G).historyIndex := by
        dsimp only
        omega
      have g1 : ({ a with historyIndex := a.historyIndex - 1 } : History K G).historyIndex
          < (({ a with historyIndex := a.historyIndex - 1 } : History K G).tubesHistory.length
              : Int) := by
        dsimp only
        omega
      obtain ⟨entry, _, hr⟩ := restore_of_lt _ g0 g1
      refine ⟨{ a with historyIndex := a.historyIndex - 1, tubes := entry.tubes.map copyTube,
                       filledCells := entry.gridCells }, ?_, ?_⟩
      · simp only [applyOp, ToolFinal.undo, hc, if_true]
        exact hr
      · dsimp only
        exact ⟨hmax, hlen, by omega, by omega, fun _ => by omega⟩
    · exact ⟨a, by simp only [applyOp, ToolFinal.undo, hc, if_false]; rfl, hmax, hlen, hlo, hhi,
        fun h => h⟩
  | redo =>
    by_cases hc : a.historyIndex < (a.tubesHistory.length : Int) - 1
    · have g0 : 0 ≤ ({ a with historyIndex := a.historyIndex + 1 } : History K G).historyIndex := by
        dsimp only
        omega
      have g1 : ({ a with historyIndex := a.historyIndex + 1 } : History K G).historyIndex
          < (({ a with historyIndex := a.historyIndex + 1 } : History K G).tubesHistory.length
              : Int) := by
        dsimp only
        omega
      obtain ⟨entry, _, hr⟩ := restore_of_lt _ g0 g1
      refine ⟨{ a with historyIndex := a.historyIndex + 1, tubes := entry.tubes.map copyTube,
                       filledCells := entry.gridCells }, ?_, ?_⟩
      · simp only [applyOp, ToolFinal.redo, hc, if_true]
        exact hr
      · dsimp only
        exact ⟨hmax, hlen, by omega, by omega, fun _ => by omega⟩
    · exact ⟨a, by simp only [applyOp, ToolFinal.redo, hc, if_false]; rfl, hmax, hlen, hlo, hhi,
        fun h => h⟩
  | edit tubes cells => exact ⟨_, rfl, hmax, hlen, hlo, hhi, fun h => h⟩

theorem runOps_append (a : History K G) (ops1 ops2 : List (HistoryOp K G)) :
    runOps a (ops1 ++ ops2) = (runOps a ops1) >>= fun b => runOps b ops2 := by
  unfold runOps
  rw [List.foldlM_append]

/-- A session that starts in a state with the invariant returns, ends in a
state with the invariant, and ends with `historyIndex >= 0` when it started so
or contains a call of `saveToHistory`. -/
theorem runOps_inv (ops : List (HistoryOp K G)) :
    ∀ (a : History K G), a.maxHistorySize = 50 → a.tubesHistory.length ≤ 50 →
      -1 ≤ a.historyIndex → a.historyIndex < (a.tubesHistory.length : Int) →
      ∃ b, runOps a ops = Except.ok b ∧ b.maxHistorySize = 50 ∧ b.tubesHistory.length ≤ 50 ∧
        -1 ≤ b.historyIndex ∧ b.historyIndex < (b.tubesHistory.length : Int) ∧
        ((0 ≤ a.historyIndex ∨ HistoryOp.save ∈ ops) → 0 ≤ b.historyIndex) := by
  induction ops with
  | nil =>
    intro a hmax hlen hlo hhi
    refine ⟨a, rfl, hmax, hlen, hlo, hhi, fun h => ?_⟩
    rcases h with h | h
    · exact h
    · simp at h
  | cons op ops ih =>
    intro a hmax hlen hlo hhi
    obtain ⟨b, hb, h1, h2, h3, h4, h5⟩ := applyOp_inv a op hmax hlen hlo hhi
    obtain ⟨c, hc, g1, g2, g3, g4, g5⟩ := ih b h1 h2 h3 h4
    refine ⟨c, ?_, g1, g2, g3, g4, fun h => ?_⟩
    · simp only [runOps, List.foldlM_cons, hb, bind, Except.bind]
      exact hc
    · apply g5
      rcases h with h | h
      · exact Or.inl (h5 h)
      · rcases List.mem_cons.1 h with h | h
        · left
          subst h
          simp only [applyOp, pure, Except.pure, Except.ok.injEq] at hb
          subst hb
          exact (saveToHistory_inv a hmax hlen hlo hhi).2.2.1
        · exact Or.inr h

theorem initialHistory_inv (cells : G) :
    (initialHistory cells : History K G).maxHistorySize = 50 ∧
    (initialHistory cells : History K G).tubesHistory.length ≤ 50 ∧
    -1 ≤ (initialHistory cells : History K G).historyIndex ∧
    (initialHistory cells : History K G).historyIndex
      < ((initialHistory cells : History K G).tubesHistory.length : Int) := by
  simp [initialHistory]

end SessionLemmas

/-- C27: from the initial history (`tubesHistory = []`, `historyIndex = -1`,
`maxHistorySize = 50`), every sequence of `saveToHistory`, `undo` and `redo`
calls (with any changes of `tubes` and `filledCells` in between) returns, and
at its end `tubesHistory` holds at most 50 entries; if the sequence contains a
`saveToHistory` then `0 <= historyIndex < tubesHistory.length`; and if its last
step is a `saveToHistory` then `historyIndex = tubesHistory.length - 1` and the
last entry of `tubesHistory` is the snapshot just taken (so no redo state is
left past the index). -/
theorem history_session_invariant {K G : Type} (cells : G) (ops : List (HistoryOp K G)) :
    ∃ a : History K G, runOps (initialHistory cells) ops = Except.ok a ∧
      a.maxHistorySize = 50 ∧ a.tubesHistory.length ≤ 50 ∧
      (HistoryOp.save ∈ ops →
        0 ≤ a.historyIndex ∧ a.historyIndex < (a.tubesHistory.length : Int)) ∧
      (∀ ops1, ops = ops1 ++ [HistoryOp.save] →
        a.historyIndex = (a.tubesHistory.length : Int) - 1 ∧
        ∃ b : History K G, runOps (initialHistory cells) ops1 = Except.ok b ∧
          a.tubesHistory.getLast? = some ⟨b.tubes.map copyTube, b.filledCells⟩) := by
  obtain ⟨i1, i2, i3, i4⟩ := initialHistory_inv (K := K) cells
  obtain ⟨a, ha, h1, h2, h3, h4, h5⟩ := runOps_inv ops (initialHistory cells) i1 i2 i3 i4
  refine ⟨a, ha, h1, h2, fun hs => ⟨h5 (Or.inr hs), h4⟩, ?_⟩
  intro ops1 hops
  obtain ⟨b, hb, g1, g2, g3, g4, _⟩ := runOps_inv ops1 (initialHistory cells) i1 i2 i3 i4
  rw [hops, runOps_append, hb] at ha
  simp only [bind, Except.bind, runOps, List.foldlM_cons, List.foldlM_nil, applyOp, pure,
    Except.pure, Except.ok.injEq] at ha
  subst ha
  obtain ⟨_, _, _, s4, s5, _⟩ := saveToHistory_inv b g1 g2 g3 g4
  exact ⟨s4, b, hb, s5⟩

/-- Witness of `history_session_invariant`: save, draw a tube, save, undo. -/
theorem history_session_invariant_witness :
    ∃ a : History ℚ Unit,
      runOps (initialHistory ())
        [HistoryOp.save, HistoryOp.edit [⟨[⟨0, 0, 0⟩, ⟨1, 2, 3⟩], some 0⟩] (), HistoryOp.save,
         HistoryOp.undo] = Except.ok a ∧
      a.tubesHistory.length ≤ 50 ∧
      0 ≤ a.historyIndex ∧ a.historyIndex < (a.tubesHistory.length : Int) := by
  obtain ⟨a, ha, _, hlen, hsaved, _⟩ := history_session_invariant (K := ℚ) ()
    [HistoryOp.save, HistoryOp.edit [⟨[⟨0, 0, 0⟩, ⟨1, 2, 3⟩], some 0⟩] (), HistoryOp.save,
     HistoryOp.undo]
  exact ⟨a, ha, hlen, hsaved (by simp)⟩

/-! ### History: undo followed by redo -/

/-- C30: in every state that a session reaches from the initial history: if
`historyIndex > 0`, `undo` followed by `redo` returns, leaves `tubesHistory` and
`historyIndex` as they were and sets `tubes` to a copy of the snapshot at the
original `historyIndex`, with the same tubes and the same points in the same
order; `undo` at `historyIndex <= 0` and `redo` at
`historyIndex = tubesHistory.length - 1` change nothing. -/
theorem undo_then_redo {K G : Type} (cells : G) (ops : List (HistoryOp K G))
    (a : History K G) (hreach : runOps (initialHistory cells) ops = Except.ok a) :
    (a.historyIndex > 0 →
      ∃ (b c : History K G) (snap : HistoryState K G),
        undo a = Except.ok b ∧ redo b = Except.ok c ∧
        c.tubesHistory = a.tubesHistory ∧ c.historyIndex = a.historyIndex ∧
        a.tubesHistory[a.historyIndex.toNat]? = some snap ∧
        c.tubes = snap.tubes.map copyTube ∧
        c.tubes.map (fun t => t.points) = snap.tubes.map (fun t => t.points)) ∧
    (a.historyIndex ≤ 0 → undo a = Except.ok a) ∧
    (a.historyIndex = (a.tubesHistory.length : Int) - 1 → redo a = Except.ok a) := by
  obtain ⟨i1, i2, i3, i4⟩ := initialHistory_inv (K := K) cells
  obtain ⟨a1, ha1, _, _, hlo, hhi, _⟩ := runOps_inv ops (initialHistory cells) i1 i2 i3 i4
  rw [hreach] at ha1
  have ea : a = a1 := Except.ok.inj ha1
  subst ea
  refine ⟨fun hpos => ?_, fun hle => ?_, fun heq => ?_⟩
  · have g0 : 0 ≤ ({ a with historyIndex := a.historyIndex - 1 } : History K G).historyIndex := by
      dsimp only
      omega
    have g1 : ({ a with historyIndex := a.historyIndex - 1 } : History K G).historyIndex
        < (({ a with historyIndex := a.historyIndex - 1 } : History K G).tubesHistory.length
            : Int) := by
      dsimp only
      omega
    obtain ⟨e1, _, hr1⟩ := restore_of_lt _ g0 g1
    have k0 : 0 ≤ (History.mk (e1.tubes.map copyTube) e1.gridCells a.tubesHistory
        (a.historyIndex - 1 + 1) a.maxHistorySize).historyIndex := by
      dsimp only
      omega
    have k1 : (History.mk (e1.tubes.map copyTube) e1.gridCells a.tubesHistory
        (a.historyIndex - 1 + 1) a.maxHistorySize).historyIndex
        < ((History.mk (e1.tubes.map copyTube) e1.gridCells a.tubesHistory
          (a.historyIndex - 1 + 1) a.maxHistorySize).tubesHistory.length : Int) := by
      dsimp only
      omega
    obtain ⟨snap, hsnap, hr2⟩ := restore_of_lt _ k0 k1
    dsimp only at hsnap
    rw [sub_add_cancel] at hsnap
    refine ⟨{ a with historyIndex := a.historyIndex - 1, tubes := e1.tubes.map copyTube,
                     filledCells := e1.gridCells },
      { a with historyIndex := a.historyIndex - 1 + 1, tubes := snap.tubes.map copyTube,
               filledCells := snap.gridCells }, snap, ?_, ?_, rfl, ?_, hsnap, rfl, ?_⟩
    · simp only [undo, hpos, if_true]
      exact hr1
    · have hc : a.historyIndex - 1 < (a.tubesHistory.length : Int) - 1 := by omega
      simp only [redo, hc, if_true]
      exact hr2
    · dsimp only
      omega
    · dsimp only
      simp [List.map_map, Function.comp_def, copyTube]
  · have hc : ¬ a.historyIndex > 0 := by omega
    simp only [undo, hc, if_false]
    rfl
  · have hc : ¬ a.historyIndex < (a.tubesHistory.length : Int) - 1 := by omega
    simp only [redo, hc, if_false]
    rfl

/-- Witness of `undo_then_redo`: the state after `sessionOps` has
`historyIndex = 1`; undo followed by redo restores the tube of the second
snapshot. -/
theorem undo_then_redo_witness :
    ∃ (b c : History ℚ Unit),
      undo sessionState = Except.ok b ∧ redo b = Except.ok c ∧
      c.tubesHistory = sessionState.tubesHistory ∧ c.historyIndex = sessionState.historyIndex ∧
      c.tubes.map (fun t => t.points) = [[⟨0, 0, 0⟩, ⟨1, 2, 3⟩]] := by
  obtain ⟨b, c, snap, hb, hc, h1, h2, hsnap, _, hpts⟩ :=
    (undo_then_redo () sessionOps sessionState (by decide!)).1 (by decide)
  refine ⟨b, c, hb, hc, h1, h2, ?_⟩
  have e : sessionState.tubesHistory[sessionState.historyIndex.toNat]?
      = some ⟨[⟨[⟨0, 0, 0⟩, ⟨1, 2, 3⟩], none⟩], ()⟩ := by decide!
  rw [e] at hsnap
  rw [hpts, ← Option.some.inj hsnap]
  rfl

/-! ### `unionPolygonsClipper` -/

section FallbackLemmas
variable {K : Type} [LinearOrderedField K] {P : Type}

/-- The loop over the solutions throws when `Area` throws for one of them. -/
theorem foldlM_largestStep_error (cpr : ClipperCalls P K) (rest : List (List P)) :
    (∃ s ∈ rest, ∃ e, cpr.Area s = Except.error e) → ∀ st : List P × K,
      ∃ e, rest.foldlM (largestStep cpr) st = Except.error e := by
  induction rest with
  | nil =>
    rintro ⟨s, hs, _⟩
    simp at hs
  | cons x xs ih =>
    rintro ⟨s, hs, e, he⟩ st
    cases hx : cpr.Area x with
    | error e1 =>
      exact ⟨e1, by simp [List.foldlM_cons, largestStep, hx, bind, Except.bind]⟩
    | ok ax =>
      have hs2 : s ∈ xs := by
        rcases List.mem_cons.1 hs with h | h
        · rw [h, hx] at he
          exact Except.noConfusion he
        · exact h
      by_cases hc : |ax| > st.2
      · obtain ⟨e2, h2⟩ := ih ⟨s, hs2, e, he⟩ (x, |ax|)
        exact ⟨e2, by
          simp only [List.foldlM_cons, largestStep, hx, bind, Except.bind, hc, if_true, pure,
            Except.pure]
          exact h2⟩
      · obtain ⟨e2, h2⟩ := ih ⟨s, hs2, e, he⟩ st
        exact ⟨e2, by
          simp only [List.foldlM_cons, largestStep, hx, bind, Except.bind, hc, if_false, pure,
            Except.pure]
          exact h2⟩

/-- The loop over the solutions returns a polygon of maximal absolute area when
`Area` returns for all of them. -/
theorem foldlM_largestStep_ok (cpr : ClipperCalls P K) (rest : List (List P)) :
    (∀ s ∈ rest, ∃ a, cpr.Area s = Except.ok a) → ∀ st : List P × K,
      (∃ a, cpr.Area st.1 = Except.ok a ∧ st.2 = |a|) →
      ∃ best : List P × K, rest.foldlM (largestStep cpr) st = Except.ok best ∧
        (best.1 = st.1 ∨ best.1 ∈ rest) ∧
        (∃ a, cpr.Area best.1 = Except.ok a ∧ best.2 = |a|) ∧ st.2 ≤ best.2 ∧
        ∀ s ∈ rest, ∀ a, cpr.Area s = Except.ok a → |a| ≤ best.2 := by
  induction rest with
  | nil =>
    intro _ st hst
    exact ⟨st, rfl, Or.inl rfl, hst, le_refl _, fun s hs => by simp at hs⟩
  | cons x xs ih =>
    intro hall st hst
    obtain ⟨ax, hx⟩ := hall x (List.mem_cons_self _ _)
    have hall2 : ∀ s ∈ xs, ∃ a, cpr.Area s = Except.ok a :=
      fun s hs => hall s (List.mem_cons_of_mem _ hs)
    by_cases hc : |ax| > st.2
    · obtain ⟨best, hb, hmem, harea, hle, hmax⟩ := ih hall2 (x, |ax|) ⟨ax, hx, rfl⟩
      refine ⟨best, ?_, ?_, harea, le_trans (le_of_lt hc) hle, ?_⟩
      · simp only [List.foldlM_cons, largestStep, hx, bind, Except.bind, hc, if_true, pure,
          Except.pure]
        exact hb
      · rcases hmem with h | h
        · exact Or.inr (by rw [h]; exact List.mem_cons_self _ _)
        · exact Or.inr (List.mem_cons_of_mem _ h)
      · intro s hs a ha
        rcases List.mem_cons.1 hs with h | h
        · rw [h, hx] at ha
          rw [← Except.ok.inj ha]
          exact hle
        · exact hmax s h a ha
    · obtain ⟨best, hb, hmem, harea, hle, hmax⟩ := ih hall2 st hst
      refine ⟨best, ?_, ?_, harea, hle, ?_⟩
      · simp only [List.foldlM_cons, largestStep, hx, bind, Except.bind, hc, if_false, pure,
          Except.pure]
        exact hb
      · rcases hmem with h | h
        · exact Or.inl h
        · exact Or.inr (List.mem_cons_of_mem _ h)
      · intro s hs a ha
        rcases List.mem_cons.1 hs with h | h
        · rw [h, hx] at ha
          rw [← Except.ok.inj ha]
          exact le_trans (not_lt.1 hc) hle
        · exact hmax s h a ha

/-- The result is `poly1` whenever the `try` block throws or returns `poly1`. -/
theorem unionPolygonsClipper_fallback (cpr : ClipperCalls P K) (poly1 poly2 : List P)
    (h : (∃ e, unionTryClipper cpr poly1 poly2 = Except.error e) ∨
      unionTryClipper cpr poly1 poly2 = Except.ok poly1) :
    unionPolygonsClipper (some cpr) poly1 poly2 = poly1 := by
  unfold unionPolygonsClipper
  rcases h with ⟨e, h⟩ | h <;> simp only [h]

/-- The `try` block throws or returns `poly1` when a call throws, `Execute`
reports failure, or the solution list is empty. -/
theorem unionTryClipper_fallback (cpr : ClipperCalls P K) (poly1 poly2 : List P)
    (h : (∃ e, cpr.construct = Except.error e) ∨
      (∃ e, cpr.AddPath poly1 PolyType.ptSubject = Except.error e) ∨
      (∃ e, cpr.AddPath poly2 PolyType.ptClip = Except.error e) ∨
      (∃ e, cpr.Execute poly1 poly2 = Except.error e) ∨
      ∃ success solution, cpr.Execute poly1 poly2 = Except.ok (success, solution) ∧
        (success = false ∨ solution = [] ∨ ∃ s ∈ solution, ∃ e, cpr.Area s = Except.error e)) :
    (∃ e, unionTryClipper cpr poly1 poly2 = Except.error e) ∨
      unionTryClipper cpr poly1 poly2 = Except.ok poly1 := by
  unfold unionTryClipper
  cases hc : cpr.construct with
  | error e => exact Or.inl ⟨e, by simp [bind, Except.bind]⟩
  | ok u =>
    cases h1 : cpr.AddPath poly1 PolyType.ptSubject with
    | error e => exact Or.inl ⟨e, by simp [bind, Except.bind]⟩
    | ok u1 =>
      cases h2 : cpr.AddPath poly2 PolyType.ptClip with
      | error e => exact Or.inl ⟨e, by simp [bind, Except.bind]⟩
      | ok u2 =>
        cases h3 : cpr.Execute poly1 poly2 with
        | error e => exact Or.inl ⟨e, by simp [bind, Except.bind]⟩
        | ok r =>
          obtain ⟨success, solution⟩ := r
          simp only [bind, Except.bind]
          rcases h with ⟨e, he⟩ | ⟨e, he⟩ | ⟨e, he⟩ | ⟨e, he⟩ | ⟨s1, sol1, he, hcase⟩
          · rw [hc] at he
            exact Except.noConfusion he
          · rw [h1] at he
            exact Except.noConfusion he
          · rw [h2] at he
            exact Except.noConfusion he
          · rw [h3] at he
            exact Except.noConfusion he
          · rw [h3] at he
            have e1 : success = s1 := congrArg Prod.fst (Except.ok.inj he)
            have e2 : solution = sol1 := congrArg Prod.snd (Except.ok.inj he)
            subst e1 e2
            by_cases hg : success = false ∨ solution.length = 0
            · right
              rw [if_pos hg]
              rfl
            · rw [if_neg hg]
              cases solution with
              | nil => exact absurd (Or.inr rfl) hg
              | cons largest rest =>
                rcases hcase with hf | hnil | ⟨s, hs, e, hse⟩
                · exact absurd (Or.inl hf) hg
                · exact absurd hnil (List.cons_ne_nil _ _)
                · left
                  cases hl : cpr.Area largest with
                  | error e0 => exact ⟨e0, by simp [hl, bind, Except.bind]⟩
                  | ok a0 =>
                    have hs2 : s ∈ rest := by
                      rcases List.mem_cons.1 hs with h | h
                      · rw [h, hl] at hse
                        exact Except.noConfusion hse
                      · exact h
                    obtain ⟨e3, h3⟩ := foldlM_largestStep_error cpr rest ⟨s, hs2, e, hse⟩
                      (largest, |a0|)
                    exact ⟨e3, by simp [hl, h3, bind, Except.bind]⟩

end FallbackLemmas

/-- C29: `unionPolygonsClipper` returns `poly1` whenever `ClipperLib` is not
loaded, a clipper call throws (the constructors, `AddPath`, `Execute` or
`Area` of a solution), `Execute` reports failure, or the solution list is
empty; being a total function it never raises.  When every call returns,
`Execute` reports success and the solution list is not empty, it returns a
solution polygon whose absolute area is maximal among the solutions. -/
theorem unionPolygonsClipper_spec {K : Type} [LinearOrderedField K] {P : Type}
    (lib : Option (ClipperCalls P K)) (poly1 poly2 : List P) :
    (lib = none → unionPolygonsClipper lib poly1 poly2 = poly1) ∧
    (∀ cpr, lib = some cpr →
      ((∃ e, cpr.construct = Except.error e) ∨
        (∃ e, cpr.AddPath poly1 PolyType.ptSubject = Except.error e) ∨
        (∃ e, cpr.AddPath poly2 PolyType.ptClip = Except.error e) ∨
        (∃ e, cpr.Execute poly1 poly2 = Except.error e) ∨
        ∃ success solution, cpr.Execute poly1 poly2 = Except.ok (success, solution) ∧
          (success = false ∨ solution = [] ∨
            ∃ s ∈ solution, ∃ e, cpr.Area s = Except.error e)) →
      unionPolygonsClipper lib poly1 poly2 = poly1) ∧
    (∀ cpr solution, lib = some cpr →
      cpr.construct = Except.ok () →
      cpr.AddPath poly1 PolyType.ptSubject = Except.ok () →
      cpr.AddPath poly2 PolyType.ptClip = Except.ok () →
      cpr.Execute poly1 poly2 = Except.ok (true, solution) → solution ≠ [] →
      (∀ s ∈ solution, ∃ a, cpr.Area s = Except.ok a) →
      ∃ a, unionPolygonsClipper lib poly1 poly2 ∈ solution ∧
        cpr.Area (unionPolygonsClipper lib poly1 poly2) = Except.ok a ∧
        ∀ s ∈ solution, ∀ b, cpr.Area s = Except.ok b → |b| ≤ |a|) := by
  refine ⟨?_, ?_, ?_⟩
  · intro h
    subst h
    rfl
  · intro cpr h hfail
    subst h
    exact unionPolygonsClipper_fallback cpr poly1 poly2
      (unionTryClipper_fallback cpr poly1 poly2 hfail)
  · intro cpr solution h hc h1 h2 h3 hne hall
    subst h
    cases solution with
    | nil => exact absurd rfl hne
    | cons largest rest =>
      obtain ⟨a0, hl⟩ := hall largest (List.mem_cons_self _ _)
      obtain ⟨best, hb, hmem, ⟨a, ha, hba⟩, hle, hmax⟩ := foldlM_largestStep_ok cpr rest
        (fun s hs => hall s (List.mem_cons_of_mem _ hs)) (largest, |a0|) ⟨a0, hl, rfl⟩
      have hres : unionPolygonsClipper (some cpr) poly1 poly2 = best.1 := by
        simp [unionPolygonsClipper, unionTryClipper, hc, h1, h2, h3, hl, hb, bind, Except.bind,
          pure, Except.pure]
      rw [hres]
      refine ⟨a, ?_, ha, ?_⟩
      · rcases hmem with h | h
        · rw [h]
          exact List.mem_cons_self _ _
        · exact List.mem_cons_of_mem _ h
      · intro s hs b hsb
        rw [← hba]
        rcases List.mem_cons.1 hs with h | h
        · rw [h, hl] at hsb
          rw [← Except.ok.inj hsb]
          exact hle
        · exact hmax s h b hsb

/-- Witness of `unionPolygonsClipper_spec`: with the solutions `smallOuter`
(area 1000000) and `bigHole` (area -9000000) the result is `bigHole`, of
absolute area 9000000. -/
theorem unionPolygonsClipper_spec_witness :
    unionPolygonsClipper (some (solvingClipper [smallOuter, bigHole])) smallOuter bigHole
      = bigHole ∧
    ∃ a, unionPolygonsClipper (some (solvingClipper [smallOuter, bigHole])) smallOuter bigHole
        ∈ [smallOuter, bigHole] ∧
      (solvingClipper [smallOuter, bigHole]).Area
        (unionPolygonsClipper (some (solvingClipper [smallOuter, bigHole])) smallOuter bigHole)
        = Except.ok a ∧
      ∀ s ∈ [smallOuter, bigHole], ∀ b,
        (solvingClipper [smallOuter, bigHole]).Area s = Except.ok b → |b| ≤ |a| :=
  ⟨by decide!,
    (unionPolygonsClipper_spec (some (solvingClipper [smallOuter, bigHole])) smallOuter
      bigHole).2.2 (solvingClipper [smallOuter, bigHole]) [smallOuter, bigHole] rfl rfl rfl rfl
      rfl (by simp) (fun s _ => ⟨shoelace s, rfl⟩)⟩

/-! ### Camera: the drawing plane without rotation -/

/-- C28: with `voxelRotX = voxelRotY = 0` (and `cos 0 = 1`, `sin 0 = 0`), for
every zoom other than 0, every pan offset, every canvas size and every point
`(x, y, 0)` of the drawing plane, `screenTo3D` (with `z = 0`, as `mouseDragged`
calls it) applied to `project3DToScreen(x, y, 0)` returns `(x, y, 0)`. -/
theorem roundTrip_on_drawing_plane {K : Type} [LinearOrderedField K] (cos sin : K → K)
    (hcos : cos 0 = 1) (hsin : sin 0 = 0) (v : View K) (hrotX : v.voxelRotX = 0)
    (hrotY : v.voxelRotY = 0) (hzoom : v.voxelZoom ≠ 0) (x y : K) :
    screenTo3D cos sin v (project3DToScreen cos sin v x y 0).x
        (project3DToScreen cos sin v x y 0).y 0 = ⟨x, y, 0⟩ ∧
    roundTrip cos sin v ⟨x, y, 0⟩ = ⟨x, y, 0⟩ := by
  have key : screenTo3D cos sin v (project3DToScreen cos sin v x y 0).x
      (project3DToScreen cos sin v x y 0).y 0 = ⟨x, y, 0⟩ := by
    simp only [screenTo3D, project3DToScreen, rotateToView, hrotX, hrotY, neg_zero, hcos, hsin,
      mul_one, mul_zero, zero_mul, add_zero, sub_zero, zero_div, zero_add, Vec3.mk.injEq,
      and_true]
    constructor
    · field_simp
    · field_simp
  exact ⟨key, key⟩

/-- Witness of `roundTrip_on_drawing_plane`: over the real numbers, zoom 2, pan
`(5, 7)`, canvas 800 by 600, the point `(3, 4, 0)`. -/
theorem roundTrip_on_drawing_plane_witness :
    roundTrip Real.cos Real.sin (⟨0, 0, 2, 5, 7, 800, 600⟩ : View ℝ) ⟨3, 4, 0⟩ = ⟨3, 4, 0⟩ :=
  (roundTrip_on_drawing_plane Real.cos Real.sin Real.cos_zero Real.sin_zero
    ⟨0, 0, 2, 5, 7, 800, 600⟩ rfl rfl (by norm_num) 3 4).2

end ToolFinal
